import Mathlib

/-!
# Fracture: IR emitter and PowerPC inverse instruction selector

A shallow embedding of `lib/CodeInv/IREmitter.cpp` and
`lib/Target/PowerPC/PPCInvlSelDAG.cpp`, and theorems about them.

Conventions of the embedding
* C++ pointers that may be null are `Option`s; a dereference of a null pointer,
  a failed LLVM assertion, an operation whose behaviour C++ leaves undefined, an
  exhausted recursion budget of `visit` and an exhausted iteration bound of the
  renaming loop are the values of `Err`, and fallible code runs in `Except Err`.
* `StringRef`s are modelled by their contents (`String`).
* Debug locations (`setDebugLoc`, `SetCurrentDebugLocation`) and the
  diagnostic streams are not modelled: they influence no value below.
* What LLVM does behind the calls is modelled as far as the two files rely on
  it: an instruction or a global variable carries the name it was created with
  (the renaming that LLVM performs when the symbol table already holds that
  name is not modelled), and the type checks of the instruction constructors
  are not modelled.
-/

namespace Fracture

/-- Ways in which the translated C++ code fails to return normally.  The last
two belong to the embedding: `outOfFuel` is the exhausted recursion budget of
`visit`, `nameLoop` the exhausted iteration bound of the renaming loop. -/
inductive Err
  | nullDeref
  | assertion
  | undefined
  | outOfFuel
  | nameLoop
deriving DecidableEq, Repr

deriving instance DecidableEq for Except

/-! ## Value names (`getIndexedValueName`, `getBaseValueName`) -/

/-- The table `BaseNames` (`StringMap<StringRef>`): the newest binding of a key
comes first.  A key that is absent and a key bound to the empty string are not
told apart by the source (`BaseNames[k].empty()`, `lookup(k).empty()`), so the
empty entries that `operator[]` creates are not stored. -/
abbrev StringMap := List (String × String)

/-- Embeds `BaseNames.lookup(k)`: the bound string, or the empty string. -/
def StringMap.get (m : StringMap) (k : String) : String :=
  (m.lookup k).getD ""

/-- Embeds `BaseNames[k] = v`. -/
def StringMap.set (m : StringMap) (k v : String) : StringMap :=
  (k, v) :: m

/-- The `while (1)` loop of `getIndexedValueName`, lines 113-127.  `LastUnique`
is an `unsigned`, so `++LastUnique` is taken modulo `2 ^ 32`; the stream
insertion prints it in decimal.  The first argument bounds the number of
iterations; the result is the value of `LastUnique` when the loop returns. -/
def uniqueNameLoop (syms : List String) (bn : StringMap) (pre : String) :
    Nat → Nat → Option Nat
  | 0, _ => none
  | fuel + 1, LastUnique =>
    let next := (LastUnique + 1) % 2 ^ 32
    let UniqueName := pre ++ toString next
    if UniqueName ∉ syms ∧ bn.get UniqueName = "" then some next
    else uniqueNameLoop syms bn pre fuel next

/-- The part of the unique name to which the number is appended: the base name,
followed by `_` when the base name ends in a digit (lines 102-111).
`BaseName[Size-1]` on an empty name is an out-of-range index. -/
def uniqueStem (BaseName : String) : Except Err String :=
  match BaseName.data.getLast? with
  | none => .error .assertion
  | some c => .ok (if c ≤ '9' ∧ c ≥ '0' then BaseName ++ "_" else BaseName)

/-- Embeds `IREmitter::getIndexedValueName`, lines 89-128.  `syms` holds the names in
the module's value symbol table (`ST.lookup(n) != NULL` iff `n ∈ syms`).  The
loop is run for at most `syms.length + bn.length + 1` iterations, which is
enough for it to return (`getIndexedValueName_returns`). -/
def getIndexedValueName (syms : List String) (bn : StringMap) (BaseName : String) :
    Except Err (String × StringMap) :=
  if BaseName ∉ syms then .ok (BaseName, bn)
  else do
    let pre ← uniqueStem BaseName
    match uniqueNameLoop syms bn pre (syms.length + bn.length + 1) 0 with
    | none => .error .nameLoop
    | some k => .ok (pre ++ toString k, bn.set (pre ++ toString k) BaseName)

/-- Embeds `IREmitter::getBaseValueName`, lines 130-138. -/
def getBaseValueName (bn : StringMap) (BaseName : String) : String :=
  let Res := bn.get BaseName
  if Res = "" then BaseName else Res

/-- What happens to the name tables between two resets: a module-level symbol
is declared (a register's global cell), or a name is requested. -/
inductive NameEvent
  | declare (sym : String)
  | request (BaseName : String)
deriving DecidableEq, Repr

/-- The symbol table and `BaseNames`. -/
structure NameState where
  syms : List String
  BaseNames : StringMap
deriving DecidableEq, Repr

/-- One answered request: the base name passed, whether it was found in the
symbol table (the renaming path was taken), and the name returned. -/
structure NameAnswer where
  BaseName : String
  collided : Bool
  name : String
deriving DecidableEq, Repr

/-- Runs a sequence of events, oldest first, collecting the answers. -/
def runNames : NameState → List NameEvent → Except Err (List NameAnswer × NameState)
  | st, [] => .ok ([], st)
  | st, .declare sym :: evs => runNames { st with syms := sym :: st.syms } evs
  | st, .request b :: evs => do
    let (nm, bn) ← getIndexedValueName st.syms st.BaseNames b
    let (outs, st') ← runNames { st with BaseNames := bn } evs
    .ok (⟨b, decide (b ∈ st.syms), nm⟩ :: outs, st')

/-! ## The operation graph (`SelectionDAG`) -/

/-- The machine value types that occur: `MVT::Other` is the type of a chain
result. -/
inductive MVT
  | Other
  | Glue
  | i1
  | i8
  | i16
  | i32
  | i64
deriving DecidableEq, Repr

/-- Width in bits of an integer value type (0 for the two token types). -/
def MVT.bits : MVT → Nat
  | .Other => 0
  | .Glue => 0
  | .i1 => 1
  | .i8 => 8
  | .i16 => 16
  | .i32 => 32
  | .i64 => 64

/-- The target-independent opcodes `ISD::*` that the two files name. -/
inductive ISD
  | EntryToken | HANDLENODE | UNDEF | CopyFromReg | CopyToReg | Constant
  | TargetConstant | Register | TokenFactor | MERGE_VALUES
  | ADD | SUB | ADDC | SUBC | ADDE | SUBE | MUL | SDIV | UDIV | SREM | UREM
  | MULHU | MULHS | SMUL_LOHI | UMUL_LOHI | SMULO | UMULO | SDIVREM | UDIVREM
  | AND | OR | XOR | SHL | SRA | SRL | ROTL
  | CTLZ | CTLZ_ZERO_UNDEF | CTTZ | CTTZ_ZERO_UNDEF | CTPOP
  | SELECT | VSELECT | SELECT_CC | SETCC
  | SIGN_EXTEND | ZERO_EXTEND | ANY_EXTEND | SIGN_EXTEND_INREG | TRUNCATE
  | BITCAST | BUILD_PAIR
  | FADD | FSUB | FMUL | FMA | FDIV | FREM | FCOPYSIGN
  | SINT_TO_FP | UINT_TO_FP | FP_TO_SINT | FP_TO_UINT
  | FP_ROUND | FP_ROUND_INREG | FP_EXTEND | FNEG | FABS | FFLOOR | FCEIL | FTRUNC
  | BR | BRCOND | BR_CC | LOAD | STORE
  | INSERT_VECTOR_ELT | EXTRACT_VECTOR_ELT | BUILD_VECTOR | CONCAT_VECTORS
  | EXTRACT_SUBVECTOR | VECTOR_SHUFFLE
deriving DecidableEq, Repr

/-- The PowerPC machine opcodes `PPC::*` that `Transmogrify` names, and a
catch-all for the others. -/
inductive PPC
  | STD | STDU | STW | B | BL | RLDICL
  | other (code : Nat)
deriving DecidableEq, Repr

/-- The target-specific, not yet machine, opcodes `PPCISD::*`. -/
inductive PPCISD
  | RET_FLAG
  | other (code : Nat)
deriving DecidableEq, Repr

/-- An opcode of a node: a named `ISD::*` opcode, another target-independent
opcode, a `PPCISD::*` opcode, or a machine opcode (`isMachineOpcode()` holds
for the last form only). -/
inductive Opcode
  | isd (o : ISD)
  | otherISD (code : Nat)
  | target (o : PPCISD)
  | machine (o : PPC)
deriving DecidableEq, Repr

/-- The class `SDValue`: a node, by its index in the graph, and one of its results. -/
structure SDValue where
  node : Nat
  resNo : Nat
deriving DecidableEq, Repr

/-- The class `MachineMemOperand`, as `Transmogrify` builds it: a store (`MOStore`) of
`size` bytes at unknown pointer info with base alignment 0. -/
structure MachineMemOperand where
  size : Nat
deriving DecidableEq, Repr

/-- The class `SDNode`.  `imm` carries what the subclass adds: the value of a
`ConstantSDNode` (as an unsigned number), the register of a `RegisterSDNode`.
`memoperands` is the number of memory operands of a `MachineSDNode`, `mmo` the
memory operand of a `StoreSDNode`.  As in LLVM, the subclass of a node is
decided by its opcode (`classof`). -/
structure SDNode where
  opc : Opcode
  ops : List SDValue
  vts : List MVT
  imm : Nat
  memoperands : Nat
  mmo : Option MachineMemOperand
deriving DecidableEq, Repr

/-- The graph: its nodes, a node being named by its position.  Nodes are only
ever appended. -/
abbrev DAG := List SDNode

/-- Following a node pointer. -/
def DAG.getNode (g : DAG) (N : Nat) : Except Err SDNode :=
  match g[N]? with
  | some n => .ok n
  | none => .error .nullDeref

/-- Embeds `N->getOperand(i)`, which asserts `i < NumOperands`. -/
def SDNode.getOperand (n : SDNode) (i : Nat) : Except Err SDValue :=
  match n.ops[i]? with
  | some v => .ok v
  | none => .error .assertion

/-- Embeds `N->getValueType(i)`, which asserts `i < NumValues`. -/
def SDNode.getValueType (n : SDNode) (i : Nat) : Except Err MVT :=
  match n.vts[i]? with
  | some v => .ok v
  | none => .error .assertion

/-- Embeds `V.getValueType()` of an `SDValue`. -/
def DAG.valueType (g : DAG) (v : SDValue) : Except Err MVT := do
  let n ← g.getNode v.node
  n.getValueType v.resNo

/-- Embeds `isa<ConstantSDNode>`. -/
def SDNode.isConstant (n : SDNode) : Bool :=
  n.opc = .isd .Constant || n.opc = .isd .TargetConstant

/-- Embeds `isa<RegisterSDNode>`. -/
def SDNode.isRegister (n : SDNode) : Bool :=
  n.opc = .isd .Register

/-- The uses of the results of node `N`, as pairs of the using node and the
value used.  LLVM links a new use at the head of the use list, so the uses are
listed from the newest node to the oldest and, within a node, from the last
operand to the first. -/
def DAG.uses (g : DAG) (N : Nat) : List (Nat × SDValue) :=
  ((g.enum.map (fun (u, n) => (n.ops.filter (fun v => v.node = N)).map
      (fun v => (u, v)))).flatten).reverse

/-- Embeds `N->hasAnyUseOfValue(r)`. -/
def DAG.hasAnyUseOfValue (g : DAG) (N r : Nat) : Bool :=
  (g.uses N).any (fun u => u.2.resNo = r)

/-! ## The IR that is emitted -/

/-- IR types: what `getTypeForEVT` yields, and pointers to them. -/
inductive Ty
  | void
  | int (bits : Nat)
  | ptr (elem : Ty)
deriving DecidableEq, Repr

/-- Embeds `EVT::getTypeForEVT`; the token types have no IR type. -/
def getTypeForEVT : MVT → Except Err Ty
  | .Other => .error .assertion
  | .Glue => .error .assertion
  | vt => .ok (.int vt.bits)

/-- The class `llvm::Value`, restricted to what the emitter creates.  An instruction
carries the serial number `id` of its creation, which stands for its address:
two instructions built alike at different times are different values. -/
inductive Value
  | constInt (ty : Ty) (val : Nat)
  | global (name : String) (ty : Ty)
  | alloca (id : Nat) (ty : Ty) (name : String)
  | load (id : Nat) (ptr : Value) (name : String)
  | store (id : Nat) (val ptr : Value)
  | add (id : Nat) (lhs rhs : Value) (name : String)
  | sub (id : Nat) (lhs rhs : Value) (name : String)
  | intToPtr (id : Nat) (v : Value) (ty : Ty) (name : String)
  | ret (id : Nat)
deriving DecidableEq, Repr

/-- Embeds `V->getName()`. -/
def Value.getName : Value → String
  | .constInt _ _ => ""
  | .global name _ => name
  | .alloca _ _ name => name
  | .load _ _ name => name
  | .store _ _ _ => ""
  | .add _ _ _ name => name
  | .sub _ _ _ name => name
  | .intToPtr _ _ _ name => name
  | .ret _ => ""

/-- Embeds `V->getType()`. -/
def Value.getType : Value → Ty
  | .constInt ty _ => ty
  | .global _ ty => .ptr ty
  | .alloca _ ty _ => .ptr ty
  | .load _ p _ =>
    match p.getType with
    | .ptr t => t
    | _ => .void
  | .store _ _ _ => .void
  | .add _ l _ _ => l.getType
  | .sub _ l _ _ => l.getType
  | .intToPtr _ _ ty _ => ty
  | .ret _ => .void

/-- Embeds `Ty->isPointerTy()`. -/
def Ty.isPointerTy : Ty → Bool
  | .ptr _ => true
  | _ => false

/-- Embeds `isa<Constant>(V)`: constants and globals. -/
def Value.isConstant : Value → Bool
  | .constInt _ _ => true
  | .global _ _ => true
  | _ => false

/-- Embeds `ReturnInst::classof(V)`. -/
def Value.isReturnInst : Value → Bool
  | .ret _ => true
  | _ => false

/-- The values that a visitor returns or inserts at `IRB`: neither a slot
allocation, nor a global, nor a return instruction. -/
def Value.isBodyValue : Value → Bool
  | .constInt _ _ => true
  | .load _ _ _ => true
  | .store _ _ _ => true
  | .add _ _ _ _ => true
  | .sub _ _ _ _ => true
  | .intToPtr _ _ _ _ => true
  | _ => false

/-- Embeds `isa<AllocaInst>(V)`. -/
def Value.isAlloca : Value → Bool
  | .alloca _ _ _ => true
  | _ => false

/-- A global variable of the module: name, value type, and initializer (the
only initializer built here is the null value, 0). -/
structure GlobalVariable where
  name : String
  ty : Ty
  init : Nat
deriving DecidableEq, Repr

/-- What the register description supplies: `getNumRegs()`, and for a register
number the text that `PrintReg` prints for it without its leading `%`. -/
structure RegInfo where
  numRegs : Nat
  name : Nat → String

/-- The state that the emitter reads and writes.
* `RegMap`, `VisitMap`, `BaseNames`: the three members of `IREmitter`.  Every
  assignment `VisitMap[N] = Res` of the source follows a dereference of `Res`,
  so the values of `VisitMap` are not null; the newest binding comes first.
* `globals`: the global variables of the module, newest first; `funcs`: the
  other names in the module's value symbol table.
* `blocks`: the basic blocks of the function under construction, the entry
  block first; `cur`: the block `IRB` inserts into, at its end.
* `nextId`: the serial number of the next instruction.
-/
structure Emitter where
  RegMap : List (Option Value)
  VisitMap : List (Nat × Value)
  BaseNames : StringMap
  globals : List GlobalVariable
  funcs : List String
  blocks : List (List Value)
  cur : Nat
  nextId : Nat
deriving DecidableEq, Repr

/-- The names in `Dec->getModule()->getValueSymbolTable()`. -/
def Emitter.symbols (s : Emitter) : List String :=
  s.globals.map (fun gv => gv.name) ++ s.funcs

/-- Embeds `Dec->getModule()->getGlobalVariable(Name)`. -/
def Emitter.getGlobalVariable (s : Emitter) (Name : String) : Option Value :=
  match s.globals.find? (fun gv => gv.name = Name) with
  | some gv => some (.global gv.name gv.ty)
  | none => none

/-- The function `getIndexedValueName` on the emitter's tables. -/
def Emitter.indexedName (s : Emitter) (BaseName : String) :
    Except Err (String × Emitter) := do
  let (nm, bn) ← getIndexedValueName s.symbols s.BaseNames BaseName
  .ok (nm, { s with BaseNames := bn })

/-- Embeds `RegMap[i]` of the `IndexedMap`, which asserts that `i` is in range. -/
def Emitter.regSlot (s : Emitter) (i : Nat) : Except Err (Option Value) :=
  match s.RegMap[i]? with
  | some a => .ok a
  | none => .error .assertion

/-- Embeds `VisitMap[N] = Res`. -/
def Emitter.cache (s : Emitter) (N : Nat) (Res : Value) : Emitter :=
  { s with VisitMap := (N, Res) :: s.VisitMap }

/-- Embeds `IRB->Create...`: the instruction `mk id`, with a new serial number,
is appended to the block `IRB` inserts into.  When `IRB` has no insertion block
(`cur` names no block) the instruction is created without being inserted
anywhere, as `IRBuilder` does; the call itself never fails. -/
def Emitter.emit (s : Emitter) (mk : Nat → Value) : Except Err (Value × Emitter) :=
  .ok (mk s.nextId,
    { s with blocks := s.blocks.modify (fun b => b ++ [mk s.nextId]) s.cur,
             nextId := s.nextId + 1 })

/-! ## The emitter (`IREmitter.cpp`) -/

/-- The type of `IREmitter::visit` once graph and recursion budget are fixed:
from a node and a state to the value (`none` for `NULL`) and the new state. -/
abbrev Visit := Nat → Emitter → Except Err (Option Value × Emitter)

/-- Lines 474-483 of `visitRegister`: the global variable `RegName` of the
module, created with the null value as initializer when there is none. -/
def Emitter.globalFor (s : Emitter) (RegName : String) (Ty : Ty) : Value × Emitter :=
  match s.getGlobalVariable RegName with
  | some RegGbl => (RegGbl, s)
  | none => (Value.global RegName Ty, { s with globals := ⟨RegName, Ty, 0⟩ :: s.globals })

/-- Embeds `IREmitter::visitRegister`, lines 457-502.  The three instructions are
inserted, in this order, before the instruction that was the first of the
entry block (`TmpB` is positioned at `getEntryBlock().begin()`).  A new global
variable is registered under the name asked for. -/
def visitRegister (ri : RegInfo) (g : DAG) (N : Nat) (s : Emitter) :
    Except Err (Option Value × Emitter) := do
  let n ← g.getNode N
  if !n.isRegister then .ok (none, s)
  else
    match ← s.regSlot n.imm with
    | some RegAlloca => .ok (some RegAlloca, s)
    | none => do
      let RegName := ri.name n.imm
      let Ty ← getTypeForEVT (← n.getValueType 0)
      let (RegGbl, s1) := s.globalFor RegName Ty
      if s1.cur < s1.blocks.length then
        let RegAlloca := Value.alloca s1.nextId Ty RegName
        let (nm, s2) ← s1.indexedName RegName
        let RegLoad := Value.load (s1.nextId + 1) RegGbl nm
        let RegStore := Value.store (s1.nextId + 2) RegLoad RegAlloca
        .ok (some RegAlloca,
          { s2 with
              blocks := s2.blocks.modify (fun b => [RegAlloca, RegLoad, RegStore] ++ b) 0,
              nextId := s1.nextId + 3,
              RegMap := s2.RegMap.set n.imm (some RegAlloca) })
      else .error .nullDeref

/-- Embeds `IREmitter::getInstructionName`, lines 140-149: the first user, in use-list
order, that is a `CopyToReg` decides. -/
def getInstructionName (ri : RegInfo) (g : DAG) (N : Nat) (s : Emitter) :
    Except Err (String × Emitter) :=
  match (g.uses N).find? (fun u => (g[u.1]?.map (fun n => n.opc)) = some (.isd .CopyToReg)) with
  | none => .ok ("", s)
  | some u => do
    let user ← g.getNode u.1
    let op1 ← user.getOperand 1
    match ← visitRegister ri g op1.node s with
    | (none, _) => .error .nullDeref
    | (some RegVal, s1) => s1.indexedName RegVal.getName

/-- Embeds `IREmitter::visitCopyFromReg`, lines 255-276. -/
def visitCopyFromReg (ri : RegInfo) (g : DAG) (N : Nat) (s : Emitter) :
    Except Err (Option Value × Emitter) := do
  let n ← g.getNode N
  if !g.hasAnyUseOfValue N 0 then .ok (none, s)
  else
    let op1 ← n.getOperand 1
    match ← visitRegister ri g op1.node s with
    | (none, s1) => .ok (none, s1)
    | (some RegVal, s1) => do
      let (Name, s2) ← s1.indexedName RegVal.getName
      let (Res, s3) ← s2.emit (fun id => .load id RegVal Name)
      .ok (some Res, s3.cache N Res)

/-- Embeds `IREmitter::visitCopyToReg`, lines 278-293. -/
def visitCopyToReg (ri : RegInfo) (g : DAG) (visit : Visit) (N : Nat) (s : Emitter) :
    Except Err (Option Value × Emitter) := do
  let n ← g.getNode N
  let op1 ← n.getOperand 1
  let (RegVal, s1) ← visitRegister ri g op1.node s
  let op2 ← n.getOperand 2
  let (V, s2) ← visit op2.node s1
  match V, RegVal with
  | some v, some r => do
    let (Res, s3) ← s2.emit (fun id => .store id v r)
    .ok (some Res, s3.cache N Res)
  | _, _ => .ok (none, s2)

/-- Embeds `IREmitter::visitConstant`, lines 295-306. -/
def visitConstant (g : DAG) (N : Nat) (s : Emitter) :
    Except Err (Option Value × Emitter) := do
  let n ← g.getNode N
  if n.isConstant then
    let Ty ← getTypeForEVT (← n.getValueType 0)
    let Res := Value.constInt Ty n.imm
    .ok (some Res, s.cache N Res)
  else .ok (none, s)

/-- The statement `if (BaseName.empty()) BaseName = getBaseValueName(Op->getName());`
of lines 317-322 and 335-340; `Op->getName()` dereferences `Op`. -/
def baseNameFrom (bn : StringMap) (BaseName : String) (Op : Option Value) :
    Except Err String :=
  if BaseName = "" then
    match Op with
    | none => .error .nullDeref
    | some v => .ok (getBaseValueName bn v.getName)
  else .ok BaseName

/-- The common body of `visitADD` (lines 312-328) and `visitSUB` (lines
330-346), which differ in the instruction built, `mk`.  Dereferencing a `NULL`
operand (`Op0->getName()`, or inside `CreateAdd`) fails.  When both operands are
constants `IRBuilder` folds the operation into a constant, `dyn_cast<Instruction>`
of it is `NULL`, and `Res->setDebugLoc` dereferences it. -/
def visitBinary (mk : Nat → Value → Value → String → Value) (ri : RegInfo) (g : DAG)
    (visit : Visit) (N : Nat) (s : Emitter) : Except Err (Option Value × Emitter) := do
  let n ← g.getNode N
  let (Op0, s1) ← visit (← n.getOperand 0).node s
  let (Op1, s2) ← visit (← n.getOperand 1).node s1
  let (BaseName, s3) ← getInstructionName ri g N s2
  let BaseName ← baseNameFrom s3.BaseNames BaseName Op0
  let BaseName ← baseNameFrom s3.BaseNames BaseName Op1
  let (Name, s4) ← s3.indexedName BaseName
  match Op0, Op1 with
  | some a, some b =>
    if a.isConstant && b.isConstant then .error .nullDeref
    else do
      let (Res, s5) ← s4.emit (fun id => mk id a b Name)
      .ok (some Res, s5.cache N Res)
  | _, _ => .error .nullDeref

/-- Embeds `IREmitter::visitADD`, lines 312-328. -/
def visitADD := visitBinary Value.add

/-- Embeds `IREmitter::visitSUB`, lines 330-346. -/
def visitSUB := visitBinary Value.sub

/-- The address conversion shared by `visitLOAD` (lines 418-421) and
`visitSTORE` (lines 439-442): a value that is not a pointer is cast with
`CreateIntToPtr`.  For a constant the cast is folded into a constant, and
`dyn_cast<Instruction>(Addr)->setDebugLoc` dereferences `NULL`. -/
def addrToPtr (Addr : Value) (Name : String) (s : Emitter) :
    Except Err (Value × Emitter) :=
  if !Addr.getType.isPointerTy then
    if Addr.isConstant then .error .nullDeref
    else s.emit (fun id => .intToPtr id Addr (.ptr Addr.getType) Name)
  else .ok (Addr, s)

/-- Embeds `IREmitter::visitLOAD`, lines 409-427. -/
def visitLOAD (visit : Visit) (g : DAG) (N : Nat) (s : Emitter) :
    Except Err (Option Value × Emitter) := do
  let n ← g.getNode N
  match ← visit (← n.getOperand 0).node s with
  | (none, _) => .error .nullDeref
  | (some Addr, s1) => do
    let BaseName := getBaseValueName s1.BaseNames Addr.getName
    let (Name, s2) ← s1.indexedName BaseName
    let (Addr, s3) ← addrToPtr Addr Name s2
    let (Name, s4) ← s3.indexedName BaseName
    let (Res, s5) ← s4.emit (fun id => .load id Addr Name)
    .ok (some Res, s5.cache N Res)

/-- Embeds `IREmitter::visitSTORE`, lines 429-448.  `CreateStore` reads the type of the
value stored, so a `NULL` value fails as well. -/
def visitSTORE (visit : Visit) (g : DAG) (N : Nat) (s : Emitter) :
    Except Err (Option Value × Emitter) := do
  let n ← g.getNode N
  let (StoreVal, s1) ← visit (← n.getOperand 0).node s
  match ← visit (← n.getOperand 1).node s1 with
  | (none, _) => .error .nullDeref
  | (some Addr, s2) => do
    let (Name, s3) ← s2.indexedName (getBaseValueName s2.BaseNames Addr.getName)
    let (Addr, s4) ← addrToPtr Addr Name s3
    match StoreVal with
    | none => .error .nullDeref
    | some v => do
      let (Res, s5) ← s4.emit (fun id => .store id v Addr)
      .ok (some Res, s5.cache N Res)

/-- The branch of the `switch` in `IREmitter::visit` that an opcode takes. -/
inductive Visitor
  | unknown
  | nothing
  | returnsNull
  | CopyFromReg
  | CopyToReg
  | Constant
  | ADD
  | SUB
  | LOAD
  | STORE
deriving DecidableEq, Repr

/-- The `switch` of `IREmitter::visit`, lines 165-251: `nothing` for the three
"do nothing" nodes, `returnsNull` for the opcodes whose visitor consists of
`return NULL;` (lines 309-310, 348-407, 450-455), `unknown` for the `default`
label. -/
def visitorOf : Opcode → Visitor
  | .isd .EntryToken | .isd .HANDLENODE | .isd .UNDEF => .nothing
  | .isd .CopyFromReg => .CopyFromReg
  | .isd .CopyToReg => .CopyToReg
  | .isd .Constant => .Constant
  | .isd .ADD => .ADD
  | .isd .SUB => .SUB
  | .isd .LOAD => .LOAD
  | .isd .STORE => .STORE
  | .isd .TokenFactor | .isd .MERGE_VALUES
  | .isd .ADDC | .isd .SUBC | .isd .ADDE | .isd .SUBE | .isd .MUL | .isd .SDIV
  | .isd .UDIV | .isd .SREM | .isd .UREM | .isd .MULHU | .isd .MULHS
  | .isd .SMUL_LOHI | .isd .UMUL_LOHI | .isd .SMULO | .isd .UMULO
  | .isd .SDIVREM | .isd .UDIVREM | .isd .AND | .isd .OR | .isd .XOR
  | .isd .SHL | .isd .SRA | .isd .SRL | .isd .CTLZ | .isd .CTLZ_ZERO_UNDEF
  | .isd .CTTZ | .isd .CTTZ_ZERO_UNDEF | .isd .CTPOP | .isd .SELECT
  | .isd .VSELECT | .isd .SELECT_CC | .isd .SETCC | .isd .SIGN_EXTEND
  | .isd .ZERO_EXTEND | .isd .ANY_EXTEND | .isd .SIGN_EXTEND_INREG
  | .isd .TRUNCATE | .isd .BITCAST | .isd .BUILD_PAIR | .isd .FADD | .isd .FSUB
  | .isd .FMUL | .isd .FMA | .isd .FDIV | .isd .FREM | .isd .FCOPYSIGN
  | .isd .SINT_TO_FP | .isd .UINT_TO_FP | .isd .FP_TO_SINT | .isd .FP_TO_UINT
  | .isd .FP_ROUND | .isd .FP_ROUND_INREG | .isd .FP_EXTEND | .isd .FNEG
  | .isd .FABS | .isd .FFLOOR | .isd .FCEIL | .isd .FTRUNC | .isd .BRCOND
  | .isd .BR_CC | .isd .INSERT_VECTOR_ELT | .isd .EXTRACT_VECTOR_ELT
  | .isd .BUILD_VECTOR | .isd .CONCAT_VECTORS | .isd .EXTRACT_SUBVECTOR
  | .isd .VECTOR_SHUFFLE => .returnsNull
  | _ => .unknown

/-- Embeds `IREmitter::visit`, lines 151-253.  The first argument bounds the depth of
the recursion. -/
def visit (ri : RegInfo) (g : DAG) : Nat → Visit
  | 0, _, _ => .error .outOfFuel
  | fuel + 1, N, s =>
    match s.VisitMap.lookup N with
    | some v => .ok (some v, s)
    | none => do
      let n ← g.getNode N
      match visitorOf n.opc with
      | .unknown => .ok (none, s)
      | .nothing => .ok (none, s)
      | .returnsNull => .ok (none, s)
      | .CopyFromReg => visitCopyFromReg ri g N s
      | .CopyToReg => visitCopyToReg ri g (visit ri g fuel) N s
      | .Constant => visitConstant g N s
      | .ADD => visitADD ri g (visit ri g fuel) N s
      | .SUB => visitSUB ri g (visit ri g fuel) N s
      | .LOAD => visitLOAD (visit ri g fuel) g N s
      | .STORE => visitSTORE (visit ri g fuel) g N s

/-- One turn of the loop of `EmitIR`, lines 60-78, for register `i`: the load
and the store are inserted before the last instruction of the block. -/
def flushRegister (s : Emitter) (i : Nat) : Except Err Emitter := do
  match ← s.regSlot i with
  | none => .ok s
  | some RegAlloca =>
    let RegName := RegAlloca.getName
    match s.getGlobalVariable RegName with
    | none => .ok s
    | some RegGbl => do
      let (nm, s1) ← s.indexedName RegName
      let RegLoad := Value.load s1.nextId RegAlloca nm
      let RegStore := Value.store (s1.nextId + 1) RegLoad RegGbl
      .ok { s1 with
        blocks := s1.blocks.modify
          (fun b => b.dropLast ++ [RegLoad, RegStore] ++ b.getLast?.toList) s1.cur,
        nextId := s1.nextId + 2 }

/-- The loop of `EmitIR`, lines 60-78, from register `i` on, for `count` turns. -/
def flushLoop : Nat → Nat → Emitter → Except Err Emitter
  | 0, _, s => .ok s
  | count + 1, i, s => do
    let s1 ← flushRegister s i
    flushLoop count (i + 1) s1

/-- The body of the `if` in `EmitIR`, lines 53-86.  `--IB->end()` needs an
insertion block that is not empty.  The loop `for (i = 1; i != NumRegs; ++i)` on
`unsigned` makes `(NumRegs - 1) mod 2 ^ 32` turns.  `RegMap.grow(n)` makes the
indices `0 .. n` valid. -/
def flushAndReset (ri : RegInfo) (s : Emitter) : Except Err Emitter := do
  match s.blocks[s.cur]? with
  | none => .error .nullDeref
  | some IB =>
    if IB = [] then .error .assertion
    else
      let s1 ← flushLoop ((ri.numRegs + (2 ^ 32 - 1)) % 2 ^ 32) 1 s
      .ok { s1 with
        RegMap := List.replicate (ri.numRegs + 1) none,
        VisitMap := [],
        BaseNames := [] }

/-- Embeds `IREmitter::EmitIR`, lines 37-87.  `visit` is a virtual member function of
the emitter, so the function called at line 49 is a parameter.  `NodeStack` has
its top first; the parameter `OpMap` is not used by the source. -/
def EmitIR (ri : RegInfo) (visitFn : Visit) (g : DAG) (CurNode : Nat)
    (NodeStack : List Nat) (s : Emitter) : Except Err (List Nat × Emitter) := do
  let n ← g.getNode CurNode
  let NodeStack := (g.uses CurNode).foldl
    (fun st u => if n.vts[u.2.resNo]? = some MVT.Other then u.1 :: st else st) NodeStack
  let (IRVal, s1) ← visitFn CurNode s
  match IRVal with
  | some v =>
    if v.isReturnInst then do
      let s2 ← flushAndReset ri s1
      .ok (NodeStack, s2)
    else .ok (NodeStack, s1)
  | none => .ok (NodeStack, s1)

/-- Modelled from the spec: the visitor of the target emitter for a return node.
`PowerPCIREmitter::visit` is declared in `PowerPCIREmitter.h`, its body is not
among the sources; the spec has a return node yield a return instruction at the
insertion point, which is what makes `EmitIR` flush the registers. -/
def visitRET (s : Emitter) : Except Err (Option Value × Emitter) := do
  let (Res, s1) ← s.emit (fun id => .ret id)
  .ok (some Res, s1)

/-- Modelled from the spec: `PowerPCIREmitter::visit`, the override of `visit`
that `EmitIR` calls for the PowerPC target: a return node is translated by
`visitRET`, every other node by `IREmitter::visit`. -/
def targetVisit (ri : RegInfo) (g : DAG) (fuel : Nat) : Visit := fun N s =>
  match g[N]? with
  | some n =>
    if n.opc = .target .RET_FLAG then visitRET s else visit ri g fuel N s
  | none => visit ri g fuel N s

/-- The emitter after construction (lines 24-31) for a module without global
variables, with `IRB` set to the only, empty, block of a new function. -/
def Emitter.init (ri : RegInfo) : Emitter :=
  { RegMap := List.replicate (ri.numRegs + 1) none, VisitMap := [], BaseNames := [],
    globals := [], funcs := [], blocks := [[]], cur := 0, nextId := 0 }

/-- Feeding `EmitIR` the nodes of a list one after the other, as the driver
does with the nodes it takes from the stack. -/
def emitNodes (ri : RegInfo) (visitFn : Visit) (g : DAG) :
    List Nat → List Nat → Emitter → Except Err (List Nat × Emitter)
  | [], stack, s => .ok (stack, s)
  | N :: rest, stack, s => do
    let (stack1, s1) ← EmitIR ri visitFn g N stack s
    emitNodes ri visitFn g rest stack1 s1

/-! ## The inverse instruction selector (`PPCInvlSelDAG.cpp`) -/

/-- The shift `x << s` on `uint64_t`: the behaviour is undefined unless `s < 64`. -/
def shl64 (x s : Nat) : Except Err Nat :=
  if s < 64 then .ok (x * 2 ^ s % 2 ^ 64) else .error .undefined

/-- The construction of the mask in the `PPC::RLDICL` case, lines 248-256, from
the value `MBVal` of the operand `MB`; all arithmetic is on `uint64_t`. -/
def rldiclMask (MBVal : Nat) : Except Err Nat := do
  let C1 ← (List.range MBVal).foldlM
    (fun C1 i => do
      let bit ← shl64 1 i
      .ok ((C1 + bit) % 2 ^ 64)) 0
  let Shift := (64 + (2 ^ 64 - MBVal % 2 ^ 64)) % 2 ^ 64
  shl64 C1 Shift

/-- The number of one-bits among the 64 low bits of a number. -/
def popcount64 (x : Nat) : Nat :=
  ((List.range 64).filter (fun i => x.testBit i)).length

/-- Adding a node to the graph.  The graph operations below allocate a node on
every call: the sharing of equal nodes, the folding of constants and the
reordering of operands that `SelectionDAG::getNode` may perform are not
modelled. -/
def DAG.add (g : DAG) (n : SDNode) : SDValue × DAG :=
  (⟨g.length, 0⟩, g ++ [n])

/-- Embeds `CurDAG->getNode(Opc, DL, VT, Ops...)`. -/
def DAG.mkNode (g : DAG) (Opc : ISD) (VT : MVT) (Ops : List SDValue) : SDValue × DAG :=
  g.add ⟨.isd Opc, Ops, [VT], 0, 0, none⟩

/-- Embeds `CurDAG->getConstant(Val, VT)`. -/
def DAG.getConstant (g : DAG) (Val : Nat) (VT : MVT) : SDValue × DAG :=
  g.add ⟨.isd .Constant, [], [VT], Val % 2 ^ VT.bits, 0, none⟩

/-- Embeds `CurDAG->getUNDEF(VT)`. -/
def DAG.getUNDEF (g : DAG) (VT : MVT) : SDValue × DAG :=
  g.mkNode .UNDEF VT []

/-- Embeds `CurDAG->getSExtOrTrunc(Op, DL, VT)`: a sign extension to a wider type, a
truncation to a narrower one, the operand itself for its own type. -/
def DAG.getSExtOrTrunc (g : DAG) (Op : SDValue) (VT : MVT) : Except Err (SDValue × DAG) := do
  let OpVT ← g.valueType Op
  if VT.bits > OpVT.bits then .ok (g.mkNode .SIGN_EXTEND VT [Op])
  else if OpVT = VT then .ok (Op, g)
  else .ok (g.mkNode .TRUNCATE VT [Op])

/-- Embeds `CurDAG->getZExtOrTrunc(Op, DL, VT)`. -/
def DAG.getZExtOrTrunc (g : DAG) (Op : SDValue) (VT : MVT) : Except Err (SDValue × DAG) := do
  let OpVT ← g.valueType Op
  if VT.bits > OpVT.bits then .ok (g.mkNode .ZERO_EXTEND VT [Op])
  else if OpVT = VT then .ok (Op, g)
  else .ok (g.mkNode .TRUNCATE VT [Op])

/-- Embeds `CurDAG->getStore(Chain, DL, Val, Ptr, MMO)`: a store node with the operands
chain, value, address and an undefined offset.  LLVM asserts that the chain has
type `MVT::Other` and reads the flags of `MMO`, which must not be null. -/
def DAG.getStore (g : DAG) (Chain Val Ptr : SDValue) (MMO : Option MachineMemOperand) :
    Except Err (SDValue × DAG) := do
  let ChainVT ← g.valueType Chain
  if ChainVT ≠ MVT.Other then .error .assertion
  else
    let PtrVT ← g.valueType Ptr
    let (Undef, g1) := g.getUNDEF PtrVT
    match MMO with
    | none => .error .nullDeref
    | some mmo => .ok (g1.add ⟨.isd .STORE, [Chain, Val, Ptr, Undef], [MVT.Other], 0, 0, some mmo⟩)

/-- Embeds `CurDAG->ReplaceAllUsesOfValueWith(From, To)`: every operand that is `From`
becomes `To`. -/
def DAG.ReplaceAllUsesOfValueWith (g : DAG) (From To : SDValue) : DAG :=
  if From = To then g
  else g.map (fun n => { n with ops := n.ops.map (fun v => if v = From then To else v) })

/-- Embeds `N->getConstantOperandVal(Num)`: `cast<ConstantSDNode>` asserts that the
operand is a constant; the value is read as a `uint64_t`. -/
def DAG.getConstantOperandVal (g : DAG) (n : SDNode) (Num : Nat) : Except Err Nat := do
  let op ← n.getOperand Num
  let c ← g.getNode op.node
  if c.isConstant then .ok (c.imm % 2 ^ 64) else .error .assertion

/-- The memory operand built in the three store cases, lines 78-85, 123-130
and 166-173: none when the machine node has no memory operands. -/
def storeMMO (n : SDNode) (size : Nat) : Option MachineMemOperand :=
  if n.memoperands = 0 then none else some ⟨size⟩

/-- Embeds `PPCInvISelDAG::Transmogrify`, lines 31-279.  `FixChainOp` is a member of
the base class and `InvertCode` is generated into `PowerPCGenInvISel.inc`;
neither is among the sources, so both are parameters. -/
def Transmogrify (FixChainOp : DAG → Nat → Except Err DAG)
    (InvertCode : DAG → Nat → Except Err (Option Nat × DAG)) (CurDAG : DAG) (N : Nat) :
    Except Err (Option Nat × DAG) := do
  let n ← CurDAG.getNode N
  match n.opc with
  | .machine .STD => do
    let Chain ← n.getOperand 0
    let X9 ← n.getOperand 1
    let DS ← n.getOperand 2
    let RA ← n.getOperand 3
    let MMO := storeMMO n 8
    let (EA, g1) := CurDAG.mkNode .ADD .i32 [DS, RA]
    let (EAext, g2) ← g1.getZExtOrTrunc EA .i64
    let (Store, g3) ← g2.getStore Chain X9 EAext MMO
    let g4 := g3.ReplaceAllUsesOfValueWith ⟨N, 0⟩ Store
    let g5 ← FixChainOp g4 Store.node
    .ok (none, g5)
  | .machine .STDU => do
    let Chain ← n.getOperand 0
    let X1 ← n.getOperand 1
    let DS ← n.getOperand 2
    let MMO := storeMMO n 8
    let (DSext, g1) ← CurDAG.getSExtOrTrunc DS .i64
    let (EA, g2) := g1.mkNode .ADD .i64 [DSext, X1]
    let (DStrunc, g3) ← g2.getSExtOrTrunc EA .i32
    let (Store, g4) ← g3.getStore Chain X1 EA MMO
    let g5 := g4.ReplaceAllUsesOfValueWith ⟨N, 1⟩ Store
    let g6 := g5.ReplaceAllUsesOfValueWith ⟨N, 0⟩ DStrunc
    let g7 ← FixChainOp g6 Store.node
    .ok (none, g7)
  | .machine .STW => do
    let Chain ← n.getOperand 0
    let X9 ← n.getOperand 1
    let D ← n.getOperand 2
    let RA ← n.getOperand 3
    let MMO := storeMMO n 4
    let (EA, g1) := CurDAG.mkNode .ADD .i32 [D, RA]
    let (Store, g2) ← g1.getStore Chain X9 EA MMO
    let g3 := g2.ReplaceAllUsesOfValueWith ⟨N, 0⟩ Store
    let g4 ← FixChainOp g3 Store.node
    .ok (none, g4)
  | .machine .B => do
    let Chain ← n.getOperand 0
    let (Offset, g1) := CurDAG.getConstant 1 .i32
    let (BrNode, g2) := g1.mkNode .BR .Other [Offset, Chain]
    .ok (none, g2.ReplaceAllUsesOfValueWith ⟨N, 0⟩ BrNode)
  | .machine .BL => do
    let Chain ← n.getOperand 0
    let (Offset, g1) := CurDAG.getConstant 1 .i32
    let (BrNode, g2) := g1.mkNode .BR .Other [Offset, Chain]
    .ok (none, g2.ReplaceAllUsesOfValueWith ⟨N, 0⟩ BrNode)
  | .machine .RLDICL => do
    let RS ← n.getOperand 0
    let SH ← n.getOperand 1
    let _MB ← n.getOperand 2
    let (R, g1) := CurDAG.mkNode .ROTL .i64 [RS, SH]
    let MBVal ← CurDAG.getConstantOperandVal n 2
    let C1 ← rldiclMask MBVal
    let (M, g2) := g1.getConstant C1 .i64
    let (RA, g3) := g2.mkNode .ADD .i64 [R, M]
    .ok (none, g3.ReplaceAllUsesOfValueWith ⟨N, 0⟩ RA)
  | .machine (.other _) => InvertCode CurDAG N
  | _ =>
    if n.opc = .isd .CopyFromReg then do
      let op1 ← n.getOperand 1
      let R ← CurDAG.getNode op1.node
      if R.isRegister ∧ R.imm = 0 then do
        let (Tmp, g1) := CurDAG.getUNDEF (← R.getValueType 0)
        let g2 := g1.ReplaceAllUsesOfValueWith ⟨N, 0⟩ Tmp
        let n2 ← g2.getNode N
        let g3 := g2.ReplaceAllUsesOfValueWith ⟨N, 1⟩ (← n2.getOperand 0)
        .ok (some N, g3)
      else .ok (some N, CurDAG)
    else .ok (some N, CurDAG)

/-- Embeds `PPCInvISelDAG::ConvertNoRegToZero`, lines 286-293. -/
def ConvertNoRegToZero (CurDAG : DAG) (N : SDValue) : Except Err (SDValue × DAG) := do
  let n ← CurDAG.getNode N.node
  if n.opc = .isd .CopyFromReg then do
    let op1 ← n.getOperand 1
    let R ← CurDAG.getNode op1.node
    if R.isRegister ∧ R.imm = 0 then .ok (CurDAG.getConstant 4 .i32)
    else .ok (N, CurDAG)
  else .ok (N, CurDAG)

/-- A graph with a store-with-update `stdu RS, -96(RA)` whose `RS` (node 1) and
`RA` (node 3) are different values: node 4 is the machine node, with results
the updated base and the chain; node 5 uses both results. -/
def stduGraph : DAG := [
  ⟨.isd .EntryToken, [], [.Other], 0, 0, none⟩,
  ⟨.isd .CopyFromReg, [⟨0, 0⟩, ⟨6, 0⟩], [.i64, .Other], 0, 0, none⟩,
  ⟨.isd .Constant, [], [.i32], 2 ^ 32 - 96, 0, none⟩,
  ⟨.isd .CopyFromReg, [⟨0, 0⟩, ⟨7, 0⟩], [.i64, .Other], 0, 0, none⟩,
  ⟨.machine .STDU, [⟨0, 0⟩, ⟨1, 0⟩, ⟨2, 0⟩, ⟨3, 0⟩], [.i64, .Other], 0, 1, none⟩,
  ⟨.isd .CopyToReg, [⟨4, 1⟩, ⟨7, 0⟩, ⟨4, 0⟩], [.Other], 0, 0, none⟩,
  ⟨.isd .Register, [], [.i64], 9, 0, none⟩,
  ⟨.isd .Register, [], [.i64], 1, 0, none⟩]

/-- The graph `stduGraph` after `Transmogrify` has rewritten node 4, before
`FixChainOp`: node 8 extends the displacement, node 9 is `EA`, node 10
truncates `EA` to 32 bits, node 12 is the store. -/
def stduRewritten : DAG := [
  ⟨.isd .EntryToken, [], [.Other], 0, 0, none⟩,
  ⟨.isd .CopyFromReg, [⟨0, 0⟩, ⟨6, 0⟩], [.i64, .Other], 0, 0, none⟩,
  ⟨.isd .Constant, [], [.i32], 2 ^ 32 - 96, 0, none⟩,
  ⟨.isd .CopyFromReg, [⟨0, 0⟩, ⟨7, 0⟩], [.i64, .Other], 0, 0, none⟩,
  ⟨.machine .STDU, [⟨0, 0⟩, ⟨1, 0⟩, ⟨2, 0⟩, ⟨3, 0⟩], [.i64, .Other], 0, 1, none⟩,
  ⟨.isd .CopyToReg, [⟨12, 0⟩, ⟨7, 0⟩, ⟨10, 0⟩], [.Other], 0, 0, none⟩,
  ⟨.isd .Register, [], [.i64], 9, 0, none⟩,
  ⟨.isd .Register, [], [.i64], 1, 0, none⟩,
  ⟨.isd .SIGN_EXTEND, [⟨2, 0⟩], [.i64], 0, 0, none⟩,
  ⟨.isd .ADD, [⟨8, 0⟩, ⟨1, 0⟩], [.i64], 0, 0, none⟩,
  ⟨.isd .TRUNCATE, [⟨9, 0⟩], [.i32], 0, 0, none⟩,
  ⟨.isd .UNDEF, [], [.i64], 0, 0, none⟩,
  ⟨.isd .STORE, [⟨0, 0⟩, ⟨1, 0⟩, ⟨9, 0⟩, ⟨11, 0⟩], [.Other], 0, 0, some ⟨8⟩⟩]

/-- A graph with `rldicl RA, RS, 0, 32`: node 2 reads `RS`, nodes 3 and 4 are the
constants `SH = 0` and `MB = 32`, node 5 is the machine node and node 6 writes
its result to a register. -/
def rldiclGraph : DAG := [
  ⟨.isd .EntryToken, [], [.Other], 0, 0, none⟩,
  ⟨.isd .Register, [], [.i64], 9, 0, none⟩,
  ⟨.isd .CopyFromReg, [⟨0, 0⟩, ⟨1, 0⟩], [.i64, .Other], 0, 0, none⟩,
  ⟨.isd .TargetConstant, [], [.i32], 0, 0, none⟩,
  ⟨.isd .TargetConstant, [], [.i32], 32, 0, none⟩,
  ⟨.machine .RLDICL, [⟨2, 0⟩, ⟨3, 0⟩, ⟨4, 0⟩], [.i64], 0, 0, none⟩,
  ⟨.isd .CopyToReg, [⟨2, 1⟩, ⟨1, 0⟩, ⟨5, 0⟩], [.Other], 0, 0, none⟩]

/-- The graph `rldiclGraph` after `Transmogrify` has rewritten node 5: node 7
rotates `RS`, node 8 is the mask constant, node 9 combines the two. -/
def rldiclRewritten : DAG := [
  ⟨.isd .EntryToken, [], [.Other], 0, 0, none⟩,
  ⟨.isd .Register, [], [.i64], 9, 0, none⟩,
  ⟨.isd .CopyFromReg, [⟨0, 0⟩, ⟨1, 0⟩], [.i64, .Other], 0, 0, none⟩,
  ⟨.isd .TargetConstant, [], [.i32], 0, 0, none⟩,
  ⟨.isd .TargetConstant, [], [.i32], 32, 0, none⟩,
  ⟨.machine .RLDICL, [⟨2, 0⟩, ⟨3, 0⟩, ⟨4, 0⟩], [.i64], 0, 0, none⟩,
  ⟨.isd .CopyToReg, [⟨2, 1⟩, ⟨1, 0⟩, ⟨9, 0⟩], [.Other], 0, 0, none⟩,
  ⟨.isd .ROTL, [⟨2, 0⟩, ⟨3, 0⟩], [.i64], 0, 0, none⟩,
  ⟨.isd .Constant, [], [.i64], 2 ^ 64 - 2 ^ 32, 0, none⟩,
  ⟨.isd .ADD, [⟨7, 0⟩, ⟨8, 0⟩], [.i64], 0, 0, none⟩]

/-- A graph that reads register 0, the no-register sentinel: node 1 is the
register, node 2 the copy from it, node 4 uses the value that was read and
node 6 uses the chain of the copy. -/
def noRegGraph : DAG := [
  ⟨.isd .EntryToken, [], [.Other], 0, 0, none⟩,
  ⟨.isd .Register, [], [.i32], 0, 0, none⟩,
  ⟨.isd .CopyFromReg, [⟨0, 0⟩, ⟨1, 0⟩], [.i32, .Other], 0, 0, none⟩,
  ⟨.isd .Constant, [], [.i32], 4, 0, none⟩,
  ⟨.isd .ADD, [⟨2, 0⟩, ⟨3, 0⟩], [.i32], 0, 0, none⟩,
  ⟨.isd .Register, [], [.i32], 3, 0, none⟩,
  ⟨.isd .CopyToReg, [⟨2, 1⟩, ⟨5, 0⟩, ⟨4, 0⟩], [.Other], 0, 0, none⟩]


/-- A graph with the store `std RS, 48(RA)`: node 1 reads `RS`, node 2 is the
displacement, node 3 reads `RA`, node 4 is the machine node, which carries one
memory operand, and node 5 uses its chain result. -/
def stdGraph : DAG := [
  ⟨.isd .EntryToken, [], [.Other], 0, 0, none⟩,
  ⟨.isd .CopyFromReg, [⟨0, 0⟩, ⟨6, 0⟩], [.i64, .Other], 0, 0, none⟩,
  ⟨.isd .Constant, [], [.i32], 48, 0, none⟩,
  ⟨.isd .CopyFromReg, [⟨0, 0⟩, ⟨7, 0⟩], [.i32, .Other], 0, 0, none⟩,
  ⟨.machine .STD, [⟨0, 0⟩, ⟨1, 0⟩, ⟨2, 0⟩, ⟨3, 0⟩], [.Other], 0, 1, none⟩,
  ⟨.isd .TokenFactor, [⟨4, 0⟩], [.Other], 0, 0, none⟩,
  ⟨.isd .Register, [], [.i64], 9, 0, none⟩,
  ⟨.isd .Register, [], [.i32], 31, 0, none⟩]

/-- The graph `stdGraph` after `Transmogrify` has rewritten node 4, before
`FixChainOp`: node 8 is `EA`, node 9 extends it to 64 bits, node 11 is the
store. -/
def stdRewritten : DAG := [
  ⟨.isd .EntryToken, [], [.Other], 0, 0, none⟩,
  ⟨.isd .CopyFromReg, [⟨0, 0⟩, ⟨6, 0⟩], [.i64, .Other], 0, 0, none⟩,
  ⟨.isd .Constant, [], [.i32], 48, 0, none⟩,
  ⟨.isd .CopyFromReg, [⟨0, 0⟩, ⟨7, 0⟩], [.i32, .Other], 0, 0, none⟩,
  ⟨.machine .STD, [⟨0, 0⟩, ⟨1, 0⟩, ⟨2, 0⟩, ⟨3, 0⟩], [.Other], 0, 1, none⟩,
  ⟨.isd .TokenFactor, [⟨11, 0⟩], [.Other], 0, 0, none⟩,
  ⟨.isd .Register, [], [.i64], 9, 0, none⟩,
  ⟨.isd .Register, [], [.i32], 31, 0, none⟩,
  ⟨.isd .ADD, [⟨2, 0⟩, ⟨3, 0⟩], [.i32], 0, 0, none⟩,
  ⟨.isd .ZERO_EXTEND, [⟨8, 0⟩], [.i64], 0, 0, none⟩,
  ⟨.isd .UNDEF, [], [.i64], 0, 0, none⟩,
  ⟨.isd .STORE, [⟨0, 0⟩, ⟨1, 0⟩, ⟨9, 0⟩, ⟨10, 0⟩], [.Other], 0, 0, some ⟨8⟩⟩]

/-- The graph `stdGraph` with the store `stw RS, 48(RA)` in place of the `std`. -/
def stwGraph : DAG :=
  stdGraph.set 4 ⟨.machine .STW, [⟨0, 0⟩, ⟨1, 0⟩, ⟨2, 0⟩, ⟨3, 0⟩], [.Other], 0, 1, none⟩


/-! ## Example graphs -/

/-- A register description with five registers, the fourth of which prints as
`R3`. -/
def exampleRegs : RegInfo :=
  ⟨5, fun i => if i = 3 then "R3" else if i = 4 then "R4" else "noreg"⟩

/-- The graph `[entry] → [read R3] → [add 4] → [write R3] → [return]`:
node 1 is the register `R3`, node 2 reads it, node 4 adds the constant of node 3,
node 5 writes the sum to `R3`, node 6 is the return. -/
def exampleGraph : DAG := [
  ⟨.isd .EntryToken, [], [.Other], 0, 0, none⟩,
  ⟨.isd .Register, [], [.i32], 3, 0, none⟩,
  ⟨.isd .CopyFromReg, [⟨0, 0⟩, ⟨1, 0⟩], [.i32, .Other], 0, 0, none⟩,
  ⟨.isd .Constant, [], [.i32], 4, 0, none⟩,
  ⟨.isd .ADD, [⟨2, 0⟩, ⟨3, 0⟩], [.i32], 0, 0, none⟩,
  ⟨.isd .CopyToReg, [⟨2, 1⟩, ⟨1, 0⟩, ⟨4, 0⟩], [.Other], 0, 0, none⟩,
  ⟨.target .RET_FLAG, [⟨5, 0⟩], [.Other], 0, 0, none⟩]

/-- The slot of `R3` in the translation of the example graph. -/
def exampleSlot : Value := .alloca 0 (.int 32) "R3"

/-- The load of the global cell of `R3` in the entry block. -/
def exampleEntryLoad : Value := .load 1 (.global "R3" (.int 32)) "R3_1"

/-- The translation of node 2, the read of `R3`. -/
def exampleRead : Value := .load 3 exampleSlot "R3_2"

/-- The translation of node 4, the addition. -/
def exampleSum : Value := .add 4 exampleRead (.constInt (.int 32) 4) "R3_3"

/-- The translation of node 5, the write of `R3`. -/
def exampleWrite : Value := .store 5 exampleSum exampleSlot

/-- The state after node 5 of the example graph has been visited from the
initial state. -/
def exampleAfterWrite : Emitter :=
  { RegMap := [none, none, none, some exampleSlot, none, none],
    VisitMap := [(5, exampleWrite), (4, exampleSum), (3, .constInt (.int 32) 4),
      (2, exampleRead)],
    BaseNames := [("R3_3", "R3"), ("R3_2", "R3"), ("R3_1", "R3")],
    globals := [⟨"R3", .int 32, 0⟩], funcs := [],
    blocks := [[exampleSlot, exampleEntryLoad, .store 2 exampleEntryLoad exampleSlot,
      exampleRead, exampleSum, exampleWrite]],
    cur := 0, nextId := 6 }

/-- A graph with absent operands: node 2 is a multiplication, whose visitor
returns `NULL`, node 7 has an opcode that `visit` does not know; nodes 3, 4, 5,
6 and 8 are an addition, a subtraction, a load, a store and an addition with
one of the two as an operand.  No node is written to a register. -/
def absentOperandGraph : DAG := [
  ⟨.isd .EntryToken, [], [.Other], 0, 0, none⟩,
  ⟨.isd .Constant, [], [.i32], 4, 0, none⟩,
  ⟨.isd .MUL, [⟨1, 0⟩, ⟨1, 0⟩], [.i32], 0, 0, none⟩,
  ⟨.isd .ADD, [⟨2, 0⟩, ⟨1, 0⟩], [.i32], 0, 0, none⟩,
  ⟨.isd .SUB, [⟨1, 0⟩, ⟨2, 0⟩], [.i32], 0, 0, none⟩,
  ⟨.isd .LOAD, [⟨2, 0⟩, ⟨0, 0⟩, ⟨0, 0⟩], [.i32, .Other], 0, 0, none⟩,
  ⟨.isd .STORE, [⟨2, 0⟩, ⟨2, 0⟩, ⟨0, 0⟩, ⟨0, 0⟩], [.Other], 0, 0, none⟩,
  ⟨.otherISD 999, [], [.i32], 0, 0, none⟩,
  ⟨.isd .ADD, [⟨7, 0⟩, ⟨1, 0⟩], [.i32], 0, 0, none⟩]

/-- The state after the return node of the example graph has been visited,
before the registers are flushed. -/
def exampleAtReturn : Emitter :=
  { exampleAfterWrite with
    blocks := [[exampleSlot, exampleEntryLoad, .store 2 exampleEntryLoad exampleSlot,
      exampleRead, exampleSum, exampleWrite, .ret 6]],
    nextId := 7 }

/-- The state in which `EmitIR` leaves the example graph after its return
node. -/
def exampleAfterReturn : Emitter :=
  { RegMap := [none, none, none, none, none, none], VisitMap := [], BaseNames := [],
    globals := [⟨"R3", .int 32, 0⟩], funcs := [],
    blocks := [[exampleSlot, exampleEntryLoad, .store 2 exampleEntryLoad exampleSlot,
      exampleRead, exampleSum, exampleWrite,
      .load 7 exampleSlot "R3_4",
      .store 8 (.load 7 exampleSlot "R3_4") (.global "R3" (.int 32)),
      .ret 6]],
    cur := 0, nextId := 9 }

/-- The state after `visitRegister` has created the slot of `R3` from the
initial state. -/
def exampleSlotCreated : Emitter :=
  { RegMap := [none, none, none, some exampleSlot, none, none], VisitMap := [],
    BaseNames := [("R3_1", "R3")], globals := [⟨"R3", .int 32, 0⟩], funcs := [],
    blocks := [[exampleSlot, exampleEntryLoad, .store 2 exampleEntryLoad exampleSlot]],
    cur := 0, nextId := 3 }


/-- A graph in which two nodes write the same product to a register: node 2
is a multiplication, whose visitor returns `NULL`, and nodes 5 and 6 copy it to
the registers `R3` and `R4`. -/
def sharedNullGraph : DAG := [
  ⟨.isd .EntryToken, [], [.Other], 0, 0, none⟩,
  ⟨.isd .Constant, [], [.i32], 4, 0, none⟩,
  ⟨.isd .MUL, [⟨1, 0⟩, ⟨1, 0⟩], [.i32], 0, 0, none⟩,
  ⟨.isd .Register, [], [.i32], 3, 0, none⟩,
  ⟨.isd .Register, [], [.i32], 4, 0, none⟩,
  ⟨.isd .CopyToReg, [⟨0, 0⟩, ⟨3, 0⟩, ⟨2, 0⟩], [.Other], 0, 0, none⟩,
  ⟨.isd .CopyToReg, [⟨5, 0⟩, ⟨4, 0⟩, ⟨2, 0⟩], [.Other], 0, 0, none⟩]


/-! ## Notions used in the proofs -/

/-- The state after `visitRegister` has created the slot of a register. -/
def slotCreated (ri : RegInfo) (n : SDNode) (s : Emitter) (Ty : Ty) (nm : String)
    (bn : StringMap) : Emitter :=
  let RegName := ri.name n.imm
  let s1 := (s.globalFor RegName Ty).2
  let RegAlloca := Value.alloca s1.nextId Ty RegName
  let RegLoad := Value.load (s1.nextId + 1) (s.globalFor RegName Ty).1 nm
  { s1 with
    BaseNames := bn
    blocks := s1.blocks.modify
      (fun b => [RegAlloca, RegLoad, Value.store (s1.nextId + 2) RegLoad RegAlloca] ++ b) 0
    nextId := s1.nextId + 3
    RegMap := s1.RegMap.set n.imm (some RegAlloca) }

/-- A relation between the state before and the state after that holds across
every step a visitor is made of, except the final `VisitMap[N] = Res`: renaming,
inserting an instruction at `IRB`, and `visitRegister`. -/
structure Respects (ri : RegInfo) (g : DAG) (R : Emitter → Emitter → Prop) : Prop where
  refl : ∀ s, R s s
  trans : ∀ {s1 s2 s3}, R s1 s2 → R s2 s3 → R s1 s3
  names : ∀ {s B nm s2}, Emitter.indexedName s B = .ok (nm, s2) → R s s2
  emit : ∀ {s mk v s2}, Emitter.emit s mk = .ok (v, s2) → v.isBodyValue = true → R s s2
  register : ∀ {N s r s2}, visitRegister ri g N s = .ok (r, s2) → R s s2

/-- How a visitor for node `N` ends: after steps related by `R` it returns
`NULL`, or it returns a value that it has also entered in `VisitMap`. -/
def Ends (R : Emitter → Emitter → Prop) (N : Nat) (s : Emitter) (r : Option Value)
    (s2 : Emitter) : Prop :=
  ∃ sp, R s sp ∧ ((r = none ∧ s2 = sp) ∨
    ∃ Res, r = some Res ∧ Res.isBodyValue = true ∧ s2 = sp.cache N Res)

/-- How a visitor that never returns `NULL` ends. -/
def EndsCached (R : Emitter → Emitter → Prop) (N : Nat) (s : Emitter) (r : Option Value)
    (s2 : Emitter) : Prop :=
  ∃ sp Res, R s sp ∧ r = some Res ∧ Res.isBodyValue = true ∧ s2 = sp.cache N Res

/-- Every node that is in `VisitMap` in the first state is so in the second. -/
def CacheLe (s t : Emitter) : Prop :=
  ∀ m, s.VisitMap.lookup m ≠ none → t.VisitMap.lookup m ≠ none

/-- Every register that has a slot in the first state has the same slot in the
second. -/
def RegKeep (s t : Emitter) : Prop :=
  ∀ (i : Nat) (a : Value), s.RegMap[i]? = some (some a) → t.RegMap[i]? = some (some a)

/-- Node `m` has been translated on the way to state `s2`: some visit of `m`,
begun when `m` was not in `VisitMap`, returned a value, and every node cached
when it began is cached in `s2`. -/
def Translated (ri : RegInfo) (g : DAG) (m : Nat) (s2 : Emitter) : Prop :=
  ∃ (fuel : Nat) (t : Emitter) (w : Value) (t2 : Emitter),
    t.VisitMap.lookup m = none ∧ visit ri g fuel m t = .ok (some w, t2) ∧ CacheLe t s2

/-- From `s` to `s2` the cache only grows, and by translated nodes only. -/
def GrowsByVisits (ri : RegInfo) (g : DAG) (s s2 : Emitter) : Prop :=
  CacheLe s s2 ∧
    ∀ m, s.VisitMap.lookup m = none → s2.VisitMap.lookup m ≠ none → Translated ri g m s2

/-- The body of `IREmitter::visit` for a node that is not in `VisitMap`, given
the branch of the `switch` that its opcode takes and the function that
translates operands. -/
def dispatch (ri : RegInfo) (g : DAG) (vis : Visit) (k : Visitor) (N : Nat)
    (s : Emitter) : Except Err (Option Value × Emitter) :=
  match k with
  | .unknown => .ok (none, s)
  | .nothing => .ok (none, s)
  | .returnsNull => .ok (none, s)
  | .CopyFromReg => visitCopyFromReg ri g N s
  | .CopyToReg => visitCopyToReg ri g vis N s
  | .Constant => visitConstant g N s
  | .ADD => visitADD ri g vis N s
  | .SUB => visitSUB ri g vis N s
  | .LOAD => visitLOAD vis g N s
  | .STORE => visitSTORE vis g N s

/-- The entry block of the function under construction. -/
def Emitter.entry (s : Emitter) : List Value :=
  (s.blocks[0]?).getD []

/-- The block that `IRB` inserts into. -/
def Emitter.block (s : Emitter) : List Value :=
  (s.blocks[s.cur]?).getD []

/-- The three instructions that `visitRegister` puts at the head of the entry
block for the slot `a`, whose serial number is `id`, of a register whose global
cell is `gbl`. -/
def slotGroup (a : Value) (id : Nat) (gbl : Value) (nm : String) : List Value :=
  [a, .load (id + 1) gbl nm, .store (id + 2) (.load (id + 1) gbl nm) a]

/-- What holds of the slots while a function is translated:
* `slot`: the slot of register `i` is an allocation named after `i`; the module
  has a global variable of that name; and the entry block holds the allocation,
  a load of that global variable and the store of the loaded value into the
  slot, one after the other;
* `owner`: every allocation in the entry block is the slot of a register;
* `nodup`: no allocation occurs twice in the entry block;
* `inj`: no allocation is the slot of two registers;
* `cache`: `VisitMap` holds no return instruction (and no allocation). -/
structure SlotsOK (ri : RegInfo) (s : Emitter) : Prop where
  slot : ∀ (i : Nat) (a : Value), s.RegMap[i]? = some (some a) →
    ∃ (id : Nat) (aty gty : Ty) (nm : String) (pre post : List Value),
      a = .alloca id aty (ri.name i) ∧ id + 2 < s.nextId ∧
      s.getGlobalVariable (ri.name i) = some (.global (ri.name i) gty) ∧
      s.entry = pre ++ slotGroup a id (.global (ri.name i) gty) nm ++ post
  owner : ∀ v ∈ s.entry, v.isAlloca = true → ∃ (i : Nat), s.RegMap[i]? = some (some v)
  nodup : (s.entry.filter Value.isAlloca).Nodup
  inj : ∀ (i j : Nat) (a : Value), s.RegMap[i]? = some (some a) →
    s.RegMap[j]? = some (some a) → i = j
  cache : ∀ p ∈ s.VisitMap, p.2.isBodyValue = true

/-- The state in which the translation of a function begins: no register has a
slot, the entry block holds no allocation, nothing is cached. -/
structure FunctionStart (s : Emitter) : Prop where
  noSlot : ∀ (i : Nat) (a : Value), s.RegMap[i]? ≠ some (some a)
  noAlloca : ∀ v ∈ s.entry, v.isAlloca = false
  noCache : s.VisitMap = []

/-- The instructions that the loop of `EmitIR` inserts before the return, for
`count` registers from register `i` on: for a register with a slot `a` whose
name is that of a global variable, a load of the slot and the store of the
loaded value into the global variable; for any other register, nothing. -/
def Flushed (s : Emitter) : Nat → Nat → List Value → Prop
  | 0, _, ins => ins = []
  | count + 1, i, ins => ∃ here rest, ins = here ++ rest ∧ Flushed s count (i + 1) rest ∧
      match s.RegMap[i]? with
      | some (some a) =>
        match s.getGlobalVariable a.getName with
        | some gbl => ∃ (id : Nat) (nm : String),
            here = [.load id a nm, .store (id + 1) (.load id a nm) gbl]
        | none => here = []
      | _ => here = []

/-- The states that the emitter reaches from a state without a reset: by visits
of nodes, by `visitRegister`, by renaming and by inserting an instruction at
`IRB`. -/
inductive Later (ri : RegInfo) (g : DAG) : Emitter → Emitter → Prop
  | refl (s : Emitter) : Later ri g s s
  | visit {s t t2 : Emitter} {fuel N : Nat} {r : Option Value} :
      Later ri g s t → visit ri g fuel N t = .ok (r, t2) → Later ri g s t2
  | register {s t t2 : Emitter} {N : Nat} {r : Option Value} :
      Later ri g s t → visitRegister ri g N t = .ok (r, t2) → Later ri g s t2
  | names {s t t2 : Emitter} {B nm : String} :
      Later ri g s t → t.indexedName B = .ok (nm, t2) → Later ri g s t2
  | emit {s t t2 : Emitter} {mk : Nat → Value} {v : Value} :
      Later ri g s t → t.emit mk = .ok (v, t2) → Later ri g s t2


/-- The graph is acyclic: `rank` decreases from every node to the nodes of its
operands. -/
def Acyclic (g : DAG) (rank : Nat → Nat) : Prop :=
  ∀ p ∈ g.enum, ∀ op ∈ p.2.ops, rank op.node < rank p.1

/-- The nodes that the visitor of kind `k` for the node `n` hands to `visit`, and
what these visits dispatch in turn (`tr`), in order: `visitCopyToReg` visits
operand 2 after `visitRegister`, `visitADD`, `visitSUB` and `visitSTORE` visit
operand 0 and then operand 1, `visitLOAD` visits operand 0; a visit is made
only when all that precedes it in the visitor has returned. -/
def operandVisits (ri : RegInfo) (g : DAG) (vis : Visit) (tr : Nat → Emitter → List Nat)
    (k : Visitor) (n : SDNode) (s : Emitter) : List Nat :=
  match k with
  | .CopyToReg =>
    match n.getOperand 1 with
    | .error _ => []
    | .ok op1 =>
      match visitRegister ri g op1.node s with
      | .error _ => []
      | .ok (_, s1) =>
        match n.getOperand 2 with
        | .error _ => []
        | .ok op2 => tr op2.node s1
  | .ADD | .SUB | .STORE =>
    match n.getOperand 0 with
    | .error _ => []
    | .ok op0 =>
      tr op0.node s ++
        match vis op0.node s with
        | .error _ => []
        | .ok (_, s1) =>
          match n.getOperand 1 with
          | .error _ => []
          | .ok op1 => tr op1.node s1
  | .LOAD =>
    match n.getOperand 0 with
    | .error _ => []
    | .ok op0 => tr op0.node s
  | _ => []

/-- The nodes that reach the `switch` of `IREmitter::visit` (lines 165-252) during
the call `visit(N)` in state `s`, in order: none when `N` is in `VisitMap`, else
`N` followed by what the visits of its operands dispatch. -/
def dispatched (ri : RegInfo) (g : DAG) : Nat → Nat → Emitter → List Nat
  | 0, _, _ => []
  | fuel + 1, N, s =>
    match s.VisitMap.lookup N with
    | some _ => []
    | none =>
      match g[N]? with
      | none => []
      | some n =>
        N :: operandVisits ri g (visit ri g fuel) (dispatched ri g fuel) (visitorOf n.opc) n s


/-- The number a list of decimal digit characters denotes. -/
def decimalValue (cs : List Char) : Nat :=
  cs.foldl (fun acc c => 10 * acc + (c.toNat - 48)) 0

/-! ## Theorems -/

/-! ### Decimal numerals -/

theorem decimalValue_append (xs ys : List Char) :
    decimalValue (xs ++ ys) = decimalValue xs * 10 ^ ys.length + decimalValue ys := by
  unfold decimalValue
  induction ys using List.reverseRecOn generalizing xs with
  | nil => simp
  | append_singleton ys y ih =>
    have h1 := ih xs
    rw [← List.append_assoc, List.foldl_append, List.foldl_append (l := ys)]
    simp only [List.foldl_cons, List.foldl_nil, List.length_append, List.length_singleton]
    rw [h1]
    ring

theorem digitChar_toNat (d : Nat) (h : d < 10) : (Nat.digitChar d).toNat - 48 = d := by
  interval_cases d <;> rfl

theorem toDigitsCore_append (f n : Nat) (ds : List Char) :
    Nat.toDigitsCore 10 f n ds = Nat.toDigitsCore 10 f n [] ++ ds := by
  induction f generalizing n ds with
  | zero => simp [Nat.toDigitsCore]
  | succ f ih =>
    simp only [Nat.toDigitsCore]
    split
    · simp
    · rw [ih, ih (n / 10) [Nat.digitChar (n % 10)]]
      simp

theorem decimalValue_toDigitsCore (f n : Nat) (h : n < f) :
    decimalValue (Nat.toDigitsCore 10 f n []) = n := by
  induction f generalizing n with
  | zero => omega
  | succ f ih =>
    simp only [Nat.toDigitsCore]
    split
    · rename_i h0
      have : n < 10 := by
        by_contra hc
        have := Nat.div_pos (Nat.le_of_not_lt hc) (by decide : 0 < 10)
        omega
      simp [decimalValue, Nat.mod_eq_of_lt this, digitChar_toNat n this]
    · rename_i h0
      rw [toDigitsCore_append, decimalValue_append, ih (n / 10) (by omega)]
      simp [decimalValue, digitChar_toNat _ (Nat.mod_lt n (by decide))]
      omega

theorem toString_nat_injective {a b : Nat} (h : toString a = toString b) : a = b := by
  have h1 : (Nat.toDigits 10 a) = (Nat.toDigits 10 b) := by
    have := congrArg String.data h
    simpa [toString, Nat.repr, List.asString] using this
  have ha := decimalValue_toDigitsCore (a + 1) a (by omega)
  have hb := decimalValue_toDigitsCore (b + 1) b (by omega)
  unfold Nat.toDigits at h1
  rw [h1] at ha
  omega

theorem append_toString_injective (pre : String) {a b : Nat}
    (h : pre ++ toString a = pre ++ toString b) : a = b := by
  have := congrArg String.data h
  simp only [String.data_append, List.append_cancel_left_eq] at this
  exact toString_nat_injective (String.ext this)

/-! ### The renaming loop -/

theorem StringMap.get_cons (m : StringMap) (k v k2 : String) :
    StringMap.get ((k, v) :: m) k2 = if k2 = k then v else StringMap.get m k2 := by
  unfold StringMap.get
  by_cases h : k2 = k
  · subst h; simp [List.lookup]
  · have : (k2 == k) = false := by simpa using h
    simp [List.lookup, this, h]

theorem StringMap.mem_keys_of_get_ne (m : StringMap) (k : String)
    (h : StringMap.get m k ≠ "") : k ∈ m.map Prod.fst := by
  induction m with
  | nil => simp [StringMap.get] at h
  | cons p m ih =>
    obtain ⟨a, b⟩ := p
    rw [StringMap.get_cons] at h
    by_cases hk : k = a
    · simp [hk]
    · simp only [hk, if_false] at h
      simp [ih h]

theorem uniqueNameLoop_some (syms : List String) (bn : StringMap) (pre : String) :
    ∀ (f k r : Nat), k + f < 2 ^ 32 → uniqueNameLoop syms bn pre f k = some r →
      k < r ∧ r ≤ k + f ∧
      (pre ++ toString r ∉ syms ∧ bn.get (pre ++ toString r) = "") ∧
      ∀ j, k < j → j < r → ¬ (pre ++ toString j ∉ syms ∧ bn.get (pre ++ toString j) = "") := by
  intro f
  induction f with
  | zero => intro k r _ h; simp [uniqueNameLoop] at h
  | succ f ih =>
    intro k r hk h
    have hmod : (k + 1) % 2 ^ 32 = k + 1 := Nat.mod_eq_of_lt (by omega)
    simp only [uniqueNameLoop, hmod] at h
    split at h
    · rename_i hfree
      cases h
      refine ⟨by omega, by omega, hfree, ?_⟩
      intro j h1 h2; omega
    · rename_i htaken
      obtain ⟨h1, h2, h3, h4⟩ := ih (k + 1) r (by omega) h
      refine ⟨by omega, by omega, h3, ?_⟩
      intro j hj1 hj2
      by_cases hj : j = k + 1
      · subst hj; exact htaken
      · exact h4 j (by omega) hj2

theorem uniqueNameLoop_none (syms : List String) (bn : StringMap) (pre : String) :
    ∀ (f k : Nat), k + f < 2 ^ 32 → uniqueNameLoop syms bn pre f k = none →
      ∀ j, k < j → j ≤ k + f →
        ¬ (pre ++ toString j ∉ syms ∧ bn.get (pre ++ toString j) = "") := by
  intro f
  induction f with
  | zero => intro k _ _ j h1 h2; omega
  | succ f ih =>
    intro k hk h j h1 h2
    have hmod : (k + 1) % 2 ^ 32 = k + 1 := Nat.mod_eq_of_lt (by omega)
    simp only [uniqueNameLoop, hmod] at h
    split at h
    · cases h
    · rename_i htaken
      by_cases hj : j = k + 1
      · subst hj; exact htaken
      · exact ih (k + 1) (by omega) h j (by omega) (by omega)

/-- With fewer than `2 ^ 32 - 1` names in the two tables, the loop returns
within the budget that `getIndexedValueName` gives it. -/
theorem uniqueNameLoop_returns (syms : List String) (bn : StringMap) (pre : String)
    (h : syms.length + bn.length + 1 < 2 ^ 32) :
    ∃ r, uniqueNameLoop syms bn pre (syms.length + bn.length + 1) 0 = some r := by
  cases hl : uniqueNameLoop syms bn pre (syms.length + bn.length + 1) 0 with
  | some r => exact ⟨r, rfl⟩
  | none =>
    exfalso
    have hall := uniqueNameLoop_none syms bn pre _ 0 (by omega) hl
    let n := syms.length + bn.length
    let cands : List String := (List.range (n + 1)).map (fun j => pre ++ toString (j + 1))
    have hnodup : cands.Nodup := by
      refine List.Nodup.map ?_ (List.nodup_range _)
      intro a b hab
      have := append_toString_injective pre hab
      omega
    have hsub : cands ⊆ syms ++ bn.map Prod.fst := by
      intro x hx
      simp only [cands, List.mem_map, List.mem_range] at hx
      obtain ⟨j, hj, rfl⟩ := hx
      have ht := hall (j + 1) (by omega) (by omega)
      by_cases hs : pre ++ toString (j + 1) ∈ syms
      · exact List.mem_append_left _ hs
      · have : bn.get (pre ++ toString (j + 1)) ≠ "" := fun hg => ht ⟨hs, hg⟩
        exact List.mem_append_right _ (StringMap.mem_keys_of_get_ne _ _ this)
    have hlen := (List.subperm_of_subset hnodup hsub).length_le
    simp only [cands, List.length_map, List.length_range, List.length_append] at hlen
    omega

/-! ### `getIndexedValueName` -/

theorem uniqueNameLoop_free (syms : List String) (bn : StringMap) (pre : String) :
    ∀ (f k r : Nat), uniqueNameLoop syms bn pre f k = some r →
      pre ++ toString r ∉ syms ∧ bn.get (pre ++ toString r) = "" := by
  intro f
  induction f with
  | zero => intro k r h; simp [uniqueNameLoop] at h
  | succ f ih =>
    intro k r h
    simp only [uniqueNameLoop] at h
    split at h
    · rename_i hfree
      cases h
      exact hfree
    · exact ih _ r h

theorem uniqueStem_ok {B pre : String} (h : uniqueStem B = .ok pre) : B ≠ "" := by
  intro hB
  subst hB
  simp [uniqueStem] at h

theorem uniqueStem_returns {B : String} (h : B ≠ "") : ∃ pre, uniqueStem B = .ok pre := by
  unfold uniqueStem
  cases hl : B.data.getLast? with
  | some c => exact ⟨_, rfl⟩
  | none =>
    exfalso
    apply h
    apply String.ext
    simpa using hl

/-- A request whose base name is not in the symbol table is answered with the
base name and changes nothing. -/
theorem getIndexedValueName_fresh {syms : List String} {bn : StringMap} {B : String}
    (hB : B ∉ syms) : getIndexedValueName syms bn B = .ok (B, bn) := by
  simp [getIndexedValueName, hB]

/-- What a successful request with a colliding base name returns. -/
theorem getIndexedValueName_collided {syms : List String} {bn bn2 : StringMap}
    {B nm : String} (hB : B ∈ syms)
    (h : getIndexedValueName syms bn B = .ok (nm, bn2)) :
    ∃ pre k, uniqueStem B = .ok pre ∧
      uniqueNameLoop syms bn pre (syms.length + bn.length + 1) 0 = some k ∧
      nm = pre ++ toString k ∧ bn2 = bn.set nm B ∧ nm ∉ syms ∧ bn.get nm = "" := by
  simp only [getIndexedValueName, hB, not_true_eq_false, if_false] at h
  cases hp : uniqueStem B with
  | error e => simp [hp, bind, Except.bind] at h
  | ok pre =>
    simp only [hp, bind, Except.bind] at h
    cases hl : uniqueNameLoop syms bn pre (syms.length + bn.length + 1) 0 with
    | none => simp [hl] at h
    | some k =>
      simp only [hl, Except.ok.injEq, Prod.mk.injEq] at h
      obtain ⟨h1, h2⟩ := h
      have hf := uniqueNameLoop_free syms bn pre _ 0 k hl
      refine ⟨pre, k, rfl, hl, h1.symm, ?_, ?_, ?_⟩
      · rw [← h2, h1]
      · rw [← h1]; exact hf.1
      · rw [← h1]; exact hf.2

/-- The call returns whenever the base name is not the empty string and the two
tables hold fewer than `2 ^ 32 - 1` names. -/
theorem getIndexedValueName_returns (syms : List String) (bn : StringMap) (B : String)
    (hne : B ≠ "") (hsz : syms.length + bn.length + 1 < 2 ^ 32) :
    ∃ nm bn2, getIndexedValueName syms bn B = .ok (nm, bn2) := by
  by_cases hB : B ∈ syms
  · obtain ⟨pre, hp⟩ := uniqueStem_returns hne
    obtain ⟨r, hr⟩ := uniqueNameLoop_returns syms bn pre hsz
    exact ⟨pre ++ toString r, bn.set (pre ++ toString r) B,
      by simp [getIndexedValueName, hB, hp, bind, Except.bind, hr]⟩
  · exact ⟨_, _, getIndexedValueName_fresh hB⟩

/-- A request only adds a binding, for a name that had none, to a non-empty
base name. -/
theorem getIndexedValueName_get {syms : List String} {bn bn2 : StringMap} {B nm : String}
    (h : getIndexedValueName syms bn B = .ok (nm, bn2)) (n : String) :
    bn2.get n = bn.get n ∨ (bn.get n = "" ∧ bn2.get n ≠ "" ∧ n = nm ∧ B ∈ syms) := by
  by_cases hB : B ∈ syms
  · obtain ⟨pre, k, hp, _, _, hbn, _, hfree⟩ := getIndexedValueName_collided hB h
    subst hbn
    unfold StringMap.set
    rw [StringMap.get_cons]
    by_cases hn : n = nm
    · subst hn
      right
      simp [hfree, uniqueStem_ok hp, hB]
    · simp [hn]
  · rw [getIndexedValueName_fresh hB] at h
    cases h
    exact Or.inl rfl

theorem getIndexedValueName_get_of_ne {syms : List String} {bn bn2 : StringMap}
    {B nm : String} (h : getIndexedValueName syms bn B = .ok (nm, bn2)) (n : String)
    (hn : bn.get n ≠ "") : bn2.get n = bn.get n := by
  rcases getIndexedValueName_get h n with h1 | h1
  · exact h1
  · exact absurd h1.1 hn

theorem getIndexedValueName_length {syms : List String} {bn bn2 : StringMap}
    {B nm : String} (h : getIndexedValueName syms bn B = .ok (nm, bn2)) :
    bn2.length ≤ bn.length + 1 := by
  by_cases hB : B ∈ syms
  · obtain ⟨pre, k, _, _, _, hbn, _, _⟩ := getIndexedValueName_collided hB h
    subst hbn
    simp [StringMap.set]
  · rw [getIndexedValueName_fresh hB] at h
    cases h
    omega

/-! ### Sequences of requests -/

theorem runNames_request {st st2 : NameState} {b : String} {evs : List NameEvent}
    {outs : List NameAnswer} (h : runNames st (.request b :: evs) = .ok (outs, st2)) :
    ∃ nm bn outs2, getIndexedValueName st.syms st.BaseNames b = .ok (nm, bn) ∧
      runNames { st with BaseNames := bn } evs = .ok (outs2, st2) ∧
      outs = ⟨b, decide (b ∈ st.syms), nm⟩ :: outs2 := by
  simp only [runNames, bind, Except.bind] at h
  cases h1 : getIndexedValueName st.syms st.BaseNames b with
  | error e => simp [h1] at h
  | ok p =>
    obtain ⟨nm, bn⟩ := p
    simp only [h1] at h
    cases h2 : runNames { st with BaseNames := bn } evs with
    | error e => simp [h2] at h
    | ok q =>
      obtain ⟨outs2, st3⟩ := q
      simp only [h2, Except.ok.injEq, Prod.mk.injEq] at h
      exact ⟨nm, bn, outs2, rfl, by rw [← h.2, h2], h.1.symm⟩

/-- A binding of `BaseNames` is never overwritten by later requests. -/
theorem runNames_get_of_ne (n : String) :
    ∀ (evs : List NameEvent) (st st2 : NameState) (outs : List NameAnswer),
      runNames st evs = .ok (outs, st2) → st.BaseNames.get n ≠ "" →
      st2.BaseNames.get n = st.BaseNames.get n := by
  intro evs
  induction evs with
  | nil =>
    intro st st2 outs h _
    simp only [runNames, Except.ok.injEq, Prod.mk.injEq] at h
    rw [h.2]
  | cons ev evs ih =>
    intro st st2 outs h hn
    cases ev with
    | declare sym =>
      simp only [runNames] at h
      exact ih { st with syms := sym :: st.syms } _ _ h hn
    | request b =>
      obtain ⟨nm, bn, outs2, h1, h2, _⟩ := runNames_request h
      have hg := getIndexedValueName_get_of_ne h1 n hn
      have := ih _ _ _ h2 (by simpa [hg] using hn)
      simpa [hg] using this

/-- A name returned on the renaming path had no binding when the run began. -/
theorem runNames_collided_unbound :
    ∀ (evs : List NameEvent) (st st2 : NameState) (outs : List NameAnswer),
      runNames st evs = .ok (outs, st2) →
      ∀ a ∈ outs, a.collided = true → st.BaseNames.get a.name = "" := by
  intro evs
  induction evs with
  | nil =>
    intro st st2 outs h a ha
    simp only [runNames, Except.ok.injEq, Prod.mk.injEq] at h
    rw [← h.1] at ha
    cases ha
  | cons ev evs ih =>
    intro st st2 outs h a ha hc
    cases ev with
    | declare sym =>
      simp only [runNames] at h
      exact ih { st with syms := sym :: st.syms } _ _ h a ha hc
    | request b =>
      obtain ⟨nm, bn, outs2, h1, h2, h3⟩ := runNames_request h
      subst h3
      rcases List.mem_cons.1 ha with rfl | ha2
      · have hB : b ∈ st.syms := by simpa using hc
        obtain ⟨_, _, _, _, _, _, _, hfree⟩ := getIndexedValueName_collided hB h1
        exact hfree
      · have := ih _ _ _ h2 a ha2 hc
        rcases getIndexedValueName_get h1 a.name with hg | hg
        · simpa [hg] using this
        · exact hg.1

/-- Taken names stay taken: a request leaves the symbol table alone and keeps
every binding. -/
theorem getIndexedValueName_taken {syms : List String} {bn bn2 : StringMap}
    {B nm : String} (h : getIndexedValueName syms bn B = .ok (nm, bn2)) (n : String)
    (ht : ¬ (n ∉ syms ∧ bn.get n = "")) : ¬ (n ∉ syms ∧ bn2.get n = "") := by
  intro hc
  apply ht
  refine ⟨hc.1, ?_⟩
  by_contra hne
  have := getIndexedValueName_get_of_ne h n hne
  rw [this] at hc
  exact hne hc.2

theorem runNames_later_suffix (B pre : String) (i : Nat) (hp : uniqueStem B = .ok pre) :
    ∀ (evs : List NameEvent) (st st2 : NameState) (outs : List NameAnswer),
      st.syms.length + st.BaseNames.length + evs.length < 2 ^ 32 →
      runNames st evs = .ok (outs, st2) →
      (∀ j, 0 < j → j ≤ i →
        ¬ (pre ++ toString j ∉ st.syms ∧ st.BaseNames.get (pre ++ toString j) = "")) →
      ∀ b ∈ outs, b.collided = true → b.BaseName = B →
        ∃ j, b.name = pre ++ toString j ∧ i < j := by
  intro evs
  induction evs with
  | nil =>
    intro st st2 outs _ h _ b hb
    simp only [runNames, Except.ok.injEq, Prod.mk.injEq] at h
    rw [← h.1] at hb
    cases hb
  | cons ev evs ih =>
    intro st st2 outs hsz h htaken b hb hc hbase
    cases ev with
    | declare sym =>
      simp only [runNames] at h
      refine ih { st with syms := sym :: st.syms } _ _ ?_ h ?_ b hb hc hbase
      · simp only [List.length_cons] at hsz ⊢; omega
      · intro j h1 h2 hfree
        apply htaken j h1 h2
        refine ⟨fun hm => hfree.1 (List.mem_cons_of_mem _ hm), hfree.2⟩
    | request b0 =>
      obtain ⟨nm, bn, outs2, h1, h2, h3⟩ := runNames_request h
      subst h3
      have hlen := getIndexedValueName_length h1
      simp only [List.length_cons] at hsz
      rcases List.mem_cons.1 hb with rfl | hb2
      · simp only [decide_eq_true_eq] at hc
        simp only at hbase
        subst hbase
        obtain ⟨pre2, k, hp2, hloop, hnm, _, _, _⟩ := getIndexedValueName_collided hc h1
        rw [hp] at hp2
        cases hp2
        obtain ⟨hk0, _, hfree, _⟩ :=
          uniqueNameLoop_some _ _ _ _ 0 k (by omega) hloop
        refine ⟨k, hnm, ?_⟩
        by_contra hle
        exact htaken k hk0 (by omega) hfree
      · refine ih { st with BaseNames := bn } _ _ ?_ h2 ?_ b hb2 hc hbase
        · simp only; omega
        · intro j hj1 hj2
          exact getIndexedValueName_taken h1 _ (htaken j hj1 hj2)

/-- C7, as stated, fails: a base name that is not in the module's symbol table
is returned unchanged by every call, so two calls with the base name `x` both
return the non-empty name `x`. -/
theorem getIndexedValueName_repeats_unlisted_name :
    runNames ⟨[], []⟩ [.request "x", .request "x"] =
        .ok ([⟨"x", false, "x"⟩, ⟨"x", false, "x"⟩], ⟨[], []⟩) ∧
      ¬ (["x", "x"] : List String).Nodup := by
  decide

/-- C7, amended: between two resets of the name tables, whatever symbols are
declared and whatever base names are requested in between, the names that
`getIndexedValueName` returns for base names found in the symbol table (the
renaming path) are pairwise distinct. -/
theorem getIndexedValueName_renamed_distinct :
    ∀ (evs : List NameEvent) (st st2 : NameState) (outs : List NameAnswer),
      runNames st evs = .ok (outs, st2) →
      ((outs.filter (fun a => a.collided)).map (fun a => a.name)).Nodup := by
  intro evs
  induction evs with
  | nil =>
    intro st st2 outs h
    simp only [runNames, Except.ok.injEq, Prod.mk.injEq] at h
    rw [← h.1]
    simp
  | cons ev evs ih =>
    intro st st2 outs h
    cases ev with
    | declare sym =>
      simp only [runNames] at h
      exact ih _ _ _ h
    | request b =>
      obtain ⟨nm, bn, outs2, h1, h2, h3⟩ := runNames_request h
      subst h3
      have ih2 := ih _ _ _ h2
      by_cases hB : b ∈ st.syms
      · simp only [List.filter_cons, hB, decide_True, if_true, List.map_cons,
          List.nodup_cons]
        refine ⟨?_, ih2⟩
        intro hmem
        simp only [List.mem_map, List.mem_filter] at hmem
        obtain ⟨a, ⟨ha, hac⟩, hname⟩ := hmem
        have hun := runNames_collided_unbound _ _ _ _ h2 a ha hac
        obtain ⟨pre, k, hp, _, _, hbn, _, _⟩ := getIndexedValueName_collided hB h1
        subst hbn
        simp only [StringMap.set] at hun
        rw [StringMap.get_cons] at hun
        simp only [hname, if_true] at hun
        exact uniqueStem_ok hp hun
      · simpa [List.filter_cons, hB] using ih2

/-- Witness for C7: two requests for the colliding base name `R3`. -/
theorem getIndexedValueName_renamed_distinct_witness :
    runNames ⟨["R3"], []⟩ [.request "R3", .request "R3"] =
        .ok ([⟨"R3", true, "R3_1"⟩, ⟨"R3", true, "R3_2"⟩],
          ⟨["R3"], [("R3_2", "R3"), ("R3_1", "R3")]⟩) ∧
      ((([⟨"R3", true, "R3_1"⟩, ⟨"R3", true, "R3_2"⟩] : List NameAnswer).filter
        (fun a => a.collided)).map (fun a => a.name)).Nodup :=
  ⟨by decide, getIndexedValueName_renamed_distinct [.request "R3", .request "R3"]
    ⟨["R3"], []⟩ ⟨["R3"], [("R3_2", "R3"), ("R3_1", "R3")]⟩ _ (by decide)⟩

/-- C8: between two resets, as long as the tables hold fewer than `2 ^ 32`
names, whenever two requests for the same base name both find it in the symbol
table, the later one is answered with the same stem and a strictly greater
number than the earlier one. -/
theorem getIndexedValueName_suffix_increases :
    ∀ (evs : List NameEvent) (st st2 : NameState) (outs : List NameAnswer),
      st.syms.length + st.BaseNames.length + evs.length < 2 ^ 32 →
      runNames st evs = .ok (outs, st2) →
      outs.Pairwise (fun a b => a.collided = true → b.collided = true →
        a.BaseName = b.BaseName →
        ∃ (pre : String) (i j : Nat), uniqueStem a.BaseName = .ok pre ∧ a.name = pre ++ toString i ∧
          b.name = pre ++ toString j ∧ i < j) := by
  intro evs
  induction evs with
  | nil =>
    intro st st2 outs _ h
    simp only [runNames, Except.ok.injEq, Prod.mk.injEq] at h
    rw [← h.1]
    exact List.Pairwise.nil
  | cons ev evs ih =>
    intro st st2 outs hsz h
    simp only [List.length_cons] at hsz
    cases ev with
    | declare sym =>
      simp only [runNames] at h
      exact ih { st with syms := sym :: st.syms } _ _
        (by simp only [List.length_cons]; omega) h
    | request b0 =>
      obtain ⟨nm, bn, outs2, h1, h2, h3⟩ := runNames_request h
      subst h3
      have hlen := getIndexedValueName_length h1
      refine List.Pairwise.cons ?_
        (ih { st with BaseNames := bn } _ _ (by simp only; omega) h2)
      intro b hb hc hbc hbase
      simp only [decide_eq_true_eq] at hc
      simp only at hbase
      obtain ⟨pre, k, hp, hloop, hnm, hbn, _, _⟩ := getIndexedValueName_collided hc h1
      obtain ⟨hk0, _, _, hbelow⟩ := uniqueNameLoop_some _ _ _ _ 0 k (by omega) hloop
      have hlater := runNames_later_suffix b0 pre k hp evs { st with BaseNames := bn }
        st2 outs2 (by simp only; omega) h2 (by
          intro j hj1 hj2
          by_cases hjk : j = k
          · subst hjk
            intro hfree
            have hget := hfree.2
            simp only [hbn, StringMap.set, ← hnm] at hget
            rw [StringMap.get_cons] at hget
            simp only [if_true] at hget
            exact uniqueStem_ok hp hget
          · exact getIndexedValueName_taken h1 _ (hbelow j hj1 (by omega))) b hb hbc
          hbase.symm
      obtain ⟨j, hj, hlt⟩ := hlater
      exact ⟨pre, k, j, hp, hnm, hj, hlt⟩

/-- Witness for C8: three requests for `R3`, with a declaration in between. -/
theorem getIndexedValueName_suffix_increases_witness :
    List.Pairwise (fun a b => a.collided = true → b.collided = true →
        a.BaseName = b.BaseName →
        ∃ (pre : String) (i j : Nat), uniqueStem a.BaseName = .ok pre ∧ a.name = pre ++ toString i ∧
          b.name = pre ++ toString j ∧ i < j)
      ([⟨"R3", true, "R3_1"⟩, ⟨"R3", true, "R3_3"⟩, ⟨"R3", true, "R3_4"⟩] :
        List NameAnswer) :=
  getIndexedValueName_suffix_increases
    [.request "R3", .declare "R3_2", .request "R3", .request "R3"] ⟨["R3"], []⟩
    ⟨["R3_2", "R3"], [("R3_4", "R3"), ("R3_3", "R3"), ("R3_1", "R3")]⟩ _
    (by decide) (by decide)

/-- C9: a base name that is in the symbol table (and so is non-empty; the tables
hold fewer than `2 ^ 32 - 1` names) is answered with a name whose base name, by
`getBaseValueName`, is the base name passed; this remains so after any further
declarations and requests; and a name without a binding in `BaseNames` is its
own base name. -/
theorem getBaseValueName_getIndexedValueName (syms : List String) (bn : StringMap)
    (B : String) (hB : B ∈ syms) (hne : B ≠ "")
    (hsz : syms.length + bn.length + 1 < 2 ^ 32) :
    ∃ nm bn2, getIndexedValueName syms bn B = .ok (nm, bn2) ∧
      getBaseValueName bn2 nm = B ∧
      (∀ (syms2 : List String) (evs : List NameEvent) (outs : List NameAnswer)
        (st2 : NameState), runNames ⟨syms2, bn2⟩ evs = .ok (outs, st2) →
        getBaseValueName st2.BaseNames nm = B) ∧
      (∀ (bn0 : StringMap) (n : String), bn0.get n = "" → getBaseValueName bn0 n = n) := by
  obtain ⟨nm, bn2, h⟩ := getIndexedValueName_returns syms bn B hne hsz
  obtain ⟨pre, k, _, _, _, hbn, _, _⟩ := getIndexedValueName_collided hB h
  have hget : bn2.get nm = B := by
    rw [hbn, StringMap.set, StringMap.get_cons]; simp
  refine ⟨nm, bn2, h, ?_, ?_, ?_⟩
  · simp [getBaseValueName, hget, hne]
  · intro syms2 evs outs st2 hrun
    have := runNames_get_of_ne nm evs ⟨syms2, bn2⟩ st2 outs hrun (by simpa [hget] using hne)
    simp only at this
    simp [getBaseValueName, this, hget, hne]
  · intro bn0 n hn
    simp [getBaseValueName, hn]

/-- Witness for C9: the base name `R3` when `R3_1` is already bound. -/
theorem getBaseValueName_getIndexedValueName_witness :
    ∃ nm bn2, getIndexedValueName ["R3"] [("R3_1", "R3")] "R3" = .ok (nm, bn2) ∧
      getBaseValueName bn2 nm = "R3" ∧
      (∀ (syms2 : List String) (evs : List NameEvent) (outs : List NameAnswer)
        (st2 : NameState), runNames ⟨syms2, bn2⟩ evs = .ok (outs, st2) →
        getBaseValueName st2.BaseNames nm = "R3") ∧
      (∀ (bn0 : StringMap) (n : String), bn0.get n = "" → getBaseValueName bn0 n = n) :=
  getBaseValueName_getIndexedValueName ["R3"] [("R3_1", "R3")] "R3" (by decide)
    (by decide) (by decide)

/-! ### Steps of the emitter -/

theorem bind_eq_ok {α β : Type} {x : Except Err α} {f : α → Except Err β} {b : β}
    (h : (x >>= f) = .ok b) : ∃ a, x = .ok a ∧ f a = .ok b := by
  cases x with
  | error e => simp [bind, Except.bind] at h
  | ok a => exact ⟨a, rfl, h⟩

theorem Emitter.emit_ok {s s2 : Emitter} {mk : Nat → Value} {v : Value}
    (h : s.emit mk = .ok (v, s2)) :
    v = mk s.nextId ∧
      s2 = { s with blocks := s.blocks.modify (fun b => b ++ [mk s.nextId]) s.cur,
                    nextId := s.nextId + 1 } := by
  unfold Emitter.emit at h
  simp only [Except.ok.injEq, Prod.mk.injEq] at h
  exact ⟨h.1.symm, h.2.symm⟩

theorem Emitter.indexedName_ok {s s2 : Emitter} {B nm : String}
    (h : s.indexedName B = .ok (nm, s2)) :
    ∃ bn, getIndexedValueName s.symbols s.BaseNames B = .ok (nm, bn) ∧
      s2 = { s with BaseNames := bn } := by
  unfold Emitter.indexedName at h
  obtain ⟨⟨nm2, bn⟩, h1, h2⟩ := bind_eq_ok h
  simp only [Except.ok.injEq, Prod.mk.injEq] at h2
  exact ⟨bn, by rw [h1, h2.1], h2.2.symm⟩

theorem visitRegister_ok {ri : RegInfo} {g : DAG} {N : Nat} {s s2 : Emitter}
    {r : Option Value} (h : visitRegister ri g N s = .ok (r, s2)) :
    ∃ n, g.getNode N = .ok n ∧
      ((n.isRegister = false ∧ r = none ∧ s2 = s) ∨
       (n.isRegister = true ∧ ∃ a, s.regSlot n.imm = .ok (some a) ∧ r = some a ∧ s2 = s) ∨
       (n.isRegister = true ∧ s.regSlot n.imm = .ok none ∧
         ∃ vt Ty nm bn, n.getValueType 0 = .ok vt ∧ getTypeForEVT vt = .ok Ty ∧
           (s.globalFor (ri.name n.imm) Ty).2.cur < (s.globalFor (ri.name n.imm) Ty).2.blocks.length ∧
           getIndexedValueName (s.globalFor (ri.name n.imm) Ty).2.symbols
             (s.globalFor (ri.name n.imm) Ty).2.BaseNames (ri.name n.imm) = .ok (nm, bn) ∧
           r = some (Value.alloca (s.globalFor (ri.name n.imm) Ty).2.nextId Ty (ri.name n.imm)) ∧
           s2 = slotCreated ri n s Ty nm bn)) := by
  unfold visitRegister at h
  obtain ⟨n, hn, h⟩ := bind_eq_ok h
  refine ⟨n, hn, ?_⟩
  cases hreg : n.isRegister with
  | false =>
    simp only [hreg, Bool.not_false, if_true, Except.ok.injEq, Prod.mk.injEq] at h
    exact Or.inl ⟨rfl, h.1.symm, h.2.symm⟩
  | true =>
    simp only [hreg, Bool.not_true, Bool.false_eq_true, if_false] at h
    obtain ⟨slot, hslot, h⟩ := bind_eq_ok h
    cases slot with
    | some a =>
      simp only [Except.ok.injEq, Prod.mk.injEq] at h
      exact Or.inr (Or.inl ⟨rfl, a, hslot, h.1.symm, h.2.symm⟩)
    | none =>
      simp only at h
      obtain ⟨vt, hvt, h⟩ := bind_eq_ok h
      obtain ⟨Ty, hTy, h⟩ := bind_eq_ok h
      refine Or.inr (Or.inr ⟨rfl, hslot, ?_⟩)
      split at h
      · rename_i hc
        obtain ⟨⟨nm, s3⟩, hnm, h⟩ := bind_eq_ok h
        obtain ⟨bn, hbn, hs3⟩ := Emitter.indexedName_ok hnm
        simp only [Except.ok.injEq, Prod.mk.injEq] at h
        refine ⟨vt, Ty, nm, bn, hvt, hTy, hc, hbn, h.1.symm, ?_⟩
        rw [← h.2, hs3]
        rfl
      · cases h

/-! ### The shape of the visitors -/

section Shape

variable {ri : RegInfo} {g : DAG} {R : Emitter → Emitter → Prop}

theorem getInstructionName_respects (hR : Respects ri g R) {N : Nat} {s s2 : Emitter}
    {nm : String} (h : getInstructionName ri g N s = .ok (nm, s2)) : R s s2 := by
  unfold getInstructionName at h
  split at h
  · simp only [Except.ok.injEq, Prod.mk.injEq] at h
    rw [← h.2]
    exact hR.refl s
  · obtain ⟨user, _, h⟩ := bind_eq_ok h
    obtain ⟨op1, _, h⟩ := bind_eq_ok h
    obtain ⟨⟨rv, s1⟩, hreg, h⟩ := bind_eq_ok h
    cases rv with
    | none => cases h
    | some RegVal => exact hR.trans (hR.register hreg) (hR.names h)

theorem visitCopyFromReg_ends (hR : Respects ri g R) {N : Nat} {s s2 : Emitter}
    {r : Option Value} (h : visitCopyFromReg ri g N s = .ok (r, s2)) :
    Ends R N s r s2 := by
  unfold visitCopyFromReg at h
  obtain ⟨n, _, h⟩ := bind_eq_ok h
  split at h
  · simp only [Except.ok.injEq, Prod.mk.injEq] at h
    exact ⟨s, hR.refl s, Or.inl ⟨h.1.symm, h.2.symm⟩⟩
  · obtain ⟨op1, _, h⟩ := bind_eq_ok h
    obtain ⟨⟨rv, s1⟩, hreg, h⟩ := bind_eq_ok h
    cases rv with
    | none =>
      simp only [Except.ok.injEq, Prod.mk.injEq] at h
      exact ⟨s1, hR.register hreg, Or.inl ⟨h.1.symm, h.2.symm⟩⟩
    | some RegVal =>
      obtain ⟨⟨Name, s3⟩, hnm, h⟩ := bind_eq_ok h
      obtain ⟨⟨Res, s4⟩, hem, h⟩ := bind_eq_ok h
      simp only [Except.ok.injEq, Prod.mk.injEq] at h
      have hv : Res.isBodyValue = true := by rw [(Emitter.emit_ok hem).1]; rfl
      exact ⟨s4, hR.trans (hR.register hreg) (hR.trans (hR.names hnm) (hR.emit hem hv)),
        Or.inr ⟨Res, h.1.symm, hv, h.2.symm⟩⟩

theorem visitCopyToReg_ends (hR : Respects ri g R) {vis : Visit}
    (hvis : ∀ n t r t2, vis n t = .ok (r, t2) → R t t2) {N : Nat} {s s2 : Emitter}
    {r : Option Value} (h : visitCopyToReg ri g vis N s = .ok (r, s2)) :
    Ends R N s r s2 := by
  unfold visitCopyToReg at h
  obtain ⟨n, _, h⟩ := bind_eq_ok h
  obtain ⟨op1, _, h⟩ := bind_eq_ok h
  obtain ⟨⟨RegVal, s1⟩, hreg, h⟩ := bind_eq_ok h
  obtain ⟨op2, _, h⟩ := bind_eq_ok h
  obtain ⟨⟨V, s3⟩, hv, h⟩ := bind_eq_ok h
  have h13 : R s s3 := hR.trans (hR.register hreg) (hvis _ _ _ _ hv)
  simp only at h
  split at h
  · obtain ⟨⟨Res, s4⟩, hem, h⟩ := bind_eq_ok h
    simp only [Except.ok.injEq, Prod.mk.injEq] at h
    have hb : Res.isBodyValue = true := by rw [(Emitter.emit_ok hem).1]; rfl
    exact ⟨s4, hR.trans h13 (hR.emit hem hb), Or.inr ⟨Res, h.1.symm, hb, h.2.symm⟩⟩
  · simp only [Except.ok.injEq, Prod.mk.injEq] at h
    exact ⟨s3, h13, Or.inl ⟨h.1.symm, h.2.symm⟩⟩

theorem visitConstant_ends (hR : Respects ri g R) {N : Nat} {s s2 : Emitter}
    {r : Option Value} (h : visitConstant g N s = .ok (r, s2)) : Ends R N s r s2 := by
  unfold visitConstant at h
  obtain ⟨n, _, h⟩ := bind_eq_ok h
  split at h
  · obtain ⟨vt, _, h⟩ := bind_eq_ok h
    obtain ⟨Ty, _, h⟩ := bind_eq_ok h
    simp only [Except.ok.injEq, Prod.mk.injEq] at h
    exact ⟨s, hR.refl s, Or.inr ⟨_, h.1.symm, rfl, h.2.symm⟩⟩
  · simp only [Except.ok.injEq, Prod.mk.injEq] at h
    exact ⟨s, hR.refl s, Or.inl ⟨h.1.symm, h.2.symm⟩⟩

theorem visitBinary_ends (mk : Nat → Value → Value → String → Value)
    (hR : Respects ri g R) {vis : Visit}
    (hvis : ∀ n t r t2, vis n t = .ok (r, t2) → R t t2)
    (hmk : ∀ id a b nm, (mk id a b nm).isBodyValue = true) {N : Nat} {s s2 : Emitter}
    {r : Option Value} (h : visitBinary mk ri g vis N s = .ok (r, s2)) :
    EndsCached R N s r s2 := by
  unfold visitBinary at h
  obtain ⟨n, _, h⟩ := bind_eq_ok h
  obtain ⟨op0, _, h⟩ := bind_eq_ok h
  obtain ⟨⟨Op0, s1⟩, h0, h⟩ := bind_eq_ok h
  obtain ⟨op1, _, h⟩ := bind_eq_ok h
  obtain ⟨⟨Op1, s3⟩, h1, h⟩ := bind_eq_ok h
  obtain ⟨⟨BaseName, s4⟩, hin, h⟩ := bind_eq_ok h
  obtain ⟨B1, _, h⟩ := bind_eq_ok h
  obtain ⟨B2, _, h⟩ := bind_eq_ok h
  obtain ⟨⟨Name, s5⟩, hnm, h⟩ := bind_eq_ok h
  have h15 : R s s5 := hR.trans (hvis _ _ _ _ h0) (hR.trans (hvis _ _ _ _ h1)
    (hR.trans (getInstructionName_respects hR hin) (hR.names hnm)))
  simp only at h
  split at h
  · split at h
    · cases h
    · obtain ⟨⟨Res, s6⟩, hem, h⟩ := bind_eq_ok h
      simp only [Except.ok.injEq, Prod.mk.injEq] at h
      have hb : Res.isBodyValue = true := by rw [(Emitter.emit_ok hem).1]; exact hmk _ _ _ _
      exact ⟨s6, Res, hR.trans h15 (hR.emit hem hb), h.1.symm, hb, h.2.symm⟩
  · cases h

theorem addrToPtr_respects (hR : Respects ri g R) {Addr A2 : Value} {Name : String}
    {s s2 : Emitter} (h : addrToPtr Addr Name s = .ok (A2, s2)) : R s s2 := by
  unfold addrToPtr at h
  split at h
  · split at h
    · cases h
    · exact hR.emit h (by rw [(Emitter.emit_ok h).1]; rfl)
  · simp only [Except.ok.injEq, Prod.mk.injEq] at h
    rw [← h.2]
    exact hR.refl s

theorem visitLOAD_ends (hR : Respects ri g R) {vis : Visit}
    (hvis : ∀ n t r t2, vis n t = .ok (r, t2) → R t t2) {N : Nat} {s s2 : Emitter}
    {r : Option Value} (h : visitLOAD vis g N s = .ok (r, s2)) :
    EndsCached R N s r s2 := by
  unfold visitLOAD at h
  obtain ⟨n, _, h⟩ := bind_eq_ok h
  obtain ⟨op0, _, h⟩ := bind_eq_ok h
  obtain ⟨⟨Op0, s1⟩, h0, h⟩ := bind_eq_ok h
  cases Op0 with
  | none => cases h
  | some Addr =>
    obtain ⟨⟨Name, s3⟩, hnm, h⟩ := bind_eq_ok h
    obtain ⟨⟨A2, s4⟩, hap, h⟩ := bind_eq_ok h
    obtain ⟨⟨Name2, s5⟩, hnm2, h⟩ := bind_eq_ok h
    obtain ⟨⟨Res, s6⟩, hem, h⟩ := bind_eq_ok h
    simp only [Except.ok.injEq, Prod.mk.injEq] at h
    have hb : Res.isBodyValue = true := by rw [(Emitter.emit_ok hem).1]; rfl
    exact ⟨s6, Res, hR.trans (hvis _ _ _ _ h0) (hR.trans (hR.names hnm)
      (hR.trans (addrToPtr_respects hR hap) (hR.trans (hR.names hnm2) (hR.emit hem hb)))),
      h.1.symm, hb, h.2.symm⟩

theorem visitSTORE_ends (hR : Respects ri g R) {vis : Visit}
    (hvis : ∀ n t r t2, vis n t = .ok (r, t2) → R t t2) {N : Nat} {s s2 : Emitter}
    {r : Option Value} (h : visitSTORE vis g N s = .ok (r, s2)) :
    EndsCached R N s r s2 := by
  unfold visitSTORE at h
  obtain ⟨n, _, h⟩ := bind_eq_ok h
  obtain ⟨op0, _, h⟩ := bind_eq_ok h
  obtain ⟨⟨StoreVal, s1⟩, h0, h⟩ := bind_eq_ok h
  obtain ⟨op1, _, h⟩ := bind_eq_ok h
  obtain ⟨⟨Op1, s3⟩, h1, h⟩ := bind_eq_ok h
  cases Op1 with
  | none => cases h
  | some Addr =>
    obtain ⟨⟨Name, s4⟩, hnm, h⟩ := bind_eq_ok h
    obtain ⟨⟨A2, s5⟩, hap, h⟩ := bind_eq_ok h
    cases StoreVal with
    | none => cases h
    | some v =>
      obtain ⟨⟨Res, s6⟩, hem, h⟩ := bind_eq_ok h
      simp only [Except.ok.injEq, Prod.mk.injEq] at h
      have hb : Res.isBodyValue = true := by rw [(Emitter.emit_ok hem).1]; rfl
      exact ⟨s6, Res, hR.trans (hvis _ _ _ _ h0) (hR.trans (hvis _ _ _ _ h1)
        (hR.trans (hR.names hnm) (hR.trans (addrToPtr_respects hR hap) (hR.emit hem hb)))),
        h.1.symm, hb, h.2.symm⟩

end Shape

/-! ### Relations that hold across `visit` -/

theorem Ends.of_cached {R : Emitter → Emitter → Prop} {N : Nat} {s s2 : Emitter}
    {r : Option Value} (h : EndsCached R N s r s2) : Ends R N s r s2 := by
  obtain ⟨sp, Res, h1, h2, h3, h4⟩ := h
  exact ⟨sp, h1, Or.inr ⟨Res, h2, h3, h4⟩⟩

/-- Inversion of `visit` on a node that is not in `VisitMap`. -/
theorem visit_succ_uncached {ri : RegInfo} {g : DAG} {fuel N : Nat} {s s2 : Emitter}
    {r : Option Value} (hl : s.VisitMap.lookup N = none)
    (h : visit ri g (fuel + 1) N s = .ok (r, s2)) :
    ∃ n, g.getNode N = .ok n ∧
      ((visitorOf n.opc = .unknown ∧ r = none ∧ s2 = s) ∨
       (visitorOf n.opc = .nothing ∧ r = none ∧ s2 = s) ∨
       (visitorOf n.opc = .returnsNull ∧ r = none ∧ s2 = s) ∨
       (visitorOf n.opc = .CopyFromReg ∧ visitCopyFromReg ri g N s = .ok (r, s2)) ∨
       (visitorOf n.opc = .CopyToReg ∧
         visitCopyToReg ri g (visit ri g fuel) N s = .ok (r, s2)) ∨
       (visitorOf n.opc = .Constant ∧ visitConstant g N s = .ok (r, s2)) ∨
       (visitorOf n.opc = .ADD ∧ visitADD ri g (visit ri g fuel) N s = .ok (r, s2)) ∨
       (visitorOf n.opc = .SUB ∧ visitSUB ri g (visit ri g fuel) N s = .ok (r, s2)) ∨
       (visitorOf n.opc = .LOAD ∧ visitLOAD (visit ri g fuel) g N s = .ok (r, s2)) ∨
       (visitorOf n.opc = .STORE ∧ visitSTORE (visit ri g fuel) g N s = .ok (r, s2))) := by
  simp only [visit, hl] at h
  obtain ⟨n, hn, h⟩ := bind_eq_ok h
  refine ⟨n, hn, ?_⟩
  cases hv : visitorOf n.opc <;> simp only [hv] at h
  · simp only [Except.ok.injEq, Prod.mk.injEq] at h; exact Or.inl ⟨rfl, h.1.symm, h.2.symm⟩
  · simp only [Except.ok.injEq, Prod.mk.injEq] at h
    exact Or.inr (Or.inl ⟨rfl, h.1.symm, h.2.symm⟩)
  · simp only [Except.ok.injEq, Prod.mk.injEq] at h
    exact Or.inr (Or.inr (Or.inl ⟨rfl, h.1.symm, h.2.symm⟩))
  · exact Or.inr (Or.inr (Or.inr (Or.inl ⟨rfl, h⟩)))
  · exact Or.inr (Or.inr (Or.inr (Or.inr (Or.inl ⟨rfl, h⟩))))
  · exact Or.inr (Or.inr (Or.inr (Or.inr (Or.inr (Or.inl ⟨rfl, h⟩)))))
  · exact Or.inr (Or.inr (Or.inr (Or.inr (Or.inr (Or.inr (Or.inl ⟨rfl, h⟩))))))
  · exact Or.inr (Or.inr (Or.inr (Or.inr (Or.inr (Or.inr (Or.inr (Or.inl ⟨rfl, h⟩)))))))
  · exact Or.inr (Or.inr (Or.inr (Or.inr (Or.inr (Or.inr (Or.inr (Or.inr (Or.inl ⟨rfl, h⟩))))))))
  · exact Or.inr (Or.inr (Or.inr (Or.inr (Or.inr (Or.inr (Or.inr (Or.inr (Or.inr ⟨rfl, h⟩))))))))

theorem visit_succ_cached {ri : RegInfo} {g : DAG} {fuel N : Nat} {s : Emitter}
    {v : Value} (hl : s.VisitMap.lookup N = some v) :
    visit ri g (fuel + 1) N s = .ok (some v, s) := by
  simp only [visit, hl]

/-- A visit of a node that is not in `VisitMap` ends as a visitor does, when
the visits with a smaller budget are related by `R`. -/
theorem visit_succ_ends {ri : RegInfo} {g : DAG} {R : Emitter → Emitter → Prop}
    (hR : Respects ri g R) {fuel : Nat}
    (ih : ∀ n t r t2, visit ri g fuel n t = .ok (r, t2) → R t t2)
    {N : Nat} {s s2 : Emitter} {r : Option Value} (hl : s.VisitMap.lookup N = none)
    (h : visit ri g (fuel + 1) N s = .ok (r, s2)) : Ends R N s r s2 := by
  obtain ⟨n, _, hc⟩ := visit_succ_uncached hl h
  rcases hc with ⟨_, h1, h2⟩ | ⟨_, h1, h2⟩ | ⟨_, h1, h2⟩ | ⟨_, h1⟩ | ⟨_, h1⟩ | ⟨_, h1⟩ |
    ⟨_, h1⟩ | ⟨_, h1⟩ | ⟨_, h1⟩ | ⟨_, h1⟩
  · exact ⟨s, hR.refl s, Or.inl ⟨h1, h2⟩⟩
  · exact ⟨s, hR.refl s, Or.inl ⟨h1, h2⟩⟩
  · exact ⟨s, hR.refl s, Or.inl ⟨h1, h2⟩⟩
  · exact visitCopyFromReg_ends hR h1
  · exact visitCopyToReg_ends hR ih h1
  · exact visitConstant_ends hR h1
  · exact Ends.of_cached
      (visitBinary_ends Value.add hR ih (fun _ _ _ _ => rfl) h1)
  · exact Ends.of_cached
      (visitBinary_ends Value.sub hR ih (fun _ _ _ _ => rfl) h1)
  · exact Ends.of_cached (visitLOAD_ends hR ih h1)
  · exact Ends.of_cached (visitSTORE_ends hR ih h1)

/-- A relation that holds across the steps of the visitors, and across the
final `VisitMap[N] = Res` of a visit, holds across `visit`. -/
theorem visit_respects {ri : RegInfo} {g : DAG} {R : Emitter → Emitter → Prop}
    (hR : Respects ri g R)
    (hcache : ∀ fuel N s Res sp, s.VisitMap.lookup N = none →
      visit ri g fuel N s = .ok (some Res, sp.cache N Res) → Res.isBodyValue = true →
      R s sp → R s (sp.cache N Res)) :
    ∀ fuel N s r s2, visit ri g fuel N s = .ok (r, s2) → R s s2 := by
  intro fuel
  induction fuel with
  | zero => intro N s r s2 h; cases h
  | succ f ih =>
    intro N s r s2 h
    cases hl : s.VisitMap.lookup N with
    | some v =>
      rw [visit_succ_cached hl] at h
      simp only [Except.ok.injEq, Prod.mk.injEq] at h
      rw [← h.2]
      exact hR.refl s
    | none =>
      obtain ⟨sp, hsp, hc⟩ := visit_succ_ends hR ih hl h
      rcases hc with ⟨_, h2⟩ | ⟨Res, h1, hb, h2⟩
      · rw [h2]; exact hsp
      · subst h1 h2
        exact hcache _ _ _ _ _ hl h hb hsp

/-! ### What the steps leave unchanged -/

theorem Emitter.indexedName_frame {s s2 : Emitter} {B nm : String}
    (h : s.indexedName B = .ok (nm, s2)) :
    s2.VisitMap = s.VisitMap ∧ s2.RegMap = s.RegMap ∧ s2.blocks = s.blocks ∧
      s2.cur = s.cur ∧ s2.nextId = s.nextId ∧ s2.globals = s.globals ∧
      s2.funcs = s.funcs := by
  obtain ⟨bn, _, rfl⟩ := Emitter.indexedName_ok h
  simp

theorem Emitter.emit_frame {s s2 : Emitter} {mk : Nat → Value} {v : Value}
    (h : s.emit mk = .ok (v, s2)) :
    s2.VisitMap = s.VisitMap ∧ s2.RegMap = s.RegMap ∧ s2.BaseNames = s.BaseNames ∧
      s2.cur = s.cur ∧ s2.globals = s.globals ∧ s2.funcs = s.funcs := by
  obtain ⟨_, rfl⟩ := Emitter.emit_ok h
  simp

theorem visitRegister_VisitMap {ri : RegInfo} {g : DAG} {N : Nat} {s s2 : Emitter}
    {r : Option Value} (h : visitRegister ri g N s = .ok (r, s2)) :
    s2.VisitMap = s.VisitMap := by
  obtain ⟨n, _, hc⟩ := visitRegister_ok h
  rcases hc with ⟨_, _, rfl⟩ | ⟨_, a, _, _, rfl⟩ | ⟨_, _, vt, Ty, nm, bn, _, _, _, _, _, rfl⟩
  · rfl
  · rfl
  · simp only [slotCreated, Emitter.globalFor]
    split <;> rfl

theorem Emitter.regSlot_eq {s : Emitter} {i : Nat} {o : Option Value} :
    s.regSlot i = .ok o ↔ s.RegMap[i]? = some o := by
  unfold Emitter.regSlot
  cases h : s.RegMap[i]? <;> simp

theorem Emitter.globalFor_frame (s : Emitter) (RegName : String) (Ty : Ty) :
    (s.globalFor RegName Ty).2.RegMap = s.RegMap ∧
    (s.globalFor RegName Ty).2.VisitMap = s.VisitMap ∧
    (s.globalFor RegName Ty).2.BaseNames = s.BaseNames ∧
    (s.globalFor RegName Ty).2.blocks = s.blocks ∧
    (s.globalFor RegName Ty).2.cur = s.cur ∧
    (s.globalFor RegName Ty).2.nextId = s.nextId ∧
    (s.globalFor RegName Ty).2.funcs = s.funcs := by
  unfold Emitter.globalFor
  split <;> simp

/-! ### Slots and cached values are kept -/

theorem regKeep_respects (ri : RegInfo) (g : DAG) : Respects ri g RegKeep where
  refl := fun s i a h => h
  trans := fun h1 h2 i a h => h2 i a (h1 i a h)
  names := by
    intro s B nm s2 h i a hi
    rw [(Emitter.indexedName_frame h).2.1]; exact hi
  emit := by
    intro s mk v s2 h _ i a hi
    rw [(Emitter.emit_frame h).2.1]; exact hi
  register := by
    intro N s r s2 h i a hi
    obtain ⟨n, _, hc⟩ := visitRegister_ok h
    rcases hc with ⟨_, _, rfl⟩ | ⟨_, b, _, _, rfl⟩ |
      ⟨_, hslot, vt, Ty, nm, bn, _, _, _, _, _, rfl⟩
    · exact hi
    · exact hi
    · simp only [slotCreated, (s.globalFor_frame _ _).1]
      rw [List.getElem?_set]
      have hs := Emitter.regSlot_eq.1 hslot
      by_cases hn : n.imm = i
      · subst hn; rw [hs] at hi; cases hi
      · simp [hn, hi]

theorem visit_regKeep {ri : RegInfo} {g : DAG} {fuel N : Nat} {s s2 : Emitter}
    {r : Option Value} (h : visit ri g fuel N s = .ok (r, s2)) : RegKeep s s2 :=
  visit_respects (regKeep_respects ri g) (fun _ _ _ _ _ _ _ _ h => h) fuel N s r s2 h

theorem cacheLe_cache (s : Emitter) (N : Nat) (Res : Value) : CacheLe s (s.cache N Res) := by
  intro m hm
  simp only [Emitter.cache, List.lookup_cons]
  split
  · simp
  · exact hm

theorem cacheLe_respects (ri : RegInfo) (g : DAG) : Respects ri g CacheLe where
  refl := fun s m h => h
  trans := fun h1 h2 m h => h2 m (h1 m h)
  names := by
    intro s B nm s2 h m hm
    rw [(Emitter.indexedName_frame h).1]; exact hm
  emit := by
    intro s mk v s2 h _ m hm
    rw [(Emitter.emit_frame h).1]; exact hm
  register := by
    intro N s r s2 h m hm
    rw [visitRegister_VisitMap h]; exact hm

theorem visit_cacheLe {ri : RegInfo} {g : DAG} {fuel N : Nat} {s s2 : Emitter}
    {r : Option Value} (h : visit ri g fuel N s = .ok (r, s2)) : CacheLe s s2 :=
  visit_respects (cacheLe_respects ri g)
    (fun _ _ _ Res sp _ _ _ h m hm => cacheLe_cache sp _ Res m (h m hm)) fuel N s r s2 h

/-- A second `visitRegister` on the same node returns the same slot and changes
nothing, whatever was emitted in between. -/
theorem visitRegister_again {ri : RegInfo} {g : DAG} {N : Nat} {s s1 s2 : Emitter}
    {r : Option Value} (h : visitRegister ri g N s = .ok (r, s1)) (hk : RegKeep s1 s2) :
    visitRegister ri g N s2 = .ok (r, s2) := by
  obtain ⟨n, hn, hc⟩ := visitRegister_ok h
  rcases hc with ⟨hreg, rfl, rfl⟩ | ⟨hreg, a, hslot, rfl, rfl⟩ |
    ⟨hreg, hslot, vt, Ty, nm, bn, _, _, _, _, rfl, rfl⟩
  · simp [visitRegister, hn, hreg, bind, Except.bind]
  · have := Emitter.regSlot_eq.2 (hk _ _ (Emitter.regSlot_eq.1 hslot))
    simp [visitRegister, hn, hreg, bind, Except.bind, this]
  · have hs := Emitter.regSlot_eq.1 hslot
    have hlt : n.imm < s.RegMap.length := by
      by_contra hc
      rw [List.getElem?_eq_none (by omega)] at hs
      cases hs
    have h1 : (slotCreated ri n s Ty nm bn).RegMap[n.imm]? =
        some (some (Value.alloca (s.globalFor (ri.name n.imm) Ty).2.nextId Ty
          (ri.name n.imm))) := by
      simp only [slotCreated, (s.globalFor_frame _ _).1]
      rw [List.getElem?_set]
      simp [hlt]
    have := Emitter.regSlot_eq.2 (hk _ _ h1)
    simp [visitRegister, hn, hreg, bind, Except.bind, this]

/-! ### Where the entries of `VisitMap` come from -/

theorem Translated.mono {ri : RegInfo} {g : DAG} {m : Nat} {s s2 : Emitter}
    (h : Translated ri g m s) (hle : CacheLe s s2) : Translated ri g m s2 := by
  obtain ⟨fuel, t, w, t2, h1, h2, h3⟩ := h
  exact ⟨fuel, t, w, t2, h1, h2, fun k hk => hle k (h3 k hk)⟩

theorem growsByVisits_of_eq {ri : RegInfo} {g : DAG} {s s2 : Emitter}
    (h : s2.VisitMap = s.VisitMap) : GrowsByVisits ri g s s2 := by
  refine ⟨fun m hm => by rw [h]; exact hm, fun m h1 h2 => ?_⟩
  rw [h] at h2
  exact absurd h1 h2

theorem growsByVisits_respects (ri : RegInfo) (g : DAG) :
    Respects ri g (GrowsByVisits ri g) where
  refl := fun s => growsByVisits_of_eq rfl
  trans := by
    intro s1 s2 s3 h12 h23
    refine ⟨fun m hm => h23.1 m (h12.1 m hm), fun m h1 h3 => ?_⟩
    cases h2 : s2.VisitMap.lookup m with
    | none => exact h23.2 m h2 h3
    | some v => exact (h12.2 m h1 (by simp [h2])).mono h23.1
  names := fun h => growsByVisits_of_eq (Emitter.indexedName_frame h).1
  emit := fun h _ => growsByVisits_of_eq (Emitter.emit_frame h).1
  register := fun h => growsByVisits_of_eq (visitRegister_VisitMap h)

theorem visit_growsByVisits {ri : RegInfo} {g : DAG} {fuel N : Nat} {s s2 : Emitter}
    {r : Option Value} (h : visit ri g fuel N s = .ok (r, s2)) :
    GrowsByVisits ri g s s2 := by
  refine visit_respects (growsByVisits_respects ri g) ?_ fuel N s r s2 h
  intro fuel N s Res sp hl hv _ hsp
  have hle : CacheLe s (sp.cache N Res) := fun m hm => cacheLe_cache sp N Res m (hsp.1 m hm)
  refine ⟨hle, fun m h1 h2 => ?_⟩
  cases hm : sp.VisitMap.lookup m with
  | some v => exact (hsp.2 m h1 (by simp [hm])).mono (cacheLe_cache sp N Res)
  | none =>
    have hmN : m = N := by
      by_contra hne
      have : (m == N) = false := by simpa using hne
      simp only [Emitter.cache, List.lookup_cons, this] at h2
      exact h2 hm
    subst hmN
    exact ⟨fuel, s, Res, _, hl, hv, hle⟩

/-! ### Visits that return `NULL` -/

theorem visit_succ_dispatch {ri : RegInfo} {g : DAG} {fuel N : Nat} {s : Emitter}
    (hl : s.VisitMap.lookup N = none) :
    visit ri g (fuel + 1) N s =
      g.getNode N >>= fun n => dispatch ri g (visit ri g fuel) (visitorOf n.opc) N s := by
  simp only [visit, hl]
  congr

theorem visit_none_uncached {ri : RegInfo} {g : DAG} {fuel N : Nat} {s s2 : Emitter}
    (h : visit ri g fuel N s = .ok (none, s2)) : s.VisitMap.lookup N = none := by
  cases fuel with
  | zero => cases h
  | succ f =>
    cases hl : s.VisitMap.lookup N with
    | none => rfl
    | some v =>
      rw [visit_succ_cached hl] at h
      simp at h

theorem respects_true (ri : RegInfo) (g : DAG) : Respects ri g (fun _ _ => True) where
  refl := fun _ => trivial
  trans := fun _ _ => trivial
  names := fun _ => trivial
  emit := fun _ _ => trivial
  register := fun _ => trivial

theorem visitRegister_isRegister {ri : RegInfo} {g : DAG} {N : Nat} {s s2 : Emitter}
    {r : Option Value} (h : visitRegister ri g N s = .ok (r, s2)) :
    ∃ n, g.getNode N = .ok n ∧ (r = none ↔ n.isRegister = false) := by
  obtain ⟨n, hn, hc⟩ := visitRegister_ok h
  refine ⟨n, hn, ?_⟩
  rcases hc with ⟨hreg, rfl, _⟩ | ⟨hreg, a, _, rfl, _⟩ |
    ⟨hreg, _, vt, Ty, nm, bn, _, _, _, _, rfl, _⟩ <;> simp [hreg]

theorem visitRegister_none {ri : RegInfo} {g : DAG} {N : Nat} {s s2 : Emitter}
    (h : visitRegister ri g N s = .ok (none, s2)) : s2 = s := by
  obtain ⟨n, hn, hc⟩ := visitRegister_ok h
  rcases hc with ⟨_, _, h1⟩ | ⟨_, a, _, h1, _⟩ | ⟨_, _, vt, Ty, nm, bn, _, _, _, _, h1, _⟩
  · exact h1
  · cases h1
  · cases h1

/-- Whether `visitRegister` returns `NULL` depends on the node only. -/
theorem visitRegister_null_agree {ri : RegInfo} {g : DAG} {N : Nat} {s s2 t t2 : Emitter}
    {r : Option Value} (h : visitRegister ri g N s = .ok (none, s2))
    (h2 : visitRegister ri g N t = .ok (r, t2)) : r = none := by
  obtain ⟨n, hn, h1⟩ := visitRegister_isRegister h
  obtain ⟨n2, hn2, h3⟩ := visitRegister_isRegister h2
  rw [hn] at hn2
  cases hn2
  exact h3.2 (h1.1 rfl)

theorem visitCopyFromReg_none {ri : RegInfo} {g : DAG} {N : Nat} {s s2 : Emitter}
    (h : visitCopyFromReg ri g N s = .ok (none, s2)) :
    s2 = s ∧ ∀ t r t2, visitCopyFromReg ri g N t = .ok (r, t2) → r = none := by
  unfold visitCopyFromReg at h
  obtain ⟨n, hn, h⟩ := bind_eq_ok h
  split at h
  · rename_i huse
    simp only [Except.ok.injEq, Prod.mk.injEq, true_and] at h
    refine ⟨h.symm, ?_⟩
    intro t r t2 ht
    unfold visitCopyFromReg at ht
    obtain ⟨n2, _, ht⟩ := bind_eq_ok ht
    simp only [huse, if_true, Except.ok.injEq, Prod.mk.injEq] at ht
    exact ht.1.symm
  · obtain ⟨op1, hop, h⟩ := bind_eq_ok h
    obtain ⟨⟨rv, s1⟩, hreg, h⟩ := bind_eq_ok h
    cases rv with
    | some RegVal =>
      obtain ⟨⟨Name, s3⟩, _, h⟩ := bind_eq_ok h
      obtain ⟨⟨Res, s4⟩, _, h⟩ := bind_eq_ok h
      simp at h
    | none =>
      simp only [Except.ok.injEq, Prod.mk.injEq, true_and] at h
      refine ⟨by rw [← h]; exact visitRegister_none hreg, ?_⟩
      intro t r t2 ht
      unfold visitCopyFromReg at ht
      obtain ⟨n2, hn2, ht⟩ := bind_eq_ok ht
      rw [hn] at hn2
      cases hn2
      split at ht
      · simp only [Except.ok.injEq, Prod.mk.injEq] at ht
        exact ht.1.symm
      · obtain ⟨op1b, hopb, ht⟩ := bind_eq_ok ht
        rw [hop] at hopb
        cases hopb
        obtain ⟨⟨rv2, t1⟩, hreg2, ht⟩ := bind_eq_ok ht
        have := visitRegister_null_agree hreg hreg2
        subst this
        simp only [Except.ok.injEq, Prod.mk.injEq] at ht
        exact ht.1.symm

theorem visitConstant_none {g : DAG} {N : Nat} {s s2 : Emitter}
    (h : visitConstant g N s = .ok (none, s2)) :
    s2 = s ∧ ∀ t r t2, visitConstant g N t = .ok (r, t2) → r = none := by
  unfold visitConstant at h
  obtain ⟨n, hn, h⟩ := bind_eq_ok h
  split at h
  · obtain ⟨vt, _, h⟩ := bind_eq_ok h
    obtain ⟨Ty, _, h⟩ := bind_eq_ok h
    simp at h
  · rename_i hc
    simp only [Except.ok.injEq, Prod.mk.injEq, true_and] at h
    refine ⟨h.symm, ?_⟩
    intro t r t2 ht
    unfold visitConstant at ht
    obtain ⟨n2, hn2, ht⟩ := bind_eq_ok ht
    rw [hn] at hn2
    cases hn2
    simp only [hc, Bool.false_eq_true, if_false, Except.ok.injEq, Prod.mk.injEq] at ht
    exact ht.1.symm

/-- The two ways in which `visitCopyToReg` returns. -/
theorem visitCopyToReg_ok {ri : RegInfo} {g : DAG} {vis : Visit} {N : Nat}
    {s s2 : Emitter} {r : Option Value}
    (h : visitCopyToReg ri g vis N s = .ok (r, s2)) :
    ∃ n op1 op2 RegVal s1 V s3, g.getNode N = .ok n ∧ n.getOperand 1 = .ok op1 ∧
      visitRegister ri g op1.node s = .ok (RegVal, s1) ∧ n.getOperand 2 = .ok op2 ∧
      vis op2.node s1 = .ok (V, s3) ∧
      (((V = none ∨ RegVal = none) ∧ r = none ∧ s2 = s3) ∨
       (∃ v rg Res s4, V = some v ∧ RegVal = some rg ∧
         s3.emit (fun id => Value.store id v rg) = .ok (Res, s4) ∧ r = some Res ∧
         s2 = s4.cache N Res)) := by
  unfold visitCopyToReg at h
  obtain ⟨n, hn, h⟩ := bind_eq_ok h
  obtain ⟨op1, hop1, h⟩ := bind_eq_ok h
  obtain ⟨⟨RegVal, s1⟩, hreg, h⟩ := bind_eq_ok h
  obtain ⟨op2, hop2, h⟩ := bind_eq_ok h
  obtain ⟨⟨V, s3⟩, hv, h⟩ := bind_eq_ok h
  refine ⟨n, op1, op2, RegVal, s1, V, s3, hn, hop1, hreg, hop2, hv, ?_⟩
  cases V with
  | none =>
    simp only [Except.ok.injEq, Prod.mk.injEq] at h
    exact Or.inl ⟨Or.inl rfl, h.1.symm, h.2.symm⟩
  | some v =>
    cases RegVal with
    | none =>
      simp only [Except.ok.injEq, Prod.mk.injEq] at h
      exact Or.inl ⟨Or.inr rfl, h.1.symm, h.2.symm⟩
    | some rg =>
      simp only at h
      obtain ⟨⟨Res, s4⟩, hem, h⟩ := bind_eq_ok h
      simp only [Except.ok.injEq, Prod.mk.injEq] at h
      exact Or.inr ⟨v, rg, Res, s4, rfl, rfl, hem, h.1.symm, h.2.symm⟩

/-- A visit that returns `NULL` does not enter its node in `VisitMap`, and no
visit of that node from a state whose cached nodes are among those of the final
state returns a value. -/
theorem visit_null_stable (ri : RegInfo) (g : DAG) :
    ∀ (fuel N : Nat) (s s2 : Emitter), visit ri g fuel N s = .ok (none, s2) →
      s2.VisitMap.lookup N = none ∧
      ∀ t, CacheLe t s2 → ∀ fuel2 w t2, visit ri g fuel2 N t ≠ .ok (some w, t2) := by
  intro fuel
  induction fuel with
  | zero => intro N s s2 h; cases h
  | succ f ih =>
    intro N s s2 h
    have hl := visit_none_uncached h
    have key : ∀ t, CacheLe t s2 → t.VisitMap.lookup N = none →
        ∀ fuel2 w t2, visit ri g fuel2 N t ≠ .ok (some w, t2) := by
      intro t hle hlt fuel2 w t2 ht
      cases fuel2 with
      | zero => cases ht
      | succ f2 =>
        rw [visit_succ_dispatch hl] at h
        rw [visit_succ_dispatch hlt] at ht
        obtain ⟨n, hn, h⟩ := bind_eq_ok h
        obtain ⟨n2, hn2, ht⟩ := bind_eq_ok ht
        rw [hn] at hn2
        cases hn2
        cases hk : visitorOf n.opc <;> simp only [hk, dispatch] at h ht
        · simp at ht
        · simp at ht
        · simp at ht
        · have := (visitCopyFromReg_none h).2 _ _ _ ht
          cases this
        · obtain ⟨n1, op1, op2, RegVal, s1, V, s3, hn1, hop1, hreg, hop2, hv, hc⟩ :=
            visitCopyToReg_ok h
          obtain ⟨n1b, op1b, op2b, RegValb, t1, Vb, t3, hn1b, hop1b, hregb, hop2b, hvb, hcb⟩ :=
            visitCopyToReg_ok ht
          rw [hn1] at hn1b
          cases hn1b
          rw [hop1] at hop1b
          cases hop1b
          rw [hop2] at hop2b
          cases hop2b
          rcases hcb with ⟨_, hr, _⟩ | ⟨v, rg, Res, t4, hVb, hRb, _, _, _⟩
          · cases hr
          · subst hVb hRb
            rcases hc with ⟨hnull, _, hs⟩ | ⟨v2, rg2, Res2, s4, _, _, _, hr, _⟩
            · subst hs
              rcases hnull with hV | hRn
              · subst hV
                refine (ih _ _ _ hv).2 t1 ?_ _ _ _ hvb
                intro m hm
                rw [visitRegister_VisitMap hregb] at hm
                exact hle m hm
              · subst hRn
                have := visitRegister_null_agree hreg hregb
                cases this
            · cases hr
        · have := (visitConstant_none h).2 _ _ _ ht
          cases this
        · obtain ⟨sp, Res, _, hr, _⟩ := visitBinary_ends Value.add (respects_true ri g)
            (fun _ _ _ _ _ => trivial) (fun _ _ _ _ => rfl) h
          cases hr
        · obtain ⟨sp, Res, _, hr, _⟩ := visitBinary_ends Value.sub (respects_true ri g)
            (fun _ _ _ _ _ => trivial) (fun _ _ _ _ => rfl) h
          cases hr
        · obtain ⟨sp, Res, _, hr, _⟩ := visitLOAD_ends (respects_true ri g)
            (fun _ _ _ _ _ => trivial) h
          cases hr
        · obtain ⟨sp, Res, _, hr, _⟩ := visitSTORE_ends (respects_true ri g)
            (fun _ _ _ _ _ => trivial) h
          cases hr
    have hB : s2.VisitMap.lookup N = none := by
      by_contra hc
      obtain ⟨fuel2, t, w, t2, h1, h2, h3⟩ := (visit_growsByVisits h).2 N hl hc
      exact key t h3 h1 fuel2 w t2 h2
    refine ⟨hB, fun t hle => key t hle ?_⟩
    by_contra hc
    exact hle N hc hB

/-! ### C1: a second visit -/

theorem Emitter.cache_lookup (s : Emitter) (N : Nat) (Res : Value) :
    (s.cache N Res).VisitMap.lookup N = some Res := by
  simp [Emitter.cache, List.lookup_cons]

/-- C1: whenever `visit(N)` returns, from whatever state and for whatever node
of whatever graph, a second `visit(N)` on the state it left returns the same
result (the same value, or `NULL` again) and leaves that state as it is: no
instruction, slot, global or name is added by the second call. -/
theorem visit_twice (ri : RegInfo) (g : DAG) :
    ∀ (fuel N : Nat) (s s2 : Emitter) (r : Option Value),
      visit ri g fuel N s = .ok (r, s2) → visit ri g fuel N s2 = .ok (r, s2) := by
  intro fuel
  induction fuel with
  | zero => intro N s s2 r h; cases h
  | succ f ih =>
    intro N s s2 r h
    cases hl : s.VisitMap.lookup N with
    | some v =>
      rw [visit_succ_cached hl] at h
      simp only [Except.ok.injEq, Prod.mk.injEq] at h
      rw [← h.1, ← h.2]
      exact visit_succ_cached hl
    | none =>
      cases r with
      | some Res =>
        obtain ⟨sp, _, hc⟩ := visit_succ_ends (respects_true ri g)
          (fun _ _ _ _ _ => trivial) hl h
        rcases hc with ⟨hr, _⟩ | ⟨Res2, hr, _, hs⟩
        · cases hr
        · cases hr
          rw [hs]
          exact visit_succ_cached (Emitter.cache_lookup sp N Res)
      | none =>
        have hl2 := (visit_null_stable ri g _ _ _ _ h).1
        have h0 := h
        rw [visit_succ_dispatch hl] at h
        rw [visit_succ_dispatch hl2]
        obtain ⟨n, hn, h⟩ := bind_eq_ok h
        simp only [hn, bind, Except.bind]
        cases hk : visitorOf n.opc with
        | unknown =>
          rw [hk] at h
          simp only [dispatch, Except.ok.injEq, Prod.mk.injEq, true_and] at h ⊢
        | nothing =>
          rw [hk] at h
          simp only [dispatch, Except.ok.injEq, Prod.mk.injEq, true_and] at h ⊢
        | returnsNull =>
          rw [hk] at h
          simp only [dispatch, Except.ok.injEq, Prod.mk.injEq, true_and] at h ⊢
        | CopyFromReg =>
          rw [hk] at h
          simp only [dispatch] at h ⊢
          have := (visitCopyFromReg_none h).1
          rw [this]; rw [this] at h; exact h
        | CopyToReg =>
          rw [hk] at h
          simp only [dispatch] at h ⊢
          obtain ⟨n1, op1, op2, RegVal, s1, V, s3, hn1, hop1, hreg, hop2, hv, hc⟩ :=
            visitCopyToReg_ok h
          rcases hc with ⟨hnull, _, hs⟩ | ⟨_, _, _, _, _, _, _, hr, _⟩
          · subst hs
            have hreg2 := visitRegister_again hreg (visit_regKeep hv)
            have hv2 := ih _ _ _ _ hv
            simp only [visitCopyToReg, hn1, hop1, hreg2, hop2, hv2, bind, Except.bind]
            rcases hnull with hV | hR
            · subst hV; rfl
            · subst hR; cases V <;> rfl
          · cases hr
        | Constant =>
          rw [hk] at h
          simp only [dispatch] at h ⊢
          have := (visitConstant_none h).1
          rw [this]; rw [this] at h; exact h
        | ADD =>
          rw [hk] at h
          obtain ⟨sp, Res, _, hr, _⟩ := visitBinary_ends Value.add (respects_true ri g)
            (fun _ _ _ _ _ => trivial) (fun _ _ _ _ => rfl) h
          cases hr
        | SUB =>
          rw [hk] at h
          obtain ⟨sp, Res, _, hr, _⟩ := visitBinary_ends Value.sub (respects_true ri g)
            (fun _ _ _ _ _ => trivial) (fun _ _ _ _ => rfl) h
          cases hr
        | LOAD =>
          rw [hk] at h
          obtain ⟨sp, Res, _, hr, _⟩ := visitLOAD_ends (respects_true ri g)
            (fun _ _ _ _ _ => trivial) h
          cases hr
        | STORE =>
          rw [hk] at h
          obtain ⟨sp, Res, _, hr, _⟩ := visitSTORE_ends (respects_true ri g)
            (fun _ _ _ _ _ => trivial) h
          cases hr

set_option maxRecDepth 100000 in
/-- Witness for C1: the write of `R3` in the example graph, visited from the
initial state and then once more. -/
theorem visit_twice_witness :
    visit exampleRegs exampleGraph 4 5 (Emitter.init exampleRegs) =
        .ok (some exampleWrite, exampleAfterWrite) ∧
      visit exampleRegs exampleGraph 4 5 exampleAfterWrite =
        .ok (some exampleWrite, exampleAfterWrite) :=
  ⟨by decide,
    visit_twice exampleRegs exampleGraph 4 5 (Emitter.init exampleRegs) _ _ (by decide)⟩

/-! ### C3: absent operands -/

set_option maxRecDepth 100000 in
/-- C3 fails on the code: in `absentOperandGraph` the multiplication and the
node of unknown opcode are translated to `NULL` without failing, and the visit
of each addition, subtraction, load and store that has one of them as an
operand dereferences that `NULL` instead of returning. -/
theorem visit_absent_operand_fails :
    visit exampleRegs absentOperandGraph 9 2 (Emitter.init exampleRegs) =
        .ok (none, Emitter.init exampleRegs) ∧
      visit exampleRegs absentOperandGraph 9 7 (Emitter.init exampleRegs) =
        .ok (none, Emitter.init exampleRegs) ∧
      visit exampleRegs absentOperandGraph 9 3 (Emitter.init exampleRegs) =
        .error .nullDeref ∧
      visit exampleRegs absentOperandGraph 9 4 (Emitter.init exampleRegs) =
        .error .nullDeref ∧
      visit exampleRegs absentOperandGraph 9 5 (Emitter.init exampleRegs) =
        .error .nullDeref ∧
      visit exampleRegs absentOperandGraph 9 6 (Emitter.init exampleRegs) =
        .error .nullDeref ∧
      visit exampleRegs absentOperandGraph 9 8 (Emitter.init exampleRegs) =
        .error .nullDeref := by
  decide

/-! ### C4: the mask of `RLDICL` -/

theorem maskLoop_eq (b : Nat) (hb : b ≤ 64) :
    (List.range b).foldlM
      (fun C1 i => do
        let bit ← shl64 1 i
        (Except.ok ((C1 + bit) % 2 ^ 64) : Except Err Nat)) 0 = .ok (2 ^ b - 1) := by
  induction b with
  | zero => rfl
  | succ b ih =>
    rw [List.range_succ, List.foldlM_append, ih (by omega)]
    have hlt : b < 64 := by omega
    have h1 : (2 : Nat) ^ b ≤ 2 ^ 63 := Nat.pow_le_pow_right (by decide) (by omega)
    have h2 : (2 : Nat) ^ b ≥ 1 := Nat.one_le_two_pow
    simp only [bind, Except.bind, List.foldlM, shl64, hlt, if_true, one_mul, pure, Except.pure]
    have h3 : (2 : Nat) ^ b % 2 ^ 64 = 2 ^ b := Nat.mod_eq_of_lt (by omega)
    rw [h3, Nat.mod_eq_of_lt (by omega)]
    congr 1
    rw [Nat.pow_succ]
    omega

/-- What the code computes: for `0 < b < 64` the mask is `2 ^ b - 1` shifted
left by `64 - b`, the `b` high-order bits; for `b = 0` the shift by 64 is
undefined. -/
theorem rldiclMask_eq (b : Nat) (h0 : 0 < b) (hb : b < 64) :
    rldiclMask b = .ok ((2 ^ b - 1) * 2 ^ (64 - b)) := by
  unfold rldiclMask
  rw [maskLoop_eq b (by omega)]
  have hm : b % 2 ^ 64 = b := Nat.mod_eq_of_lt (by omega)
  have hs : (64 + (2 ^ 64 - b % 2 ^ 64)) % 2 ^ 64 = 64 - b := by
    rw [hm]; omega
  simp only [bind, Except.bind, hs, shl64]
  rw [if_pos (by omega)]
  congr 1
  apply Nat.mod_eq_of_lt
  have h1 : (2 : Nat) ^ b * 2 ^ (64 - b) = 2 ^ 64 := by
    rw [← Nat.pow_add]; congr 1; omega
  have h2 : (2 : Nat) ^ (64 - b) ≥ 1 := Nat.one_le_two_pow
  have h3 : (2 ^ b - 1) * 2 ^ (64 - b) = 2 ^ b * 2 ^ (64 - b) - 2 ^ (64 - b) := by
    rw [Nat.sub_mul, one_mul]
  omega

/-- C4 fails on the code at `MB = 1`: the mask built is `2 ^ 63`, a single
one-bit, where `MASK(1, 63)` of the comment at lines 226-236 has the 63 one-bits
`2 ^ 64 - 2`.  At `MB = 63` the code builds that 63-bit mask instead, and at
`MB = 0` the shift count is 64. -/
theorem rldiclMask_at_one :
    rldiclMask 1 = .ok (2 ^ 63) ∧ popcount64 (2 ^ 63) = 1 ∧
      popcount64 (2 ^ 64 - 2 ^ 1) = 64 - 1 ∧
      rldiclMask 63 = .ok (2 ^ 64 - 2 ^ 1) ∧ rldiclMask 0 = .error .undefined := by
  decide

/-! ### C10: store with update -/

/-- C10 fails on the code for `stdu RS, -96(RA)` with `RS` (node 1) different
from `RA` (node 3): whatever `FixChainOp` and `InvertCode` are, `Transmogrify`
hands `stduRewritten` to `FixChainOp`.  There `EA` (node 9) adds the extended
displacement to `RS`, no node has `RA` as an operand but the machine node, and
the former user of the updated base (node 5) now uses the truncation of `EA`
to 32 bits (node 10), not `EA`; only the chain result is replaced as claimed,
by the store (node 12). -/
theorem Transmogrify_STDU_at_stduGraph
    (FixChainOp : DAG → Nat → Except Err DAG)
    (InvertCode : DAG → Nat → Except Err (Option Nat × DAG)) :
    Transmogrify FixChainOp InvertCode stduGraph 4 =
        (FixChainOp stduRewritten 12 >>= fun g => .ok (none, g)) ∧
      stduRewritten[9]? = some ⟨.isd .ADD, [⟨8, 0⟩, ⟨1, 0⟩], [.i64], 0, 0, none⟩ ∧
      (stduRewritten.enum.filter (fun p => (⟨3, 0⟩ : SDValue) ∈ p.2.ops)).map
        (fun p => p.1) = [4] ∧
      (stduRewritten[5]?.map (fun n => n.ops)) = some [⟨12, 0⟩, ⟨7, 0⟩, ⟨10, 0⟩] ∧
      stduRewritten[10]? = some ⟨.isd .TRUNCATE, [⟨9, 0⟩], [.i32], 0, 0, none⟩ :=
  ⟨rfl, by decide, by decide, by decide, by decide⟩

/-! ### C5: the reset at a return -/

theorem flushAndReset_ok {ri : RegInfo} {s s2 : Emitter}
    (h : flushAndReset ri s = .ok s2) :
    s.cur < s.blocks.length ∧
    ∃ s1, flushLoop ((ri.numRegs + (2 ^ 32 - 1)) % 2 ^ 32) 1 s = .ok s1 ∧
      s2 = { s1 with RegMap := List.replicate (ri.numRegs + 1) none, VisitMap := [],
                     BaseNames := [] } := by
  unfold flushAndReset at h
  split at h
  · cases h
  · rename_i IB hIB
    have hc : s.cur < s.blocks.length := by
      by_contra hc
      rw [List.getElem?_eq_none (Nat.le_of_not_lt hc)] at hIB
      cases hIB
    split at h
    · cases h
    · obtain ⟨s1, h1, h⟩ := bind_eq_ok h
      simp only [Except.ok.injEq] at h
      exact ⟨hc, s1, h1, h.symm⟩

/-- What `EmitIR` does once the visit at line 49 has returned a return
instruction. -/
theorem EmitIR_return {ri : RegInfo} {visitFn : Visit} {g : DAG} {CurNode : Nat}
    {NodeStack stack2 : List Nat} {s s1 s2 : Emitter} {v : Value}
    (hv : visitFn CurNode s = .ok (some v, s1)) (hret : v.isReturnInst = true)
    (h : EmitIR ri visitFn g CurNode NodeStack s = .ok (stack2, s2)) :
    flushAndReset ri s1 = .ok s2 := by
  unfold EmitIR at h
  obtain ⟨n, _, h⟩ := bind_eq_ok h
  simp only [hv, bind, Except.bind, hret, if_true] at h
  cases hf : flushAndReset ri s1 with
  | error e => simp [hf] at h
  | ok s3 =>
    simp only [hf, Except.ok.injEq, Prod.mk.injEq] at h
    rw [h.2]

/-- C5: when the visit of line 49 returns a return instruction and `EmitIR`
returns, the register map holds an empty entry for every register number and no
slot at all, the visit cache and the base-name table are empty; hence the next
`visitRegister` of any register creates its slot anew, and the next `visit` of
any node goes through the `switch` again instead of answering from the cache. -/
theorem EmitIR_return_resets (ri : RegInfo) (visitFn : Visit) (g : DAG) (CurNode : Nat)
    (NodeStack stack2 : List Nat) (s s1 s2 : Emitter) (v : Value)
    (hv : visitFn CurNode s = .ok (some v, s1)) (hret : v.isReturnInst = true)
    (h : EmitIR ri visitFn g CurNode NodeStack s = .ok (stack2, s2)) :
    (∀ i, i < ri.numRegs → s2.regSlot i = .ok none) ∧
      (∀ (i : Nat) (a : Value), s2.RegMap[i]? ≠ some (some a)) ∧
      s2.VisitMap = [] ∧ s2.BaseNames = [] ∧
      (∀ N n r s3, g.getNode N = .ok n → n.isRegister = true → n.imm < ri.numRegs →
        visitRegister ri g N s2 = .ok (r, s3) →
        ∃ Ty nm bn, s3 = slotCreated ri n s2 Ty nm bn ∧
          r = some (Value.alloca s2.nextId Ty (ri.name n.imm))) ∧
      (∀ fuel N, visit ri g (fuel + 1) N s2 =
        g.getNode N >>= fun n => dispatch ri g (visit ri g fuel) (visitorOf n.opc) N s2) := by
  obtain ⟨_, s3, _, hs2⟩ := flushAndReset_ok (EmitIR_return hv hret h)
  have hmap : s2.RegMap = List.replicate (ri.numRegs + 1) none := by rw [hs2]
  have hslot : ∀ (i : Nat) (a : Value), s2.RegMap[i]? ≠ some (some a) := by
    intro i a hc
    rw [hmap, List.getElem?_replicate] at hc
    split at hc <;> simp at hc
  have hvm : s2.VisitMap = [] := by rw [hs2]
  refine ⟨?_, hslot, hvm, by rw [hs2], ?_, ?_⟩
  · intro i hi
    rw [Emitter.regSlot_eq, hmap, List.getElem?_replicate, if_pos (by omega)]
  · intro N n r s4 hn hreg hlt hvr
    obtain ⟨n2, hn2, hc⟩ := visitRegister_ok hvr
    rw [hn] at hn2
    cases hn2
    rcases hc with ⟨hf, _, _⟩ | ⟨_, a, ha, _, _⟩ |
      ⟨_, _, vt, Ty, nm, bn, _, _, _, _, hr, hs⟩
    · rw [hreg] at hf; cases hf
    · exact absurd (Emitter.regSlot_eq.1 ha) (hslot _ _)
    · refine ⟨Ty, nm, bn, hs, ?_⟩
      rw [hr, (s2.globalFor_frame _ _).2.2.2.2.2.1]
  · intro fuel N
    exact visit_succ_dispatch (by rw [hvm]; rfl)

set_option maxRecDepth 100000 in
/-- Witness for C5: the return node of the example graph, after the write of
`R3`. -/
theorem EmitIR_return_resets_witness :
    targetVisit exampleRegs exampleGraph 4 6 exampleAfterWrite =
        .ok (some (.ret 6), exampleAtReturn) ∧
      EmitIR exampleRegs (targetVisit exampleRegs exampleGraph 4) exampleGraph 6 [5, 2]
        exampleAfterWrite = .ok ([5, 2], exampleAfterReturn) ∧
      exampleAfterReturn.RegMap = [none, none, none, none, none, none] ∧
      exampleAfterReturn.VisitMap = [] ∧ exampleAfterReturn.BaseNames = [] :=
  ⟨by decide, by decide,
    by
      have h := EmitIR_return_resets exampleRegs (targetVisit exampleRegs exampleGraph 4)
        exampleGraph 6 [5, 2] [5, 2] exampleAfterWrite exampleAtReturn exampleAfterReturn
        (.ret 6) (by decide) rfl (by decide)
      exact ⟨rfl, h.2.2.1, h.2.2.2.1⟩⟩

/-! ### C6: the example graph -/

set_option maxRecDepth 100000 in
/-- C6, as stated, fails: in the translation of the example graph from the
initial state the only value named `R3_1` is the load of the global cell in the
entry block, and the value named `R3_2` is the load of the slot, not the sum. -/
theorem example_names_differ :
    emitNodes exampleRegs (targetVisit exampleRegs exampleGraph 4) exampleGraph
        [0, 2, 5, 6] [] (Emitter.init exampleRegs) = .ok ([6, 5, 2], exampleAfterReturn) ∧
      exampleAfterReturn.blocks.flatten.filter (fun v => v.getName = "R3_1") =
        [.load 1 (.global "R3" (.int 32)) "R3_1"] ∧
      exampleAfterReturn.blocks.flatten.filter (fun v => v.getName = "R3_2") =
        [.load 3 (.alloca 0 (.int 32) "R3") "R3_2"] := by
  decide

set_option maxRecDepth 100000 in
/-- C6, amended: feeding `EmitIR` the entry, the read, the write and the return
of the example graph from the initial state yields one block that holds, in
this order: the slot of `R3`, the load `R3_1` of the global cell of `R3` and its
store into the slot; the load `R3_2` of the slot, the sum `R3_3` of `R3_2` and
the constant 4, and the store of `R3_3` into the slot; the load `R3_4` of the
slot, its store into the global cell, and the return instruction. -/
theorem example_translation :
    (emitNodes exampleRegs (targetVisit exampleRegs exampleGraph 4) exampleGraph
        [0, 2, 5, 6] [] (Emitter.init exampleRegs)).map (fun p => p.2.blocks) =
      .ok [[
        .alloca 0 (.int 32) "R3",
        .load 1 (.global "R3" (.int 32)) "R3_1",
        .store 2 (.load 1 (.global "R3" (.int 32)) "R3_1") (.alloca 0 (.int 32) "R3"),
        .load 3 (.alloca 0 (.int 32) "R3") "R3_2",
        .add 4 (.load 3 (.alloca 0 (.int 32) "R3") "R3_2") (.constInt (.int 32) 4) "R3_3",
        .store 5
          (.add 4 (.load 3 (.alloca 0 (.int 32) "R3") "R3_2") (.constInt (.int 32) 4) "R3_3")
          (.alloca 0 (.int 32) "R3"),
        .load 7 (.alloca 0 (.int 32) "R3") "R3_4",
        .store 8 (.load 7 (.alloca 0 (.int 32) "R3") "R3_4") (.global "R3" (.int 32)),
        .ret 6]] := by
  decide

/-! ### C2: the slots of the registers -/

theorem Value.body_not_ret {v : Value} (h : v.isBodyValue = true) :
    v.isReturnInst = false := by
  cases v <;> first | rfl | cases h

theorem Value.body_not_alloca {v : Value} (h : v.isBodyValue = true) :
    v.isAlloca = false := by
  cases v <;> first | rfl | cases h

theorem Emitter.emit_entry {s s2 : Emitter} {mk : Nat → Value} {v : Value}
    (h : s.emit mk = .ok (v, s2)) :
    s2.entry = s.entry ++ [v] ∨ s2.entry = s.entry := by
  obtain ⟨hv, rfl⟩ := Emitter.emit_ok h
  simp only [Emitter.entry, List.getElem?_modify]
  cases hb : s.blocks[0]? with
  | none => right; simp
  | some b =>
    by_cases h0 : s.cur = 0
    · left; simp [h0, hv]
    · right; simp [h0]

theorem Emitter.emit_block {s s2 : Emitter} {mk : Nat → Value} {v : Value}
    (h : s.emit mk = .ok (v, s2)) (hc : s.cur < s.blocks.length) :
    s2.block = s.block ++ [v] := by
  obtain ⟨hv, rfl⟩ := Emitter.emit_ok h
  simp only [Emitter.block, List.getElem?_modify]
  rw [List.getElem?_eq_getElem hc]
  simp [hv]

theorem Emitter.emit_nextId {s s2 : Emitter} {mk : Nat → Value} {v : Value}
    (h : s.emit mk = .ok (v, s2)) : s2.nextId = s.nextId + 1 := by
  obtain ⟨_, rfl⟩ := Emitter.emit_ok h
  rfl

theorem Emitter.getGlobalVariable_congr {s s2 : Emitter} (h : s2.globals = s.globals)
    (Name : String) : s2.getGlobalVariable Name = s.getGlobalVariable Name := by
  simp [Emitter.getGlobalVariable, h]

/-- Inserting an instruction that is not an allocation at `IRB` keeps the
slots in order. -/
theorem SlotsOK.emit {ri : RegInfo} {s s2 : Emitter} {mk : Nat → Value} {v : Value}
    (h : s.emit mk = .ok (v, s2)) (hv : v.isAlloca = false) (hs : SlotsOK ri s) :
    SlotsOK ri s2 := by
  have hf := Emitter.emit_frame h
  have he := Emitter.emit_entry h
  have hn := Emitter.emit_nextId h
  have hsub : ∀ x ∈ s2.entry, x ∈ s.entry ∨ x = v := by
    intro x hx
    rcases he with he | he
    · rw [he] at hx; simpa using hx
    · rw [he] at hx; exact Or.inl hx
  have hfil : s2.entry.filter Value.isAlloca = s.entry.filter Value.isAlloca := by
    rcases he with he | he
    · rw [he]; simp [List.filter_append, hv]
    · rw [he]
  refine ⟨?_, ?_, ?_, ?_, ?_⟩
  · intro i a hi
    rw [hf.2.1] at hi
    obtain ⟨id, Ty, gty, nm, pre, post, h1, h2, h3, h4⟩ := hs.slot i a hi
    rw [← Emitter.getGlobalVariable_congr hf.2.2.2.2.1] at h3
    rcases he with he | he
    · refine ⟨id, Ty, gty, nm, pre, post ++ [v], h1, by omega, h3, ?_⟩
      rw [he, h4]
      simp
    · exact ⟨id, Ty, gty, nm, pre, post, h1, by omega, h3, by rw [he, h4]⟩
  · intro x hx hxa
    rw [hf.2.1]
    rcases hsub x hx with hx1 | hx1
    · exact hs.owner x hx1 hxa
    · rw [hx1, hv] at hxa; cases hxa
  · rw [hfil]; exact hs.nodup
  · intro i j a hi hj
    rw [hf.2.1] at hi hj
    exact hs.inj i j a hi hj
  · intro p hp
    rw [hf.1] at hp
    exact hs.cache p hp

theorem SlotsOK.names {ri : RegInfo} {s s2 : Emitter} {B nm : String}
    (h : s.indexedName B = .ok (nm, s2)) (hs : SlotsOK ri s) : SlotsOK ri s2 := by
  obtain ⟨bn, _, rfl⟩ := Emitter.indexedName_ok h
  exact ⟨hs.slot, hs.owner, hs.nodup, hs.inj, hs.cache⟩

theorem SlotsOK.cached {ri : RegInfo} {s : Emitter} (N : Nat) {Res : Value}
    (hb : Res.isBodyValue = true) (hs : SlotsOK ri s) : SlotsOK ri (s.cache N Res) := by
  refine ⟨hs.slot, hs.owner, hs.nodup, hs.inj, ?_⟩
  intro p hp
  simp only [Emitter.cache, List.mem_cons] at hp
  rcases hp with rfl | hp
  · exact hb
  · exact hs.cache p hp

theorem Emitter.getGlobalVariable_some {s : Emitter} {Name : String} {v : Value}
    (h : s.getGlobalVariable Name = some v) : ∃ gty, v = .global Name gty := by
  unfold Emitter.getGlobalVariable at h
  split at h
  · rename_i gv hf
    have := List.find?_some hf
    simp only [decide_eq_true_eq] at this
    simp only [Option.some.injEq] at h
    exact ⟨gv.ty, by rw [← h, this]⟩
  · cases h

theorem Emitter.globalFor_self (s : Emitter) (Name : String) (T : Ty) :
    ∃ gty, (s.globalFor Name T).1 = .global Name gty ∧
      (s.globalFor Name T).2.getGlobalVariable Name = some (.global Name gty) := by
  unfold Emitter.globalFor
  cases h : s.getGlobalVariable Name with
  | some gv =>
    obtain ⟨gty, rfl⟩ := Emitter.getGlobalVariable_some h
    exact ⟨gty, rfl, h⟩
  | none =>
    refine ⟨T, rfl, ?_⟩
    simp [Emitter.getGlobalVariable, List.find?_cons]

theorem Emitter.globalFor_other (s : Emitter) (Name : String) (T : Ty) {X : String}
    {v : Value} (h : s.getGlobalVariable X = some v) :
    (s.globalFor Name T).2.getGlobalVariable X = some v := by
  unfold Emitter.globalFor
  cases hn : s.getGlobalVariable Name with
  | some gv => exact h
  | none =>
    have hne : Name ≠ X := by
      intro hc; rw [hc] at hn; rw [hn] at h; cases h
    simp only [Emitter.getGlobalVariable, List.find?_cons] at h ⊢
    simp only [hne, decide_False]
    exact h

theorem slotCreated_entry (ri : RegInfo) (n : SDNode) (s : Emitter) (T : Ty) (nm : String)
    (bn : StringMap) (hb : 0 < s.blocks.length) :
    (slotCreated ri n s T nm bn).entry =
      slotGroup (.alloca s.nextId T (ri.name n.imm)) s.nextId
        (s.globalFor (ri.name n.imm) T).1 nm ++ s.entry := by
  have hf := s.globalFor_frame (ri.name n.imm) T
  simp only [slotCreated, Emitter.entry, List.getElem?_modify, hf.2.2.2.1, hf.2.2.2.2.2.1]
  rw [List.getElem?_eq_getElem hb]
  simp [slotGroup]

theorem slotCreated_RegMap (ri : RegInfo) (n : SDNode) (s : Emitter) (T : Ty) (nm : String)
    (bn : StringMap) :
    (slotCreated ri n s T nm bn).RegMap =
      s.RegMap.set n.imm (some (.alloca s.nextId T (ri.name n.imm))) := by
  have hf := s.globalFor_frame (ri.name n.imm) T
  simp only [slotCreated, hf.1, hf.2.2.2.2.2.1]

/-- The function `visitRegister` keeps the slots in order. -/
theorem SlotsOK.register {ri : RegInfo} {g : DAG} {N : Nat} {s s2 : Emitter}
    {r : Option Value} (h : visitRegister ri g N s = .ok (r, s2)) (hs : SlotsOK ri s) :
    SlotsOK ri s2 := by
  obtain ⟨n, _, hc⟩ := visitRegister_ok h
  rcases hc with ⟨_, _, rfl⟩ | ⟨_, b, _, _, rfl⟩ |
    ⟨_, hslot, vt, T, nm, bn, _, _, hcur, _, _, rfl⟩
  · exact hs
  · exact hs
  · have hf := s.globalFor_frame (ri.name n.imm) T
    rw [hf.2.2.2.2.1, hf.2.2.2.1] at hcur
    have hb : 0 < s.blocks.length := by omega
    have hnone := Emitter.regSlot_eq.1 hslot
    have hlt : n.imm < s.RegMap.length := by
      by_contra hc
      rw [List.getElem?_eq_none (by omega)] at hnone
      cases hnone
    have hent := slotCreated_entry ri n s T nm bn hb
    have hmap := slotCreated_RegMap ri n s T nm bn
    have hnext : (slotCreated ri n s T nm bn).nextId = s.nextId + 3 := by
      simp only [slotCreated, hf.2.2.2.2.2.1]
    have hglob : ∀ X, (slotCreated ri n s T nm bn).getGlobalVariable X =
        (s.globalFor (ri.name n.imm) T).2.getGlobalVariable X := fun X =>
      Emitter.getGlobalVariable_congr rfl X
    have hvm : (slotCreated ri n s T nm bn).VisitMap = s.VisitMap := by
      simp only [slotCreated, hf.2.1]
    obtain ⟨gty, hg1, hg2⟩ := s.globalFor_self (ri.name n.imm) T
    -- the old slots carry smaller serial numbers than the new one
    have hold : ∀ (i : Nat) (a : Value), s.RegMap[i]? = some (some a) →
        a ≠ .alloca s.nextId T (ri.name n.imm) := by
      intro i a hi hc
      obtain ⟨id, aty, _, _, _, _, h1, h2, _, _⟩ := hs.slot i a hi
      rw [hc] at h1
      simp only [Value.alloca.injEq] at h1
      omega
    have hnew : Value.alloca s.nextId T (ri.name n.imm) ∉ s.entry := by
      intro hc
      obtain ⟨i, hi⟩ := hs.owner _ hc rfl
      exact hold i _ hi rfl
    refine ⟨?_, ?_, ?_, ?_, ?_⟩
    · intro i a hi
      rw [hmap, List.getElem?_set] at hi
      by_cases hni : n.imm = i
      · subst hni
        simp only [if_true, hlt, Option.some.injEq] at hi
        subst hi
        refine ⟨s.nextId, T, gty, nm, [], s.entry, rfl, by omega, ?_, ?_⟩
        · rw [hglob, hg2]
        · rw [hent, hg1]; rfl
      · simp only [hni, if_false] at hi
        obtain ⟨id, aty, gty2, nm2, pre, post, h1, h2, h3, h4⟩ := hs.slot i a hi
        refine ⟨id, aty, gty2, nm2, slotGroup (.alloca s.nextId T (ri.name n.imm)) s.nextId
          (s.globalFor (ri.name n.imm) T).1 nm ++ pre, post, h1, by omega, ?_, ?_⟩
        · rw [hglob]; exact s.globalFor_other _ _ h3
        · rw [hent, h4]; simp
    · intro v hv hva
      rw [hent] at hv
      rw [hmap]
      rcases List.mem_append.1 hv with hv1 | hv1
      · simp only [slotGroup, List.mem_cons, List.mem_singleton, List.not_mem_nil,
          or_false] at hv1
        rcases hv1 with rfl | rfl | rfl
        · exact ⟨n.imm, by rw [List.getElem?_set]; simp [hlt]⟩
        · cases hva
        · cases hva
      · obtain ⟨i, hi⟩ := hs.owner v hv1 hva
        refine ⟨i, ?_⟩
        rw [List.getElem?_set]
        by_cases hni : n.imm = i
        · subst hni; rw [hnone] at hi; cases hi
        · simp [hni, hi]
    · rw [hent]
      simp only [slotGroup, List.filter_append, List.filter_cons, Value.isAlloca,
        List.filter_nil, if_true, Bool.false_eq_true, if_false, List.singleton_append,
        List.nodup_cons]
      refine ⟨?_, hs.nodup⟩
      intro hc
      exact hnew (List.mem_filter.1 hc).1
    · intro i j a hi hj
      rw [hmap, List.getElem?_set] at hi hj
      by_cases hni : n.imm = i
      · by_cases hnj : n.imm = j
        · omega
        · subst hni
          simp only [if_true, hlt, Option.some.injEq] at hi
          simp only [hnj, if_false] at hj
          exact absurd hi.symm (hold j a hj)
      · by_cases hnj : n.imm = j
        · subst hnj
          simp only [if_true, hlt, Option.some.injEq] at hj
          simp only [hni, if_false] at hi
          exact absurd hj.symm (hold i a hi)
        · simp only [hni, if_false] at hi
          simp only [hnj, if_false] at hj
          exact hs.inj i j a hi hj
    · intro p hp
      rw [hvm] at hp
      exact hs.cache p hp

theorem slotsOK_respects (ri : RegInfo) (g : DAG) :
    Respects ri g (fun s s2 => SlotsOK ri s → SlotsOK ri s2) where
  refl := fun _ h => h
  trans := fun h1 h2 h => h2 (h1 h)
  names := fun h hs => hs.names h
  emit := by
    intro s mk v s2 h hb hs
    exact hs.emit h (Value.body_not_alloca hb)
  register := fun h hs => hs.register h

/-- The function `visit` keeps the slots in order. -/
theorem SlotsOK.visit {ri : RegInfo} {g : DAG} {fuel N : Nat} {s s2 : Emitter}
    {r : Option Value} (h : visit ri g fuel N s = .ok (r, s2)) (hs : SlotsOK ri s) :
    SlotsOK ri s2 :=
  visit_respects (slotsOK_respects ri g)
    (fun _ N _ _ _ _ _ hb h hs => (h hs).cached N hb) fuel N s r s2 h hs

theorem FunctionStart.slotsOK {ri : RegInfo} {s : Emitter} (h : FunctionStart s) :
    SlotsOK ri s := by
  refine ⟨fun i a hi => absurd hi (h.noSlot i a), ?_, ?_, fun i j a hi _ => absurd hi (h.noSlot i a), ?_⟩
  · intro v hv hva
    rw [h.noAlloca v hv] at hva
    cases hva
  · have : s.entry.filter Value.isAlloca = [] := by
      rw [List.filter_eq_nil_iff]
      intro v hv
      simp [h.noAlloca v hv]
    rw [this]
    exact List.nodup_nil
  · intro p hp
    rw [h.noCache] at hp
    cases hp

/-! ### C2: the flush at the return -/

theorem flushRegister_ok {s s2 : Emitter} {i : Nat} (h : flushRegister s i = .ok s2) :
    (s.RegMap[i]? = some none ∧ s2 = s) ∨
    (∃ a, s.RegMap[i]? = some (some a) ∧ s.getGlobalVariable a.getName = none ∧ s2 = s) ∨
    (∃ a gbl nm bn, s.RegMap[i]? = some (some a) ∧
      s.getGlobalVariable a.getName = some gbl ∧
      s2 = { s with
        BaseNames := bn
        blocks := s.blocks.modify
          (fun b => b.dropLast ++ [.load s.nextId a nm,
            .store (s.nextId + 1) (.load s.nextId a nm) gbl] ++ b.getLast?.toList) s.cur
        nextId := s.nextId + 2 }) := by
  unfold flushRegister at h
  obtain ⟨slot, hslot, h⟩ := bind_eq_ok h
  have hs := Emitter.regSlot_eq.1 hslot
  cases slot with
  | none =>
    simp only [Except.ok.injEq] at h
    exact Or.inl ⟨hs, h.symm⟩
  | some a =>
    simp only at h
    cases hg : s.getGlobalVariable a.getName with
    | none =>
      simp only [hg, Except.ok.injEq] at h
      exact Or.inr (Or.inl ⟨a, hs, hg, h.symm⟩)
    | some gbl =>
      simp only [hg] at h
      obtain ⟨⟨nm, s1⟩, hnm, h⟩ := bind_eq_ok h
      obtain ⟨bn, _, rfl⟩ := Emitter.indexedName_ok hnm
      simp only [Except.ok.injEq] at h
      exact Or.inr (Or.inr ⟨a, gbl, nm, bn, hs, hg, h.symm⟩)

theorem Flushed.congr (s t : Emitter) (h1 : t.RegMap = s.RegMap) (h2 : t.globals = s.globals) :
    ∀ (count i : Nat) (ins : List Value), Flushed s count i ins → Flushed t count i ins := by
  intro count
  induction count with
  | zero => intro i ins h; exact h
  | succ c ih =>
    intro i ins h
    obtain ⟨here, rest, h3, h4, h5⟩ := h
    refine ⟨here, rest, h3, ih _ _ h4, ?_⟩
    rw [h1]
    cases hr : s.RegMap[i]? with
    | none => simpa [hr] using h5
    | some o =>
      cases o with
      | none => simpa [hr] using h5
      | some a =>
        simp only [hr] at h5 ⊢
        rw [Emitter.getGlobalVariable_congr h2]
        exact h5

/-- The loop of `EmitIR` puts its loads and stores, in the order of the
registers, between the instructions of the block and its last instruction, and
touches neither the slots nor the global variables. -/
theorem flushLoop_flushed :
    ∀ (count i : Nat) (s s2 : Emitter) (b : List Value) (last : Value),
      s.block = b ++ [last] → flushLoop count i s = .ok s2 →
      ∃ ins, s2.block = b ++ ins ++ [last] ∧ Flushed s count i ins ∧
        s2.RegMap = s.RegMap ∧ s2.globals = s.globals ∧ s2.cur = s.cur := by
  intro count
  induction count with
  | zero =>
    intro i s s2 b last hb h
    simp only [flushLoop, Except.ok.injEq] at h
    subst h
    exact ⟨[], by simpa using hb, rfl, rfl, rfl, rfl⟩
  | succ c ih =>
    intro i s s2 b last hb h
    simp only [flushLoop] at h
    obtain ⟨s1, h1, hl⟩ := bind_eq_ok h
    rcases flushRegister_ok h1 with ⟨hr, hs1⟩ | ⟨a, hr, hg, hs1⟩ |
      ⟨a, gbl, nm, bn, hr, hg, hs1⟩
    · rw [hs1] at hl
      obtain ⟨ins, h2, h3, h4, h5, h6⟩ := ih _ _ _ _ _ hb hl
      exact ⟨ins, h2, ⟨[], ins, rfl, h3, by simp [hr]⟩, h4, h5, h6⟩
    · rw [hs1] at hl
      obtain ⟨ins, h2, h3, h4, h5, h6⟩ := ih _ _ _ _ _ hb hl
      exact ⟨ins, h2, ⟨[], ins, rfl, h3, by simp [hr, hg]⟩, h4, h5, h6⟩
    · have hcur : s.cur < s.blocks.length := by
        by_contra hc
        simp only [Emitter.block, List.getElem?_eq_none (Nat.le_of_not_lt hc)] at hb
        simp at hb
      have hb2 : s1.block =
          (b ++ [.load s.nextId a nm, .store (s.nextId + 1) (.load s.nextId a nm) gbl])
            ++ [last] := by
        rw [hs1]
        simp only [Emitter.block, List.getElem?_modify] at hb ⊢
        rw [List.getElem?_eq_getElem hcur] at hb ⊢
        simp only [Option.getD_some] at hb
        simp [hb]
      have hm : s1.RegMap = s.RegMap := by rw [hs1]
      have hgl : s1.globals = s.globals := by rw [hs1]
      have hc1 : s1.cur = s.cur := by rw [hs1]
      obtain ⟨ins, h2, h3, h4, h5, h6⟩ := ih _ _ _ _ _ hb2 hl
      refine ⟨[.load s.nextId a nm, .store (s.nextId + 1) (.load s.nextId a nm) gbl] ++ ins,
        by rw [h2]; simp, ⟨_, ins, rfl, Flushed.congr s1 s hm.symm hgl.symm _ _ _ h3, ?_⟩,
        h4.trans hm, h5.trans hgl, h6.trans hc1⟩
      simp only [hr, hg]
      exact ⟨s.nextId, nm, rfl⟩

/-- Outside the range of the loop, no load of the slot `a` of register `R` is
inserted. -/
theorem Flushed.no_load {s : Emitter} {R : Nat} {a : Value}
    (hinj : ∀ j, s.RegMap[j]? = some (some a) → j = R) :
    ∀ (count i : Nat) (ins : List Value), Flushed s count i ins → (R < i ∨ i + count ≤ R) →
      ∀ v ∈ ins, ∀ (id : Nat) (nm : String), v ≠ .load id a nm := by
  intro count
  induction count with
  | zero =>
    intro i ins h _ v hv
    simp only [Flushed] at h
    rw [h] at hv
    cases hv
  | succ c ih =>
    intro i ins h hR v hv id nm hc
    obtain ⟨here, rest, h3, h4, h5⟩ := h
    rw [h3] at hv
    rcases List.mem_append.1 hv with hv1 | hv1
    · cases hr : s.RegMap[i]? with
      | none => simp only [hr] at h5; rw [h5] at hv1; cases hv1
      | some o =>
        cases o with
        | none => simp only [hr] at h5; rw [h5] at hv1; cases hv1
        | some b =>
          simp only [hr] at h5
          cases hg : s.getGlobalVariable b.getName with
          | none => simp only [hg] at h5; rw [h5] at hv1; cases hv1
          | some gbl =>
            simp only [hg] at h5
            obtain ⟨id2, nm2, rfl⟩ := h5
            simp only [List.mem_cons, List.mem_singleton, List.not_mem_nil, or_false] at hv1
            rcases hv1 with rfl | rfl
            · simp only [Value.load.injEq] at hc
              have := hinj i (by rw [hr, hc.2.1])
              omega
            · cases hc
    · exact ih _ _ h4 (by omega) v hv1 id nm hc

/-- Within the range of the loop, the slot `a` of register `R` is loaded once,
and the loaded value is stored into the global variable next. -/
theorem Flushed.pair {s : Emitter} {R : Nat} {a gbl : Value}
    (hR : s.RegMap[R]? = some (some a)) (hg : s.getGlobalVariable a.getName = some gbl)
    (hinj : ∀ j, s.RegMap[j]? = some (some a) → j = R) :
    ∀ (count i : Nat) (ins : List Value), Flushed s count i ins → i ≤ R → R < i + count →
      ∃ (ins1 ins2 : List Value) (id : Nat) (nm : String),
        ins = ins1 ++ [.load id a nm, .store (id + 1) (.load id a nm) gbl] ++ ins2 ∧
        ∀ v ∈ ins1 ++ ins2, ∀ (i : Nat) (n : String), v ≠ .load i a n := by
  intro count
  induction count with
  | zero => intro i ins _ h1 h2; omega
  | succ c ih =>
    intro i ins h h1 h2
    obtain ⟨here, rest, h3, h4, h5⟩ := h
    by_cases hi : i = R
    · subst hi
      simp only [hR, hg] at h5
      obtain ⟨id, nm, rfl⟩ := h5
      refine ⟨[], rest, id, nm, by rw [h3]; simp, ?_⟩
      intro v hv
      exact Flushed.no_load hinj _ _ _ h4 (Or.inl (by omega)) v (by simpa using hv)
    · obtain ⟨ins1, ins2, id, nm, h6, h7⟩ := ih _ _ h4 (by omega) (by omega)
      refine ⟨here ++ ins1, ins2, id, nm, by rw [h3, h6]; simp, ?_⟩
      intro v hv
      have hhere : Flushed s 1 i here := ⟨here, [], by simp, rfl, h5⟩
      rcases List.mem_append.1 hv with hv1 | hv1
      · rcases List.mem_append.1 hv1 with hv2 | hv2
        · exact Flushed.no_load hinj _ _ _ hhere (Or.inr (by omega)) v hv2
        · exact h7 v (List.mem_append_left _ hv2)
      · exact h7 v (List.mem_append_right _ hv1)

/-! ### C2: from the start of a function to its return -/

theorem EmitIR_ok {ri : RegInfo} {visitFn : Visit} {g : DAG} {N : Nat}
    {stack stack2 : List Nat} {s s2 : Emitter}
    (h : EmitIR ri visitFn g N stack s = .ok (stack2, s2)) :
    ∃ r s1, visitFn N s = .ok (r, s1) ∧
      ((∃ v, r = some v ∧ v.isReturnInst = true ∧ flushAndReset ri s1 = .ok s2) ∨
       ((∀ v, r = some v → v.isReturnInst = false) ∧ s2 = s1)) := by
  unfold EmitIR at h
  obtain ⟨n, _, h⟩ := bind_eq_ok h
  obtain ⟨⟨r, s1⟩, hv, h⟩ := bind_eq_ok h
  refine ⟨r, s1, hv, ?_⟩
  cases r with
  | none =>
    simp only [Except.ok.injEq, Prod.mk.injEq] at h
    exact Or.inr ⟨fun v hv => (nomatch hv), h.2.symm⟩
  | some v =>
    simp only at h
    cases hr : v.isReturnInst with
    | true =>
      simp only [hr, if_true] at h
      obtain ⟨s3, hf, h⟩ := bind_eq_ok h
      simp only [Except.ok.injEq, Prod.mk.injEq] at h
      exact Or.inl ⟨v, rfl, hr, by rw [hf, h.2]⟩
    | false =>
      simp only [hr, Bool.false_eq_true, if_false, Except.ok.injEq, Prod.mk.injEq] at h
      refine Or.inr ⟨fun w hw => ?_, h.2.symm⟩
      cases hw
      exact hr

theorem targetVisit_body {ri : RegInfo} {g : DAG} {fuel N : Nat} (s : Emitter)
    (h : ∀ n, g[N]? = some n → n.opc ≠ .target .RET_FLAG) :
    targetVisit ri g fuel N s = visit ri g fuel N s := by
  unfold targetVisit
  cases hn : g[N]? with
  | none => rfl
  | some n => simp [h n hn]

theorem targetVisit_ret {ri : RegInfo} {g : DAG} {fuel N : Nat} (s : Emitter) {n : SDNode}
    (hn : g[N]? = some n) (h : n.opc = .target .RET_FLAG) :
    targetVisit ri g fuel N s = visitRET s := by
  unfold targetVisit
  simp [hn, h]

theorem lookup_mem {vm : List (Nat × Value)} {N : Nat} {v : Value}
    (h : vm.lookup N = some v) : (N, v) ∈ vm := by
  induction vm with
  | nil => cases h
  | cons p vm ih =>
    obtain ⟨k, w⟩ := p
    rw [List.lookup_cons] at h
    split at h
    · rename_i hk
      simp only [beq_iff_eq] at hk
      cases h
      rw [hk]
      exact List.mem_cons_self _ _
    · exact List.mem_cons_of_mem _ (ih h)

/-- While the slots are in order, `visit` returns no return instruction. -/
theorem visit_value_body {ri : RegInfo} {g : DAG} {fuel N : Nat} {s s2 : Emitter}
    {v : Value} (h : visit ri g fuel N s = .ok (some v, s2)) (hs : SlotsOK ri s) :
    v.isBodyValue = true := by
  cases fuel with
  | zero => cases h
  | succ f =>
    cases hl : s.VisitMap.lookup N with
    | some w =>
      rw [visit_succ_cached hl] at h
      simp only [Except.ok.injEq, Prod.mk.injEq, Option.some.injEq] at h
      rw [← h.1]
      exact hs.cache _ (lookup_mem hl)
    | none =>
      obtain ⟨sp, _, hc⟩ := visit_succ_ends (respects_true ri g)
        (fun _ _ _ _ _ => trivial) hl h
      rcases hc with ⟨hr, _⟩ | ⟨Res, hr, hb, _⟩
      · cases hr
      · cases hr
        exact hb

/-- A register node for which `visitRegister` returns a slot holds that slot in
`RegMap` afterwards: the registers that have been read or written are those
with a slot. -/
theorem visitRegister_slot {ri : RegInfo} {g : DAG} {N : Nat} {s s2 : Emitter} {a : Value}
    (h : visitRegister ri g N s = .ok (some a, s2)) :
    ∃ n, g.getNode N = .ok n ∧ n.isRegister = true ∧ s2.RegMap[n.imm]? = some (some a) := by
  obtain ⟨n, hn, hc⟩ := visitRegister_ok h
  refine ⟨n, hn, ?_⟩
  rcases hc with ⟨_, hr, _⟩ | ⟨hreg, b, hslot, hr, hs⟩ |
    ⟨hreg, hslot, vt, T, nm, bn, _, _, _, _, hr, hs⟩
  · cases hr
  · cases hr
    rw [hs]
    exact ⟨hreg, Emitter.regSlot_eq.1 hslot⟩
  · cases hr
    refine ⟨hreg, ?_⟩
    have hnone := Emitter.regSlot_eq.1 hslot
    have hlt : n.imm < s.RegMap.length := by
      by_contra hc
      rw [List.getElem?_eq_none (by omega)] at hnone
      cases hnone
    rw [hs, slotCreated_RegMap, List.getElem?_set]
    simp [hlt, (s.globalFor_frame _ _).2.2.2.2.2.1]

/-- The emitter begins in a state in which a function can begin. -/
theorem Emitter.init_start (ri : RegInfo) : FunctionStart (Emitter.init ri) := by
  refine ⟨?_, ?_, rfl⟩
  · intro i a hc
    simp only [Emitter.init, List.getElem?_replicate] at hc
    split at hc <;> simp at hc
  · intro v hv
    simp [Emitter.init, Emitter.entry] at hv

/-- Feeding `EmitIR` nodes that are not return nodes keeps the slots in
order. -/
theorem SlotsOK.emitNodes {ri : RegInfo} {g : DAG} {fuel : Nat} :
    ∀ (body : List Nat) (stack stack1 : List Nat) (s s1 : Emitter),
      (∀ N ∈ body, ∀ n, g[N]? = some n → n.opc ≠ .target .RET_FLAG) →
      emitNodes ri (targetVisit ri g fuel) g body stack s = .ok (stack1, s1) →
      SlotsOK ri s → SlotsOK ri s1 := by
  intro body
  induction body with
  | nil =>
    intro stack stack1 s s1 _ h hs
    simp only [Fracture.emitNodes, Except.ok.injEq, Prod.mk.injEq] at h
    rw [← h.2]
    exact hs
  | cons N rest ih =>
    intro stack stack1 s s1 hbody h hs
    simp only [Fracture.emitNodes] at h
    obtain ⟨⟨stk, s3⟩, he, h⟩ := bind_eq_ok h
    refine ih _ _ _ _ (fun M hM => hbody M (List.mem_cons_of_mem _ hM)) h ?_
    obtain ⟨r, s4, hv, hc⟩ := EmitIR_ok he
    rw [targetVisit_body s (hbody N (List.mem_cons_self _ _))] at hv
    rcases hc with ⟨v, hr, hret, _⟩ | ⟨_, hs3⟩
    · subst hr
      have hb := Value.body_not_ret (visit_value_body hv hs)
      rw [hret] at hb
      cases hb
    · rw [hs3]
      exact hs.visit hv

/-- C2: let a function be translated from its start (no register has a slot,
the entry block holds no allocation) by feeding `EmitIR` the nodes `body`, none
of them a return node, and then the return node `retN`.  For every register
`R` with `1 ≤ R < NumRegs` that has a slot `a` when the return is reached (the
registers read or written: `visitRegister` creates the slot at the first read or
write and it is kept from then on):
* the entry block holds, one after the other, the allocation `a`, a load of the
  global cell of `R` and the store of the loaded value into `a`; `a` occurs once
  in the entry block, every allocation there is the slot of a register, and `a`
  is the slot of `R` only;
* after `EmitIR` has processed the return node, the insertion block consists of
  what it held before, the flush, and the return instruction as last
  instruction; the flush holds a load of `a` followed at once by the store of
  the loaded value into the global cell of `R`, and no other load of `a`. -/
theorem register_round_trip (ri : RegInfo) (g : DAG) (fuel : Nat) (body : List Nat)
    (retN : Nat) (stack stack1 stack2 : List Nat) (s0 s1 s2 : Emitter)
    (hnum : ri.numRegs < 2 ^ 32) (hstart : FunctionStart s0)
    (hbody : ∀ N ∈ body, ∀ n, g[N]? = some n → n.opc ≠ .target .RET_FLAG)
    (hretN : ∃ n, g[retN]? = some n ∧ n.opc = .target .RET_FLAG)
    (hrun : emitNodes ri (targetVisit ri g fuel) g body stack s0 = .ok (stack1, s1))
    (hfin : EmitIR ri (targetVisit ri g fuel) g retN stack1 s1 = .ok (stack2, s2))
    (R : Nat) (a : Value) (hR1 : 1 ≤ R) (hR2 : R < ri.numRegs)
    (hslot : s1.RegMap[R]? = some (some a)) :
    ∃ (id : Nat) (aty gty : Ty) (nm : String) (pre post : List Value),
      a = .alloca id aty (ri.name R) ∧
      s1.entry = pre ++ slotGroup a id (.global (ri.name R) gty) nm ++ post ∧
      s1.entry.count a = 1 ∧
      (∀ v ∈ s1.entry, v.isAlloca = true → ∃ (i : Nat), s1.RegMap[i]? = some (some v)) ∧
      (∀ (i : Nat), s1.RegMap[i]? = some (some a) → i = R) ∧
      ∃ (ins1 ins2 : List Value) (id2 rid : Nat) (nm2 : String),
        s2.block = s1.block ++
          (ins1 ++ [.load id2 a nm2,
              .store (id2 + 1) (.load id2 a nm2) (.global (ri.name R) gty)] ++ ins2) ++
          [.ret rid] ∧
        ∀ v ∈ ins1 ++ ins2, ∀ (i : Nat) (n : String), v ≠ .load i a n := by
  have hs1 : SlotsOK ri s1 := SlotsOK.emitNodes body stack stack1 s0 s1 hbody hrun hstart.slotsOK
  obtain ⟨id, aty, gty, nm, pre, post, ha, _, hglob, hentry⟩ := hs1.slot R a hslot
  have hinj : ∀ (i : Nat), s1.RegMap[i]? = some (some a) → i = R :=
    fun i hi => hs1.inj i R a hi hslot
  have hmem : a ∈ s1.entry := by rw [hentry]; simp [slotGroup]
  have hcount : s1.entry.count a = 1 := by
    have hfa : a ∈ s1.entry.filter Value.isAlloca :=
      List.mem_filter.2 ⟨hmem, by rw [ha]; rfl⟩
    have h1 := List.count_eq_one_of_mem hs1.nodup hfa
    rw [List.count_filter (by rw [ha]; rfl)] at h1
    exact h1
  refine ⟨id, aty, gty, nm, pre, post, ha, hentry, hcount, hs1.owner, hinj, ?_⟩
  -- the visit of the return node appends the return instruction
  obtain ⟨n, hn, hopc⟩ := hretN
  obtain ⟨r, s3, hv, hc⟩ := EmitIR_ok hfin
  rw [targetVisit_ret s1 hn hopc] at hv
  unfold visitRET at hv
  obtain ⟨⟨Res, s4⟩, hem, hv⟩ := bind_eq_ok hv
  simp only [Except.ok.injEq, Prod.mk.injEq] at hv
  obtain ⟨hr, hs34⟩ := hv
  subst hs34
  have hRes : Res = .ret s1.nextId := (Emitter.emit_ok hem).1
  have hframe := Emitter.emit_frame hem
  rcases hc with ⟨v, hrv, _, hflush⟩ | ⟨hnot, _⟩
  · obtain ⟨hcur4, s5, hloop, hs2⟩ := flushAndReset_ok hflush
    have hcur1 : s1.cur < s1.blocks.length := by
      rw [(Emitter.emit_ok hem).2] at hcur4
      simpa using hcur4
    have hblock := Emitter.emit_block hem hcur1
    have hcount2 : (ri.numRegs + (2 ^ 32 - 1)) % 2 ^ 32 = ri.numRegs - 1 := by omega
    rw [hcount2] at hloop
    obtain ⟨ins, hb5, hfl, _, _, hcur⟩ := flushLoop_flushed _ _ _ _ _ _ hblock hloop
    have hfl1 : Flushed s1 (ri.numRegs - 1) 1 ins :=
      Flushed.congr s4 s1 hframe.2.1.symm hframe.2.2.2.2.1.symm _ _ _ hfl
    have hname : a.getName = ri.name R := by rw [ha]; rfl
    obtain ⟨ins1, ins2, id2, nm2, hins, hno⟩ :=
      Flushed.pair hslot (by rw [hname]; exact hglob) hinj _ _ _ hfl1 hR1 (by omega)
    refine ⟨ins1, ins2, id2, s1.nextId, nm2, ?_, hno⟩
    have hb2 : s2.block = s5.block := by rw [hs2]; rfl
    rw [hb2, hb5, hins, hRes]
  · have := hnot Res hr.symm
    rw [hRes] at this
    cases this

set_option maxRecDepth 100000 in
/-- Witness for C2: the example graph, with its register `R3`. -/
theorem register_round_trip_witness :
    ∃ (id : Nat) (aty gty : Ty) (nm : String) (pre post : List Value),
      exampleSlot = .alloca id aty (exampleRegs.name 3) ∧
      exampleAfterWrite.entry =
        pre ++ slotGroup exampleSlot id (.global (exampleRegs.name 3) gty) nm ++ post ∧
      exampleAfterWrite.entry.count exampleSlot = 1 ∧
      (∀ v ∈ exampleAfterWrite.entry, v.isAlloca = true →
        ∃ (i : Nat), exampleAfterWrite.RegMap[i]? = some (some v)) ∧
      (∀ (i : Nat), exampleAfterWrite.RegMap[i]? = some (some exampleSlot) → i = 3) ∧
      ∃ (ins1 ins2 : List Value) (id2 rid : Nat) (nm2 : String),
        exampleAfterReturn.block = exampleAfterWrite.block ++
          (ins1 ++ [.load id2 exampleSlot nm2,
              .store (id2 + 1) (.load id2 exampleSlot nm2)
                (.global (exampleRegs.name 3) gty)] ++ ins2) ++
          [.ret rid] ∧
        ∀ v ∈ ins1 ++ ins2, ∀ (i : Nat) (n : String), v ≠ .load i exampleSlot n :=
  register_round_trip exampleRegs exampleGraph 4 [0, 2, 5] 6 [] [6, 5, 2] [6, 5, 2]
    (Emitter.init exampleRegs) exampleAfterWrite exampleAfterReturn (by decide)
    (Emitter.init_start exampleRegs) (by decide) ⟨_, rfl, rfl⟩ (by decide) (by decide) 3
    exampleSlot (by decide) (by decide) (by decide)


/-! ### C12: rotate left then clear left -/

/-- C12 fails on the code for `rldicl RA, RS, 0, 32` (node 5 of `rldiclGraph`):
whatever `FixChainOp` and `InvertCode` are, `Transmogrify` returns no node and
the graph `rldiclRewritten`, in which the user of the result (node 6) now uses
the 64-bit node 9, and node 9 is the sum `ISD::ADD` of the rotation (node 7) and
the mask constant (node 8), not their bitwise AND. -/
theorem Transmogrify_RLDICL_at_rldiclGraph
    (FixChainOp : DAG → Nat → Except Err DAG)
    (InvertCode : DAG → Nat → Except Err (Option Nat × DAG)) :
    Transmogrify FixChainOp InvertCode rldiclGraph 5 = .ok (none, rldiclRewritten) ∧
      (rldiclRewritten[6]?.map (fun n => n.ops)) = some [⟨2, 1⟩, ⟨1, 0⟩, ⟨9, 0⟩] ∧
      rldiclRewritten[9]? = some ⟨.isd .ADD, [⟨7, 0⟩, ⟨8, 0⟩], [.i64], 0, 0, none⟩ ∧
      rldiclRewritten[7]? = some ⟨.isd .ROTL, [⟨2, 0⟩, ⟨3, 0⟩], [.i64], 0, 0, none⟩ ∧
      rldiclRewritten[8]? = some ⟨.isd .Constant, [], [.i64], 2 ^ 64 - 2 ^ 32, 0, none⟩ ∧
      Opcode.isd ISD.ADD ≠ Opcode.isd ISD.AND :=
  ⟨rfl, by decide, by decide, by decide, by decide, by decide⟩

/-! ### C16: the no-register sentinel as a constant -/

/-- C16 fails on the code: for the copy from register 0 (node 2 of
`noRegGraph`) `ConvertNoRegToZero` returns a new `i32` constant, node 7, whose
value is 4 and not zero; for a value that is not such a copy (node 4) it
returns its argument and leaves the graph as it is. -/
theorem ConvertNoRegToZero_at_noRegGraph :
    ConvertNoRegToZero noRegGraph ⟨2, 0⟩ =
        .ok (⟨7, 0⟩, noRegGraph ++ [⟨.isd .Constant, [], [.i32], 4, 0, none⟩]) ∧
      ConvertNoRegToZero noRegGraph ⟨4, 0⟩ = .ok (⟨4, 0⟩, noRegGraph) := by
  decide


/-! ### Rewrites of the operation graph -/

theorem DAG.RAUW_getElem? (g : DAG) (From To : SDValue) (k : Nat) :
    (g.ReplaceAllUsesOfValueWith From To)[k]? =
      g[k]?.map (fun n => { n with ops := n.ops.map (fun v => if v = From then To else v) }) := by
  unfold DAG.ReplaceAllUsesOfValueWith
  split
  · rename_i h
    subst h
    have hid : (fun v : SDValue => if v = From then From else v) = id := by
      funext v; by_cases hv : v = From <;> simp [hv]
    cases hk : g[k]? with
    | none => rfl
    | some m => simp [hid]
  · rw [List.getElem?_map]

theorem DAG.RAUW_length (g : DAG) (From To : SDValue) :
    (g.ReplaceAllUsesOfValueWith From To).length = g.length := by
  unfold DAG.ReplaceAllUsesOfValueWith
  split
  · rfl
  · rw [List.length_map]

theorem DAG.RAUW_no_use {g : DAG} {From To : SDValue} (h : From ≠ To) {k : Nat} {m : SDNode}
    (hk : (g.ReplaceAllUsesOfValueWith From To)[k]? = some m) : From ∉ m.ops := by
  rw [DAG.RAUW_getElem?] at hk
  cases hg : g[k]? with
  | none => rw [hg] at hk; cases hk
  | some m0 =>
    rw [hg] at hk
    simp only [Option.map_some', Option.some.injEq] at hk
    subst hk
    simp only [List.mem_map, not_exists, not_and]
    intro v _ hv
    by_cases hvf : v = From
    · rw [if_pos hvf] at hv; exact h hv.symm
    · rw [if_neg hvf] at hv; exact hvf hv

theorem DAG.getNode_eq {g : DAG} {N : Nat} {n : SDNode} (h : g[N]? = some n) :
    g.getNode N = .ok n := by
  unfold DAG.getNode; rw [h]

theorem Transmogrify_of_not_machine (FixChainOp : DAG → Nat → Except Err DAG)
    (InvertCode : DAG → Nat → Except Err (Option Nat × DAG)) {g : DAG} {N : Nat} {n : SDNode}
    (hn : g[N]? = some n) (hm : ∀ c, n.opc ≠ .machine c) :
    Transmogrify FixChainOp InvertCode g N =
      if n.opc = .isd .CopyFromReg then do
        let op1 ← n.getOperand 1
        let R ← g.getNode op1.node
        if R.isRegister ∧ R.imm = 0 then do
          let (Tmp, g1) := g.getUNDEF (← R.getValueType 0)
          let g2 := g1.ReplaceAllUsesOfValueWith ⟨N, 0⟩ Tmp
          let n2 ← g2.getNode N
          let g3 := g2.ReplaceAllUsesOfValueWith ⟨N, 1⟩ (← n2.getOperand 0)
          .ok (some N, g3)
        else .ok (some N, g)
      else .ok (some N, g) := by
  unfold Transmogrify
  rw [DAG.getNode_eq hn]
  simp only [bind, Except.bind]
  split <;> first | rfl | (rename_i h; exact absurd h (hm _))

theorem SDNode.getOperand_eq {n : SDNode} {i : Nat} {v : SDValue} (h : n.ops[i]? = some v) :
    n.getOperand i = .ok v := by
  unfold SDNode.getOperand; rw [h]

theorem SDNode.getValueType_eq {n : SDNode} {i : Nat} {v : MVT} (h : n.vts[i]? = some v) :
    n.getValueType i = .ok v := by
  unfold SDNode.getValueType; rw [h]

/-- The graph that the no-register branch of `Transmogrify` builds, lines 38-40. -/
theorem Transmogrify_noreg (FixChainOp : DAG → Nat → Except Err DAG)
    (InvertCode : DAG → Nat → Except Err (Option Nat × DAG)) {g : DAG} {N : Nat} {n R : SDNode}
    {Chain Reg : SDValue} {rest : List SDValue} {vt : MVT}
    (hn : g[N]? = some n) (hopc : n.opc = .isd .CopyFromReg)
    (hops : n.ops = Chain :: Reg :: rest) (hR : g[Reg.node]? = some R)
    (hreg : R.isRegister = true) (himm : R.imm = 0) (hvt : R.vts[0]? = some vt)
    (hself : ∀ v ∈ n.ops, v.node ≠ N) :
    Transmogrify FixChainOp InvertCode g N =
      .ok (some N, ((g ++ [⟨.isd .UNDEF, [], [vt], 0, 0, none⟩] : DAG).ReplaceAllUsesOfValueWith
        ⟨N, 0⟩ ⟨g.length, 0⟩).ReplaceAllUsesOfValueWith ⟨N, 1⟩ Chain) := by
  have hm : ∀ c, n.opc ≠ .machine c := by intro c h; rw [hopc] at h; cases h
  have hN : N < g.length := by
    by_contra hc
    rw [List.getElem?_eq_none (Nat.le_of_not_lt hc)] at hn
    cases hn
  have hC : Chain.node ≠ N := hself Chain (by rw [hops]; simp)
  have h2 : ((g ++ [⟨.isd .UNDEF, [], [vt], 0, 0, none⟩] : DAG).ReplaceAllUsesOfValueWith
      ⟨N, 0⟩ ⟨g.length, 0⟩)[N]? =
      some { n with ops := (n.ops.map (fun v => if v = ⟨N, 0⟩ then ⟨g.length, 0⟩ else v)) } := by
    rw [DAG.RAUW_getElem?, List.getElem?_append_left hN, hn]; rfl
  have h0 : ({ n with ops := (n.ops.map (fun v =>
      if v = (⟨N, 0⟩ : SDValue) then (⟨g.length, 0⟩ : SDValue) else v)) } : SDNode).ops[0]? =
      some Chain := by
    have : Chain ≠ (⟨N, 0⟩ : SDValue) := fun h => hC (by rw [h])
    simp [hops, this]
  rw [Transmogrify_of_not_machine FixChainOp InvertCode hn hm, if_pos hopc,
    SDNode.getOperand_eq (show n.ops[1]? = some Reg by rw [hops]; simp)]
  simp only [bind, Except.bind]
  rw [DAG.getNode_eq hR]
  simp only [hreg, himm, and_self, if_true, SDNode.getValueType_eq hvt, DAG.getUNDEF,
    DAG.mkNode, DAG.add]
  rw [DAG.getNode_eq h2]
  simp only [SDNode.getOperand_eq h0]

/-! ### C15: nodes that are not machine nodes -/

/-- C15: for a node `N` that is not a machine node, `Transmogrify` returns `N`
whenever it returns, and it returns the graph as it is when `N` is not a copy
from a register or its register operand is not register 0.  When `N` is a
copy from register 0 with operands (chain, register), none of them a result of
`N` itself, the graph gains one `UNDEF` node of the register's type; in every
node each operand that was the value result `(N, 0)` is that `UNDEF` and each
operand that was the chain result `(N, 1)` is the incoming chain of `N`; no
operand is `(N, 0)` or `(N, 1)` any more, so that no node uses `N` when those
two were the only results of `N` in use. -/
theorem Transmogrify_non_machine (FixChainOp : DAG → Nat → Except Err DAG)
    (InvertCode : DAG → Nat → Except Err (Option Nat × DAG)) (g : DAG) (N : Nat) (n : SDNode)
    (hn : g[N]? = some n) (hm : ∀ c, n.opc ≠ .machine c) :
    (∀ (r : Option Nat) (g2 : DAG), Transmogrify FixChainOp InvertCode g N = .ok (r, g2) → r = some N) ∧
    (n.opc ≠ .isd .CopyFromReg → Transmogrify FixChainOp InvertCode g N = .ok (some N, g)) ∧
    (∀ (Chain Reg : SDValue) (rest : List SDValue) (R : SDNode),
      n.ops = Chain :: Reg :: rest → g[Reg.node]? = some R →
      ¬ (R.isRegister = true ∧ R.imm = 0) →
      Transmogrify FixChainOp InvertCode g N = .ok (some N, g)) ∧
    (∀ (Chain Reg : SDValue) (rest : List SDValue) (R : SDNode) (vt : MVT),
      n.opc = .isd .CopyFromReg → n.ops = Chain :: Reg :: rest →
      g[Reg.node]? = some R → R.isRegister = true → R.imm = 0 → R.vts[0]? = some vt →
      (∀ v ∈ n.ops, v.node ≠ N) →
      ∃ g2 : DAG, Transmogrify FixChainOp InvertCode g N = .ok (some N, g2) ∧
        g2.length = g.length + 1 ∧
        g2[g.length]? = some ⟨.isd .UNDEF, [], [vt], 0, 0, none⟩ ∧
        (∀ (k : Nat) (m : SDNode), g[k]? = some m →
          g2[k]? = some { m with ops := (m.ops.map (fun v =>
            if v = ⟨N, 0⟩ then ⟨g.length, 0⟩ else if v = ⟨N, 1⟩ then Chain else v)) }) ∧
        (∀ m ∈ g2, (⟨N, 0⟩ : SDValue) ∉ m.ops ∧ (⟨N, 1⟩ : SDValue) ∉ m.ops) ∧
        ((∀ m ∈ g, ∀ v ∈ m.ops, v.node = N → v.resNo < 2) →
          ∀ m ∈ g2, ∀ v ∈ m.ops, v.node ≠ N)) := by
  have hT := Transmogrify_of_not_machine FixChainOp InvertCode hn hm
  refine ⟨?_, ?_, ?_, ?_⟩
  · intro r g2 h
    rw [hT] at h
    split at h
    · obtain ⟨op1, _, h⟩ := bind_eq_ok h
      obtain ⟨R, _, h⟩ := bind_eq_ok h
      split at h
      · obtain ⟨vt, _, h⟩ := bind_eq_ok h
        obtain ⟨n2, _, h⟩ := bind_eq_ok h
        obtain ⟨op0, _, h⟩ := bind_eq_ok h
        cases h; rfl
      · cases h; rfl
    · cases h; rfl
  · intro hc
    rw [hT, if_neg hc]
  · intro Chain Reg rest R hops hR hno
    rw [hT]
    split
    · rw [SDNode.getOperand_eq (show n.ops[1]? = some Reg by rw [hops]; simp)]
      simp only [bind, Except.bind]
      rw [DAG.getNode_eq hR]
      simp only [if_neg hno]
    · rfl
  · intro Chain Reg rest R vt hopc hops hR hreg himm hvt hself
    have hN : N < g.length := by
      by_contra hc
      rw [List.getElem?_eq_none (Nat.le_of_not_lt hc)] at hn
      cases hn
    have hC : Chain.node ≠ N := hself Chain (by rw [hops]; simp)
    have hC0 : Chain ≠ (⟨N, 0⟩ : SDValue) := fun h => hC (by rw [h])
    have hC1 : Chain ≠ (⟨N, 1⟩ : SDValue) := fun h => hC (by rw [h])
    have hT0 : (⟨g.length, 0⟩ : SDValue) ≠ ⟨N, 0⟩ := by
      intro h; injection h with h; omega
    have hT1 : (⟨g.length, 0⟩ : SDValue) ≠ ⟨N, 1⟩ := by
      intro h; injection h with h; omega
    have hF : ∀ v : SDValue,
        (if (if v = (⟨N, 0⟩ : SDValue) then (⟨g.length, 0⟩ : SDValue) else v) = ⟨N, 1⟩
          then Chain else (if v = (⟨N, 0⟩ : SDValue) then (⟨g.length, 0⟩ : SDValue) else v)) =
        (if v = ⟨N, 0⟩ then ⟨g.length, 0⟩ else if v = ⟨N, 1⟩ then Chain else v) := by
      intro v
      by_cases h0 : v = ⟨N, 0⟩
      · simp [h0, hT1]
      · simp [h0]
    have hG : ∀ k : Nat, (((g ++ [⟨.isd .UNDEF, [], [vt], 0, 0, none⟩] : DAG).ReplaceAllUsesOfValueWith
        ⟨N, 0⟩ ⟨g.length, 0⟩).ReplaceAllUsesOfValueWith ⟨N, 1⟩ Chain)[k]? =
        (g ++ [⟨.isd .UNDEF, [], [vt], 0, 0, none⟩] : DAG)[k]?.map (fun (m : SDNode) =>
          ({ m with ops := (m.ops.map (fun (v : SDValue) =>
            if v = (⟨N, 0⟩ : SDValue) then (⟨g.length, 0⟩ : SDValue)
            else if v = (⟨N, 1⟩ : SDValue) then Chain else v)) } : SDNode)) := by
      intro k
      rw [DAG.RAUW_getElem?, DAG.RAUW_getElem?, Option.map_map]
      congr 1
      funext m
      simp only [Function.comp, List.map_map]
      have hfun : ((fun v : SDValue => if v = (⟨N, 1⟩ : SDValue) then Chain else v) ∘
          fun v : SDValue => if v = (⟨N, 0⟩ : SDValue) then (⟨g.length, 0⟩ : SDValue) else v) =
          fun v : SDValue => if v = (⟨N, 0⟩ : SDValue) then (⟨g.length, 0⟩ : SDValue)
            else if v = (⟨N, 1⟩ : SDValue) then Chain else v := by
        funext v; exact hF v
      rw [hfun]
    have hops2 : ∀ (k : Nat) (m : SDNode), (((g ++ [⟨.isd .UNDEF, [], [vt], 0, 0, none⟩] :
        DAG).ReplaceAllUsesOfValueWith ⟨N, 0⟩ ⟨g.length, 0⟩).ReplaceAllUsesOfValueWith
        ⟨N, 1⟩ Chain)[k]? = some m →
        ∀ v ∈ m.ops, ∃ m0 w, g[k]? = some m0 ∧ w ∈ m0.ops ∧
          v = (if w = ⟨N, 0⟩ then ⟨g.length, 0⟩ else if w = ⟨N, 1⟩ then Chain else w) := by
      intro k m hk v hv
      rw [hG] at hk
      rcases Nat.lt_or_ge k g.length with hlt | hge
      · rw [List.getElem?_append_left hlt] at hk
        cases hg : g[k]? with
        | none => rw [hg] at hk; cases hk
        | some m0 =>
          rw [hg] at hk
          simp only [Option.map_some', Option.some.injEq] at hk
          subst hk
          obtain ⟨w, hw, rfl⟩ := List.mem_map.mp hv
          exact ⟨m0, w, rfl, hw, rfl⟩
      · rw [List.getElem?_append_right hge] at hk
        cases hu : ([⟨.isd .UNDEF, [], [vt], 0, 0, none⟩] : DAG)[k - g.length]? with
        | none => rw [hu] at hk; cases hk
        | some m0 =>
          rw [hu] at hk
          simp only [Option.map_some', Option.some.injEq] at hk
          subst hk
          rcases List.getElem?_eq_some_iff.mp hu with ⟨hlen, hget⟩
          have h0 : k - g.length = 0 := by simpa using hlen
          simp only [h0, List.getElem_cons_zero] at hget
          subst hget
          cases hv
    refine ⟨_, Transmogrify_noreg FixChainOp InvertCode hn hopc hops hR hreg himm hvt hself,
      ?_, ?_, ?_, ?_, ?_⟩
    · rw [DAG.RAUW_length, DAG.RAUW_length, List.length_append]; rfl
    · rw [hG, List.getElem?_append_right (Nat.le_refl _)]
      simp
    · intro k m hk
      have hlt : k < g.length := by
        by_contra hc
        rw [List.getElem?_eq_none (Nat.le_of_not_lt hc)] at hk
        cases hk
      rw [hG, List.getElem?_append_left hlt, hk]
      rfl
    · intro m hmem
      obtain ⟨k, hk⟩ := List.mem_iff_getElem?.mp hmem
      constructor
      · intro hv
        obtain ⟨m0, w, _, _, hw⟩ := hops2 k m hk _ hv
        by_cases h0 : w = ⟨N, 0⟩
        · rw [if_pos h0] at hw; exact hT0 hw.symm
        · rw [if_neg h0] at hw
          by_cases h1 : w = ⟨N, 1⟩
          · rw [if_pos h1] at hw; exact hC0 hw.symm
          · rw [if_neg h1] at hw; exact h0 hw.symm
      · intro hv
        obtain ⟨m0, w, _, _, hw⟩ := hops2 k m hk _ hv
        by_cases h0 : w = ⟨N, 0⟩
        · rw [if_pos h0] at hw; exact hT1 hw.symm
        · rw [if_neg h0] at hw
          by_cases h1 : w = ⟨N, 1⟩
          · rw [if_pos h1] at hw; exact hC1 hw.symm
          · rw [if_neg h1] at hw; exact h1 hw.symm
    · intro huse m hmem v hv hvN
      obtain ⟨k, hk⟩ := List.mem_iff_getElem?.mp hmem
      obtain ⟨m0, w, hm0, hw, hvw⟩ := hops2 k m hk v hv
      by_cases h0 : w = ⟨N, 0⟩
      · rw [if_pos h0] at hvw; rw [hvw] at hvN; simp at hvN; omega
      · rw [if_neg h0] at hvw
        by_cases h1 : w = ⟨N, 1⟩
        · rw [if_pos h1] at hvw; rw [hvw] at hvN; exact hC hvN
        · rw [if_neg h1] at hvw
          subst hvw
          have hres := huse m0 (List.mem_iff_getElem?.mpr ⟨k, hm0⟩) v hw hvN
          rcases v with ⟨vn, vr⟩
          simp only at hvN hres
          subst hvN
          have : vr = 0 ∨ vr = 1 := by omega
          rcases this with rfl | rfl
          · exact h0 rfl
          · exact h1 rfl

/-- Witness for C15: the copy from register 0 in `noRegGraph` (node 2). -/
theorem Transmogrify_non_machine_witness :
    ∃ g2 : DAG, Transmogrify (fun g _ => .ok g) (fun g _ => .ok (none, g)) noRegGraph 2 =
        .ok (some 2, g2) ∧ g2.length = 8 ∧
      g2[7]? = some ⟨.isd .UNDEF, [], [.i32], 0, 0, none⟩ ∧
      g2[4]? = some ⟨.isd .ADD, [⟨7, 0⟩, ⟨3, 0⟩], [.i32], 0, 0, none⟩ ∧
      g2[6]? = some ⟨.isd .CopyToReg, [⟨0, 0⟩, ⟨5, 0⟩, ⟨4, 0⟩], [.Other], 0, 0, none⟩ ∧
      ∀ m ∈ g2, ∀ v ∈ m.ops, v.node ≠ 2 := by
  obtain ⟨_, _, _, h⟩ := Transmogrify_non_machine (fun g _ => .ok g)
    (fun g _ => .ok (none, g)) noRegGraph 2
    ⟨.isd .CopyFromReg, [⟨0, 0⟩, ⟨1, 0⟩], [.i32, .Other], 0, 0, none⟩ rfl
    (by intro c h; cases h)
  obtain ⟨g2, h1, h2, h3, h4, _, h6⟩ := h ⟨0, 0⟩ ⟨1, 0⟩ []
    ⟨.isd .Register, [], [.i32], 0, 0, none⟩ .i32 rfl rfl rfl rfl rfl rfl (by decide)
  exact ⟨g2, h1, h2, h3, h4 4 _ rfl, h4 6 _ rfl, h6 (by decide)⟩

theorem DAG.valueType_append {g : DAG} {v : SDValue} {t : MVT} (l : DAG)
    (h : g.valueType v = .ok t) : (g ++ l).valueType v = .ok t := by
  unfold DAG.valueType at h ⊢
  obtain ⟨n, hn, h⟩ := bind_eq_ok h
  unfold DAG.getNode at hn ⊢
  cases hg : g[v.node]? with
  | none => rw [hg] at hn; cases hn
  | some m =>
    rw [hg] at hn
    cases hn
    have hlt : v.node < g.length := by
      by_contra hc
      rw [List.getElem?_eq_none (Nat.le_of_not_lt hc)] at hg
      cases hg
    rw [List.getElem?_append_left hlt, hg]
    exact h

theorem Transmogrify_STD (FixChainOp : DAG → Nat → Except Err DAG)
    (InvertCode : DAG → Nat → Except Err (Option Nat × DAG)) {g : DAG} {N : Nat} {n : SDNode}
    {Chain RS DS RA : SDValue} {rest : List SDValue}
    (hn : g[N]? = some n) (hopc : n.opc = .machine .STD)
    (hops : n.ops = Chain :: RS :: DS :: RA :: rest)
    (hchain : g.valueType Chain = .ok .Other) (hmem : n.memoperands ≠ 0) :
    Transmogrify FixChainOp InvertCode g N =
      (FixChainOp ((g ++ [⟨.isd .ADD, [DS, RA], [.i32], 0, 0, none⟩,
          ⟨.isd .ZERO_EXTEND, [⟨g.length, 0⟩], [.i64], 0, 0, none⟩,
          ⟨.isd .UNDEF, [], [.i64], 0, 0, none⟩,
          ⟨.isd .STORE, [Chain, RS, ⟨g.length + 1, 0⟩, ⟨g.length + 2, 0⟩], [.Other], 0, 0,
            some ⟨8⟩⟩] : DAG).ReplaceAllUsesOfValueWith ⟨N, 0⟩ ⟨g.length + 3, 0⟩)
        (g.length + 3) >>= fun g5 => .ok (none, g5)) := by
  obtain ⟨opc, ops, vts, imm, mo, mmo⟩ := n
  simp only at hopc hops hmem
  subst hopc hops
  have hc := DAG.valueType_append
    [⟨.isd .ADD, [DS, RA], [.i32], 0, 0, none⟩,
      ⟨.isd .ZERO_EXTEND, [⟨g.length, 0⟩], [.i64], 0, 0, none⟩] hchain
  simp only [DAG.valueType, DAG.getNode, bind, Except.bind, SDNode.getValueType] at hc
  unfold Transmogrify
  rw [DAG.getNode_eq hn]
  simp [bind, Except.bind, SDNode.getOperand, storeMMO, hmem, DAG.mkNode, DAG.add,
    DAG.getZExtOrTrunc, DAG.getStore, DAG.getUNDEF, DAG.valueType, DAG.getNode,
    SDNode.getValueType, MVT.bits]
  rw [hc]
  simp [List.getElem_append_right]

theorem Transmogrify_STW (FixChainOp : DAG → Nat → Except Err DAG)
    (InvertCode : DAG → Nat → Except Err (Option Nat × DAG)) {g : DAG} {N : Nat} {n : SDNode}
    {Chain RS D RA : SDValue} {rest : List SDValue}
    (hn : g[N]? = some n) (hopc : n.opc = .machine .STW)
    (hops : n.ops = Chain :: RS :: D :: RA :: rest)
    (hchain : g.valueType Chain = .ok .Other) (hmem : n.memoperands ≠ 0) :
    Transmogrify FixChainOp InvertCode g N =
      (FixChainOp ((g ++ [⟨.isd .ADD, [D, RA], [.i32], 0, 0, none⟩,
          ⟨.isd .UNDEF, [], [.i32], 0, 0, none⟩,
          ⟨.isd .STORE, [Chain, RS, ⟨g.length, 0⟩, ⟨g.length + 1, 0⟩], [.Other], 0, 0,
            some ⟨4⟩⟩] : DAG).ReplaceAllUsesOfValueWith ⟨N, 0⟩ ⟨g.length + 2, 0⟩)
        (g.length + 2) >>= fun g5 => .ok (none, g5)) := by
  obtain ⟨opc, ops, vts, imm, mo, mmo⟩ := n
  simp only at hopc hops hmem
  subst hopc hops
  have hc := DAG.valueType_append [⟨.isd .ADD, [D, RA], [.i32], 0, 0, none⟩] hchain
  simp only [DAG.valueType, DAG.getNode, bind, Except.bind, SDNode.getValueType] at hc
  unfold Transmogrify
  rw [DAG.getNode_eq hn]
  simp [bind, Except.bind, SDNode.getOperand, storeMMO, hmem, DAG.mkNode, DAG.add,
    DAG.getStore, DAG.getUNDEF, DAG.valueType, DAG.getNode, SDNode.getValueType]
  rw [hc]
  simp [List.getElem_append_right]

theorem DAG.RAUW_old {g : DAG} (l : DAG) (From To : SDValue) {k : Nat} {m : SDNode}
    (h : g[k]? = some m) :
    ((g ++ l).ReplaceAllUsesOfValueWith From To)[k]? =
      some { m with ops := (m.ops.map (fun v => if v = From then To else v)) } := by
  have hlt : k < g.length := by
    by_contra hc
    rw [List.getElem?_eq_none (Nat.le_of_not_lt hc)] at h
    cases h
  rw [DAG.RAUW_getElem?, List.getElem?_append_left hlt, h]
  rfl

theorem DAG.RAUW_new (g l : DAG) (From To : SDValue) (i : Nat) :
    ((g ++ l).ReplaceAllUsesOfValueWith From To)[g.length + i]? =
      l[i]?.map (fun (m : SDNode) =>
        ({ m with ops := (m.ops.map (fun v => if v = From then To else v)) } : SDNode)) := by
  rw [DAG.RAUW_getElem?, List.getElem?_append_right (Nat.le_add_right _ _),
    Nat.add_sub_cancel_left]

theorem DAG.RAUW_mem {g : DAG} {From To : SDValue} (h : From ≠ To) :
    ∀ m ∈ g.ReplaceAllUsesOfValueWith From To, From ∉ m.ops := by
  intro m hm
  obtain ⟨k, hk⟩ := List.mem_iff_getElem?.mp hm
  exact DAG.RAUW_no_use h hk

/-! ### C11: the stores `std` and `stw` -/

/-- C11, as stated, fails for `std`: with a `FixChainOp` that leaves the graph
as it is, `Transmogrify` turns `stdGraph` into `stdRewritten`, where the
address operand of the store (node 11) is node 9, the zero extension to 64
bits of the 32-bit sum `ADD(displacement, RA)` of node 8, and not that sum. -/
theorem Transmogrify_STD_at_stdGraph :
    Transmogrify (fun g _ => .ok g) (fun g _ => .ok (none, g)) stdGraph 4 =
        .ok (none, stdRewritten) ∧
      stdRewritten[11]? =
        some ⟨.isd .STORE, [⟨0, 0⟩, ⟨1, 0⟩, ⟨9, 0⟩, ⟨10, 0⟩], [.Other], 0, 0, some ⟨8⟩⟩ ∧
      stdRewritten[9]? = some ⟨.isd .ZERO_EXTEND, [⟨8, 0⟩], [.i64], 0, 0, none⟩ ∧
      stdRewritten[8]? = some ⟨.isd .ADD, [⟨2, 0⟩, ⟨3, 0⟩], [.i32], 0, 0, none⟩ := by
  decide

/-- C11, amended: let `N` be a machine node with operands (chain, RS,
displacement, RA), none of them a result of `N` itself, that carries a memory
operand.  For `std` and for `stw`, `Transmogrify` builds a graph `G`, hands it
to `FixChainOp` together with the store node and returns no node.  In `G` every
operand that was the result `(N, 0)` is the store node and no operand is
`(N, 0)`; the store has the chain operand of `N` as its chain, stores RS and has
access width 8 for `std` and 4 for `stw`; its address is the 32-bit sum
`ADD(displacement, RA)` for `stw` and the zero extension of that sum to 64 bits
for `std`. -/
theorem Transmogrify_store (FixChainOp : DAG → Nat → Except Err DAG)
    (InvertCode : DAG → Nat → Except Err (Option Nat × DAG)) (g : DAG) (N : Nat) (n : SDNode)
    (Chain RS D RA : SDValue) (rest : List SDValue)
    (hn : g[N]? = some n) (hops : n.ops = Chain :: RS :: D :: RA :: rest)
    (hchain : g.valueType Chain = .ok .Other) (hmem : n.memoperands ≠ 0)
    (hself : ∀ v ∈ n.ops, v.node ≠ N) :
    (n.opc = .machine .STD →
      ∃ G : DAG, Transmogrify FixChainOp InvertCode g N =
          (FixChainOp G (g.length + 3) >>= fun g5 => .ok (none, g5)) ∧
        G.length = g.length + 4 ∧
        G[g.length]? = some ⟨.isd .ADD, [D, RA], [.i32], 0, 0, none⟩ ∧
        G[g.length + 1]? = some ⟨.isd .ZERO_EXTEND, [⟨g.length, 0⟩], [.i64], 0, 0, none⟩ ∧
        G[g.length + 2]? = some ⟨.isd .UNDEF, [], [.i64], 0, 0, none⟩ ∧
        G[g.length + 3]? = some ⟨.isd .STORE,
          [Chain, RS, ⟨g.length + 1, 0⟩, ⟨g.length + 2, 0⟩], [.Other], 0, 0, some ⟨8⟩⟩ ∧
        (∀ (k : Nat) (m : SDNode), g[k]? = some m →
          G[k]? = some { m with ops := (m.ops.map (fun v =>
            if v = ⟨N, 0⟩ then ⟨g.length + 3, 0⟩ else v)) }) ∧
        (∀ m ∈ G, (⟨N, 0⟩ : SDValue) ∉ m.ops)) ∧
    (n.opc = .machine .STW →
      ∃ G : DAG, Transmogrify FixChainOp InvertCode g N =
          (FixChainOp G (g.length + 2) >>= fun g5 => .ok (none, g5)) ∧
        G.length = g.length + 3 ∧
        G[g.length]? = some ⟨.isd .ADD, [D, RA], [.i32], 0, 0, none⟩ ∧
        G[g.length + 1]? = some ⟨.isd .UNDEF, [], [.i32], 0, 0, none⟩ ∧
        G[g.length + 2]? = some ⟨.isd .STORE,
          [Chain, RS, ⟨g.length, 0⟩, ⟨g.length + 1, 0⟩], [.Other], 0, 0, some ⟨4⟩⟩ ∧
        (∀ (k : Nat) (m : SDNode), g[k]? = some m →
          G[k]? = some { m with ops := (m.ops.map (fun v =>
            if v = ⟨N, 0⟩ then ⟨g.length + 2, 0⟩ else v)) }) ∧
        (∀ m ∈ G, (⟨N, 0⟩ : SDValue) ∉ m.ops)) := by
  have hN : N < g.length := by
    by_contra hc
    rw [List.getElem?_eq_none (Nat.le_of_not_lt hc)] at hn
    cases hn
  have hne : ∀ v ∈ n.ops, v ≠ (⟨N, 0⟩ : SDValue) := fun v hv h => hself v hv (by rw [h])
  have hC : Chain ≠ (⟨N, 0⟩ : SDValue) := hne Chain (by rw [hops]; simp)
  have hRS : RS ≠ (⟨N, 0⟩ : SDValue) := hne RS (by rw [hops]; simp)
  have hD : D ≠ (⟨N, 0⟩ : SDValue) := hne D (by rw [hops]; simp)
  have hRA : RA ≠ (⟨N, 0⟩ : SDValue) := hne RA (by rw [hops]; simp)
  have hl : ∀ i : Nat, (⟨g.length + i, 0⟩ : SDValue) ≠ ⟨N, 0⟩ := by
    intro i h; injection h with h; omega
  have hl0 : (⟨g.length, 0⟩ : SDValue) ≠ ⟨N, 0⟩ := hl 0
  constructor
  · intro hopc
    refine ⟨_, Transmogrify_STD FixChainOp InvertCode hn hopc hops hchain hmem,
      ?_, ?_, ?_, ?_, ?_, ?_, ?_⟩
    · rw [DAG.RAUW_length, List.length_append]; rfl
    · rw [DAG.RAUW_getElem?, List.getElem?_append_right (Nat.le_refl _)]
      simp [hD, hRA]
    · rw [DAG.RAUW_new]; simp [hl0]
    · rw [DAG.RAUW_new]; simp
    · rw [DAG.RAUW_new]; simp [hC, hRS, hl]
    · intro k m hk
      exact DAG.RAUW_old _ _ _ hk
    · exact DAG.RAUW_mem (fun h => hl 3 h.symm)
  · intro hopc
    refine ⟨_, Transmogrify_STW FixChainOp InvertCode hn hopc hops hchain hmem,
      ?_, ?_, ?_, ?_, ?_, ?_⟩
    · rw [DAG.RAUW_length, List.length_append]; rfl
    · rw [DAG.RAUW_getElem?, List.getElem?_append_right (Nat.le_refl _)]
      simp [hD, hRA]
    · rw [DAG.RAUW_new]; simp
    · rw [DAG.RAUW_new]; simp [hC, hRS, hl, hl0]
    · intro k m hk
      exact DAG.RAUW_old _ _ _ hk
    · exact DAG.RAUW_mem (fun h => hl 2 h.symm)

/-- Witness for C11: the `std` of `stdGraph` and the `stw` of `stwGraph`, with a
`FixChainOp` that leaves the graph as it is. -/
theorem Transmogrify_store_witness :
    (∃ G : DAG, Transmogrify (fun g _ => .ok g) (fun g _ => .ok (none, g)) stdGraph 4 =
        .ok (none, G) ∧
      G[11]? = some ⟨.isd .STORE, [⟨0, 0⟩, ⟨1, 0⟩, ⟨9, 0⟩, ⟨10, 0⟩], [.Other], 0, 0,
        some ⟨8⟩⟩ ∧
      G[5]? = some ⟨.isd .TokenFactor, [⟨11, 0⟩], [.Other], 0, 0, none⟩) ∧
    (∃ G : DAG, Transmogrify (fun g _ => .ok g) (fun g _ => .ok (none, g)) stwGraph 4 =
        .ok (none, G) ∧
      G[10]? = some ⟨.isd .STORE, [⟨0, 0⟩, ⟨1, 0⟩, ⟨8, 0⟩, ⟨9, 0⟩], [.Other], 0, 0,
        some ⟨4⟩⟩ ∧
      G[8]? = some ⟨.isd .ADD, [⟨2, 0⟩, ⟨3, 0⟩], [.i32], 0, 0, none⟩ ∧
      G[5]? = some ⟨.isd .TokenFactor, [⟨10, 0⟩], [.Other], 0, 0, none⟩) := by
  constructor
  · obtain ⟨G, h1, _, _, _, _, h6, h7, _⟩ :=
      (Transmogrify_store (fun g _ => .ok g) (fun g _ => .ok (none, g)) stdGraph 4
        ⟨.machine .STD, [⟨0, 0⟩, ⟨1, 0⟩, ⟨2, 0⟩, ⟨3, 0⟩], [.Other], 0, 1, none⟩
        ⟨0, 0⟩ ⟨1, 0⟩ ⟨2, 0⟩ ⟨3, 0⟩ [] rfl rfl (by decide) (by decide) (by decide)).1 rfl
    exact ⟨G, h1, h6, h7 5 _ rfl⟩
  · obtain ⟨G, h1, _, h3, _, h5, h6, _⟩ :=
      (Transmogrify_store (fun g _ => .ok g) (fun g _ => .ok (none, g)) stwGraph 4
        ⟨.machine .STW, [⟨0, 0⟩, ⟨1, 0⟩, ⟨2, 0⟩, ⟨3, 0⟩], [.Other], 0, 1, none⟩
        ⟨0, 0⟩ ⟨1, 0⟩ ⟨2, 0⟩ ⟨3, 0⟩ [] rfl rfl (by decide) (by decide) (by decide)).2 rfl
    exact ⟨G, h1, h5, h3, h6 5 _ rfl⟩


/-! ### C14: the slot of a register is created once -/

theorem Later.regKeep {ri : RegInfo} {g : DAG} {s t : Emitter} (h : Later ri g s t) :
    RegKeep s t := by
  induction h with
  | refl => exact (regKeep_respects ri g).refl _
  | visit _ hv ih => exact (regKeep_respects ri g).trans ih (visit_regKeep hv)
  | register _ hv ih => exact (regKeep_respects ri g).trans ih ((regKeep_respects ri g).register hv)
  | names _ hv ih => exact (regKeep_respects ri g).trans ih ((regKeep_respects ri g).names hv)
  | emit _ hv ih =>
    refine (regKeep_respects ri g).trans ih ?_
    obtain ⟨_, rfl⟩ := Emitter.emit_ok hv
    exact fun i a h => h

/-- C14: when `visitRegister` has returned a slot for the register node `N`,
in every state that the emitter reaches from there without a reset
`visitRegister` returns the same slot for `N` and the state as it is, so that
the entry block, the global cells and the register map are unchanged.  On the
call that creates the slot (the register has none yet), the global cells are
the same afterwards if one of the register's name exists, and else they gain
one of that name, of the register's type and with initial value zero. -/
theorem visitRegister_once (ri : RegInfo) (g : DAG) (N : Nat) (s s1 : Emitter) (a : Value)
    (h : visitRegister ri g N s = .ok (some a, s1)) :
    (∀ s2, Later ri g s1 s2 → visitRegister ri g N s2 = .ok (some a, s2)) ∧
    (∀ n : SDNode, g[N]? = some n → s.regSlot n.imm = .ok none →
      ∃ vt Ty, n.getValueType 0 = .ok vt ∧ getTypeForEVT vt = .ok Ty ∧
        (s.getGlobalVariable (ri.name n.imm) ≠ none → s1.globals = s.globals) ∧
        (s.getGlobalVariable (ri.name n.imm) = none →
          s1.globals = ⟨ri.name n.imm, Ty, 0⟩ :: s.globals)) := by
  constructor
  · intro s2 hl
    exact visitRegister_again h hl.regKeep
  · intro n hn hslot
    obtain ⟨n1, hn1, hcase⟩ := visitRegister_ok h
    rw [DAG.getNode_eq hn] at hn1
    cases hn1
    rcases hcase with ⟨_, hr, _⟩ | ⟨_, b, hb, _⟩ | ⟨_, _, vt, Ty, nm, bn, hvt, hTy, _, _, _, hs1⟩
    · cases hr
    · rw [hslot] at hb; cases hb
    · have hgl : (slotCreated ri n s Ty nm bn).globals =
          (s.globalFor (ri.name n.imm) Ty).2.globals := rfl
      refine ⟨vt, Ty, hvt, hTy, ?_, ?_⟩
      · intro hg
        rw [hs1, hgl]
        unfold Emitter.globalFor
        cases hgv : s.getGlobalVariable (ri.name n.imm) with
        | none => exact absurd hgv hg
        | some gv => rfl
      · intro hg
        rw [hs1, hgl]
        unfold Emitter.globalFor
        rw [hg]

set_option maxRecDepth 100000 in
/-- Witness for C14: the register `R3` of the example graph (node 1), whose slot
is created from the initial state, and the state after node 5 has been
visited. -/
theorem visitRegister_once_witness :
    visitRegister exampleRegs exampleGraph 1 (Emitter.init exampleRegs) =
        .ok (some exampleSlot, exampleSlotCreated) ∧
      visit exampleRegs exampleGraph 4 5 exampleSlotCreated =
        .ok (some exampleWrite, exampleAfterWrite) ∧
      visitRegister exampleRegs exampleGraph 1 exampleAfterWrite =
        .ok (some exampleSlot, exampleAfterWrite) ∧
      exampleSlotCreated.globals = [⟨"R3", .int 32, 0⟩] := by
  have h0 : visitRegister exampleRegs exampleGraph 1 (Emitter.init exampleRegs) =
      .ok (some exampleSlot, exampleSlotCreated) := by decide
  have hv : visit exampleRegs exampleGraph 4 5 exampleSlotCreated =
      .ok (some exampleWrite, exampleAfterWrite) := by decide
  have h := visitRegister_once exampleRegs exampleGraph 1 (Emitter.init exampleRegs)
    exampleSlotCreated exampleSlot h0
  exact ⟨h0, hv, h.1 _ (Later.visit (Later.refl _) hv), rfl⟩


/-! ### C13: termination and the visit cache -/

theorem bind_ne_fuel {α β : Type} {x : Except Err α} {f : α → Except Err β}
    (hx : x ≠ .error .outOfFuel) (hf : ∀ a, x = .ok a → f a ≠ .error .outOfFuel) :
    (x >>= f) ≠ .error .outOfFuel := by
  cases x with
  | error e =>
    intro h
    simp only [bind, Except.bind] at h
    cases h
    exact hx rfl
  | ok a => exact hf a rfl

theorem DAG.getNode_ne_fuel (g : DAG) (N : Nat) : g.getNode N ≠ .error .outOfFuel := by
  unfold DAG.getNode; split <;> simp

theorem SDNode.getOperand_ne_fuel (n : SDNode) (i : Nat) :
    n.getOperand i ≠ .error .outOfFuel := by
  unfold SDNode.getOperand; split <;> simp

theorem SDNode.getOperand_mem {n : SDNode} {i : Nat} {v : SDValue}
    (h : n.getOperand i = .ok v) : v ∈ n.ops := by
  unfold SDNode.getOperand at h
  split at h
  · rename_i w hw
    cases h
    exact List.mem_iff_getElem?.mpr ⟨i, hw⟩
  · cases h

theorem SDNode.getValueType_ne_fuel (n : SDNode) (i : Nat) :
    n.getValueType i ≠ .error .outOfFuel := by
  unfold SDNode.getValueType; split <;> simp

theorem getTypeForEVT_ne_fuel (vt : MVT) : getTypeForEVT vt ≠ .error .outOfFuel := by
  cases vt <;> simp [getTypeForEVT]

theorem Emitter.regSlot_ne_fuel (s : Emitter) (i : Nat) :
    s.regSlot i ≠ .error .outOfFuel := by
  unfold Emitter.regSlot; split <;> simp

theorem uniqueStem_ne_fuel (B : String) : uniqueStem B ≠ .error .outOfFuel := by
  unfold uniqueStem; split <;> simp

theorem getIndexedValueName_ne_fuel (syms : List String) (bn : StringMap) (B : String) :
    getIndexedValueName syms bn B ≠ .error .outOfFuel := by
  unfold getIndexedValueName
  split
  · simp
  · refine bind_ne_fuel (uniqueStem_ne_fuel B) ?_
    intro pre _
    split <;> simp

theorem Emitter.indexedName_ne_fuel (s : Emitter) (B : String) :
    s.indexedName B ≠ .error .outOfFuel := by
  unfold Emitter.indexedName
  refine bind_ne_fuel (getIndexedValueName_ne_fuel _ _ _) ?_
  intro a _
  simp

theorem Emitter.emit_ne_fuel (s : Emitter) (mk : Nat → Value) :
    s.emit mk ≠ .error .outOfFuel := by
  unfold Emitter.emit; simp

theorem visitRegister_ne_fuel (ri : RegInfo) (g : DAG) (N : Nat) (s : Emitter) :
    visitRegister ri g N s ≠ .error .outOfFuel := by
  unfold visitRegister
  refine bind_ne_fuel (DAG.getNode_ne_fuel _ _) ?_
  intro n _
  split
  · simp
  · refine bind_ne_fuel (Emitter.regSlot_ne_fuel _ _) ?_
    intro a _
    split
    · simp
    · refine bind_ne_fuel (SDNode.getValueType_ne_fuel _ _) ?_
      intro vt _
      refine bind_ne_fuel (getTypeForEVT_ne_fuel _) ?_
      intro Ty _
      simp only
      split
      · refine bind_ne_fuel (Emitter.indexedName_ne_fuel _ _) ?_
        intro a _
        simp
      · simp

theorem getInstructionName_ne_fuel (ri : RegInfo) (g : DAG) (N : Nat) (s : Emitter) :
    getInstructionName ri g N s ≠ .error .outOfFuel := by
  unfold getInstructionName
  split
  · simp
  · refine bind_ne_fuel (DAG.getNode_ne_fuel _ _) ?_
    intro user _
    refine bind_ne_fuel (SDNode.getOperand_ne_fuel _ _) ?_
    intro op1 _
    refine bind_ne_fuel (visitRegister_ne_fuel _ _ _ _) ?_
    intro a _
    split
    · simp
    · exact Emitter.indexedName_ne_fuel _ _

theorem visitCopyFromReg_ne_fuel (ri : RegInfo) (g : DAG) (N : Nat) (s : Emitter) :
    visitCopyFromReg ri g N s ≠ .error .outOfFuel := by
  unfold visitCopyFromReg
  refine bind_ne_fuel (DAG.getNode_ne_fuel _ _) ?_
  intro n _
  split
  · simp
  · refine bind_ne_fuel (SDNode.getOperand_ne_fuel _ _) ?_
    intro op1 _
    refine bind_ne_fuel (visitRegister_ne_fuel _ _ _ _) ?_
    intro a _
    split
    · simp
    · refine bind_ne_fuel (Emitter.indexedName_ne_fuel _ _) ?_
      intro b _
      simp [Emitter.emit, bind, Except.bind]

theorem visitConstant_ne_fuel (g : DAG) (N : Nat) (s : Emitter) :
    visitConstant g N s ≠ .error .outOfFuel := by
  unfold visitConstant
  refine bind_ne_fuel (DAG.getNode_ne_fuel _ _) ?_
  intro n _
  split
  · refine bind_ne_fuel (SDNode.getValueType_ne_fuel _ _) ?_
    intro vt _
    refine bind_ne_fuel (getTypeForEVT_ne_fuel _) ?_
    intro Ty _
    simp
  · simp

theorem baseNameFrom_ne_fuel (bn : StringMap) (B : String) (Op : Option Value) :
    baseNameFrom bn B Op ≠ .error .outOfFuel := by
  unfold baseNameFrom
  split
  · split <;> simp
  · simp

theorem addrToPtr_ne_fuel (Addr : Value) (Name : String) (s : Emitter) :
    addrToPtr Addr Name s ≠ .error .outOfFuel := by
  unfold addrToPtr
  split
  · split
    · simp
    · exact Emitter.emit_ne_fuel _ _
  · simp

theorem visitCopyToReg_ne_fuel (ri : RegInfo) (g : DAG) (vis : Visit) (N : Nat) (s : Emitter)
    (hvis : ∀ n, g.getNode N = .ok n → ∀ op ∈ n.ops, ∀ t, vis op.node t ≠ .error .outOfFuel) :
    visitCopyToReg ri g vis N s ≠ .error .outOfFuel := by
  unfold visitCopyToReg
  refine bind_ne_fuel (DAG.getNode_ne_fuel _ _) ?_
  intro n hn
  refine bind_ne_fuel (SDNode.getOperand_ne_fuel _ _) ?_
  intro op1 _
  refine bind_ne_fuel (visitRegister_ne_fuel _ _ _ _) ?_
  intro a _
  refine bind_ne_fuel (SDNode.getOperand_ne_fuel _ _) ?_
  intro op2 h2
  refine bind_ne_fuel (hvis n hn op2 (SDNode.getOperand_mem h2) _) ?_
  intro b _
  repeat' split
  all_goals simp [Emitter.emit, bind, Except.bind]

theorem visitBinary_ne_fuel (mk : Nat → Value → Value → String → Value) (ri : RegInfo)
    (g : DAG) (vis : Visit) (N : Nat) (s : Emitter)
    (hvis : ∀ n, g.getNode N = .ok n → ∀ op ∈ n.ops, ∀ t, vis op.node t ≠ .error .outOfFuel) :
    visitBinary mk ri g vis N s ≠ .error .outOfFuel := by
  unfold visitBinary
  refine bind_ne_fuel (DAG.getNode_ne_fuel _ _) ?_
  intro n hn
  refine bind_ne_fuel (SDNode.getOperand_ne_fuel _ _) ?_
  intro op0 h0
  refine bind_ne_fuel (hvis n hn op0 (SDNode.getOperand_mem h0) _) ?_
  intro a _
  refine bind_ne_fuel (SDNode.getOperand_ne_fuel _ _) ?_
  intro op1 h1
  refine bind_ne_fuel (hvis n hn op1 (SDNode.getOperand_mem h1) _) ?_
  intro b _
  refine bind_ne_fuel (getInstructionName_ne_fuel _ _ _ _) ?_
  intro c _
  refine bind_ne_fuel (baseNameFrom_ne_fuel _ _ _) ?_
  intro d _
  refine bind_ne_fuel (baseNameFrom_ne_fuel _ _ _) ?_
  intro e _
  refine bind_ne_fuel (Emitter.indexedName_ne_fuel _ _) ?_
  intro f _
  repeat' split
  all_goals simp [Emitter.emit, bind, Except.bind]

theorem visitLOAD_ne_fuel (g : DAG) (vis : Visit) (N : Nat) (s : Emitter)
    (hvis : ∀ n, g.getNode N = .ok n → ∀ op ∈ n.ops, ∀ t, vis op.node t ≠ .error .outOfFuel) :
    visitLOAD vis g N s ≠ .error .outOfFuel := by
  unfold visitLOAD
  refine bind_ne_fuel (DAG.getNode_ne_fuel _ _) ?_
  intro n hn
  refine bind_ne_fuel (SDNode.getOperand_ne_fuel _ _) ?_
  intro op0 h0
  refine bind_ne_fuel (hvis n hn op0 (SDNode.getOperand_mem h0) _) ?_
  intro a _
  split
  · simp
  · refine bind_ne_fuel (Emitter.indexedName_ne_fuel _ _) ?_
    intro b _
    refine bind_ne_fuel (addrToPtr_ne_fuel _ _ _) ?_
    intro c _
    refine bind_ne_fuel (Emitter.indexedName_ne_fuel _ _) ?_
    intro d _
    simp [Emitter.emit, bind, Except.bind]

theorem visitSTORE_ne_fuel (g : DAG) (vis : Visit) (N : Nat) (s : Emitter)
    (hvis : ∀ n, g.getNode N = .ok n → ∀ op ∈ n.ops, ∀ t, vis op.node t ≠ .error .outOfFuel) :
    visitSTORE vis g N s ≠ .error .outOfFuel := by
  unfold visitSTORE
  refine bind_ne_fuel (DAG.getNode_ne_fuel _ _) ?_
  intro n hn
  refine bind_ne_fuel (SDNode.getOperand_ne_fuel _ _) ?_
  intro op0 h0
  refine bind_ne_fuel (hvis n hn op0 (SDNode.getOperand_mem h0) _) ?_
  intro a _
  refine bind_ne_fuel (SDNode.getOperand_ne_fuel _ _) ?_
  intro op1 h1
  refine bind_ne_fuel (hvis n hn op1 (SDNode.getOperand_mem h1) _) ?_
  intro b _
  split
  · simp
  · refine bind_ne_fuel (Emitter.indexedName_ne_fuel _ _) ?_
    intro c _
    refine bind_ne_fuel (addrToPtr_ne_fuel _ _ _) ?_
    intro d _
    repeat' split
    all_goals simp [Emitter.emit, bind, Except.bind]

theorem dispatch_ne_fuel (ri : RegInfo) (g : DAG) (vis : Visit) (k : Visitor) (N : Nat)
    (s : Emitter)
    (hvis : ∀ n, g.getNode N = .ok n → ∀ op ∈ n.ops, ∀ t, vis op.node t ≠ .error .outOfFuel) :
    dispatch ri g vis k N s ≠ .error .outOfFuel := by
  cases k
  · simp [dispatch]
  · simp [dispatch]
  · simp [dispatch]
  · exact visitCopyFromReg_ne_fuel _ _ _ _
  · exact visitCopyToReg_ne_fuel _ _ _ _ _ hvis
  · exact visitConstant_ne_fuel _ _ _
  · exact visitBinary_ne_fuel _ _ _ _ _ _ hvis
  · exact visitBinary_ne_fuel _ _ _ _ _ _ hvis
  · exact visitLOAD_ne_fuel _ _ _ _ hvis
  · exact visitSTORE_ne_fuel _ _ _ _ hvis

theorem visit_ne_fuel {ri : RegInfo} {g : DAG} {rank : Nat → Nat}
    (hacyc : ∀ (N : Nat) (n : SDNode), g[N]? = some n → ∀ op ∈ n.ops, rank op.node < rank N) :
    ∀ (fuel N : Nat) (s : Emitter), rank N < fuel →
      visit ri g fuel N s ≠ .error .outOfFuel := by
  intro fuel
  induction fuel with
  | zero => intro N s h; omega
  | succ fuel ih =>
    intro N s hr
    cases hl : s.VisitMap.lookup N with
    | some v => rw [visit_succ_cached hl]; simp
    | none =>
      rw [visit_succ_dispatch hl]
      refine bind_ne_fuel (DAG.getNode_ne_fuel _ _) ?_
      intro n hn
      refine dispatch_ne_fuel _ _ _ _ _ _ ?_
      intro n1 hn1 op hop t
      have hg : g[N]? = some n1 := by
        unfold DAG.getNode at hn1
        split at hn1
        · rename_i m hm; cases hn1; exact hm
        · cases hn1
      have := hacyc N n1 hg op hop
      exact ih op.node t (by omega)

theorem Acyclic.lt {g : DAG} {rank : Nat → Nat} (h : Acyclic g rank) {N : Nat} {n : SDNode}
    (hn : g[N]? = some n) {op : SDValue} (hop : op ∈ n.ops) : rank op.node < rank N :=
  h (N, n) (List.mk_mem_enum_iff_getElem?.mpr hn) op hop

/-- Every entry of `VisitMap` in the first state is an entry of the second. -/
theorem cacheKeep_respects (ri : RegInfo) (g : DAG) :
    Respects ri g (fun s t => ∀ (M : Nat) (v : Value),
      s.VisitMap.lookup M = some v → t.VisitMap.lookup M = some v) where
  refl := fun _ _ _ h => h
  trans := fun h1 h2 M v h => h2 M v (h1 M v h)
  names := by
    intro s B nm s2 h M v hM
    obtain ⟨bn, _, rfl⟩ := Emitter.indexedName_ok h
    exact hM
  emit := by
    intro s mk v s2 h _ M w hM
    obtain ⟨_, rfl⟩ := Emitter.emit_ok h
    exact hM
  register := by
    intro N s r s2 h M v hM
    rw [visitRegister_VisitMap h]
    exact hM

theorem visit_cacheKeep {ri : RegInfo} {g : DAG} {fuel N : Nat} {s s2 : Emitter}
    {r : Option Value} (h : visit ri g fuel N s = .ok (r, s2)) {M : Nat} {v : Value}
    (hM : s.VisitMap.lookup M = some v) : s2.VisitMap.lookup M = some v := by
  refine visit_respects (cacheKeep_respects ri g) ?_ fuel N s r s2 h M v hM
  intro fuel N s Res sp hl _ _ hR M v hM
  have hne : M ≠ N := by
    intro hc
    rw [hc, hl] at hM
    cases hM
  have : (sp.cache N Res).VisitMap.lookup M = sp.VisitMap.lookup M := by
    unfold Emitter.cache
    simp only [List.lookup_cons]
    have : (M == N) = false := by simpa using hne
    rw [this]
  rw [this]
  exact hR M v hM

theorem visit_value_cached {ri : RegInfo} {g : DAG} {fuel N : Nat} {s s2 : Emitter}
    {v : Value} (h : visit ri g fuel N s = .ok (some v, s2)) :
    s2.VisitMap.lookup N = some v := by
  cases fuel with
  | zero => cases h
  | succ fuel =>
    cases hl : s.VisitMap.lookup N with
    | some w =>
      rw [visit_succ_cached hl] at h
      cases h
      exact hl
    | none =>
      obtain ⟨sp, _, hcase⟩ := visit_succ_ends (respects_true ri g)
        (fun _ _ _ _ _ => trivial) hl h
      rcases hcase with ⟨hr, _⟩ | ⟨Res, hr, _, rfl⟩
      · cases hr
      · cases hr
        exact Emitter.cache_lookup sp N _

theorem operandVisits_not_mem {ri : RegInfo} {g : DAG} {vis : Visit}
    {tr : Nat → Emitter → List Nat} {M : Nat}
    (htr : ∀ N t, t.VisitMap.lookup M ≠ none → M ∉ tr N t)
    (hvis : ∀ N t r t2, vis N t = .ok (r, t2) → CacheLe t t2)
    (k : Visitor) (n : SDNode) {s : Emitter} (hM : s.VisitMap.lookup M ≠ none) :
    M ∉ operandVisits ri g vis tr k n s := by
  have two : M ∉ (match n.getOperand 0 with
      | .error _ => []
      | .ok op0 =>
        tr op0.node s ++
          match vis op0.node s with
          | .error _ => []
          | .ok (_, s1) =>
            match n.getOperand 1 with
            | .error _ => []
            | .ok op1 => tr op1.node s1 : List Nat) := by
    split
    · simp
    · rw [List.mem_append, not_or]
      refine ⟨htr _ _ hM, ?_⟩
      split
      · simp
      · rename_i hv
        split
        · simp
        · exact htr _ _ (hvis _ _ _ _ hv M hM)
  cases k <;> unfold operandVisits <;> simp only
  all_goals try exact two
  all_goals try simp
  · split
    · simp
    · split
      · simp
      · rename_i hv
        split
        · simp
        · refine htr _ _ ?_
          rw [visitRegister_VisitMap hv]
          exact hM
  · split
    · simp
    · exact htr _ _ hM

theorem dispatched_not_cached (ri : RegInfo) (g : DAG) (M : Nat) :
    ∀ (fuel N : Nat) (s : Emitter), s.VisitMap.lookup M ≠ none →
      M ∉ dispatched ri g fuel N s := by
  intro fuel
  induction fuel with
  | zero => intro N s _; simp [dispatched]
  | succ fuel ih =>
    intro N s hM
    unfold dispatched
    split
    · simp
    · rename_i hl
      split
      · simp
      · rw [List.mem_cons, not_or]
        refine ⟨?_, operandVisits_not_mem (ih) (fun _ _ _ _ h => visit_cacheLe h) _ _ hM⟩
        intro hc
        rw [hc] at hM
        exact hM hl

theorem bind_congr_ok {α β : Type} {x : Except Err α} {f f2 : α → Except Err β}
    (h : ∀ a, x = .ok a → f a = f2 a) : (x >>= f) = (x >>= f2) := by
  cases x with
  | error e => rfl
  | ok a => exact h a rfl

theorem visitCopyToReg_congr {ri : RegInfo} {g : DAG} {vis vis2 : Visit} {N : Nat}
    (hvis : ∀ n, g.getNode N = .ok n → ∀ op ∈ n.ops, ∀ t, vis op.node t = vis2 op.node t)
    (s : Emitter) : visitCopyToReg ri g vis N s = visitCopyToReg ri g vis2 N s := by
  unfold visitCopyToReg
  refine bind_congr_ok ?_
  intro n hn
  refine bind_congr_ok ?_
  intro op1 _
  refine bind_congr_ok ?_
  intro a _
  refine bind_congr_ok ?_
  intro op2 h2
  rw [hvis n hn op2 (SDNode.getOperand_mem h2)]

theorem visitBinary_congr {mk : Nat → Value → Value → String → Value} {ri : RegInfo}
    {g : DAG} {vis vis2 : Visit} {N : Nat}
    (hvis : ∀ n, g.getNode N = .ok n → ∀ op ∈ n.ops, ∀ t, vis op.node t = vis2 op.node t)
    (s : Emitter) : visitBinary mk ri g vis N s = visitBinary mk ri g vis2 N s := by
  unfold visitBinary
  refine bind_congr_ok ?_
  intro n hn
  refine bind_congr_ok ?_
  intro op0 h0
  rw [hvis n hn op0 (SDNode.getOperand_mem h0)]
  refine bind_congr_ok ?_
  intro a _
  refine bind_congr_ok ?_
  intro op1 h1
  rw [hvis n hn op1 (SDNode.getOperand_mem h1)]

theorem visitLOAD_congr {g : DAG} {vis vis2 : Visit} {N : Nat}
    (hvis : ∀ n, g.getNode N = .ok n → ∀ op ∈ n.ops, ∀ t, vis op.node t = vis2 op.node t)
    (s : Emitter) : visitLOAD vis g N s = visitLOAD vis2 g N s := by
  unfold visitLOAD
  refine bind_congr_ok ?_
  intro n hn
  refine bind_congr_ok ?_
  intro op0 h0
  rw [hvis n hn op0 (SDNode.getOperand_mem h0)]

theorem visitSTORE_congr {g : DAG} {vis vis2 : Visit} {N : Nat}
    (hvis : ∀ n, g.getNode N = .ok n → ∀ op ∈ n.ops, ∀ t, vis op.node t = vis2 op.node t)
    (s : Emitter) : visitSTORE vis g N s = visitSTORE vis2 g N s := by
  unfold visitSTORE
  refine bind_congr_ok ?_
  intro n hn
  refine bind_congr_ok ?_
  intro op0 h0
  rw [hvis n hn op0 (SDNode.getOperand_mem h0)]
  refine bind_congr_ok ?_
  intro a _
  refine bind_congr_ok ?_
  intro op1 h1
  rw [hvis n hn op1 (SDNode.getOperand_mem h1)]

theorem dispatch_congr {ri : RegInfo} {g : DAG} {vis vis2 : Visit} {N : Nat}
    (hvis : ∀ n, g.getNode N = .ok n → ∀ op ∈ n.ops, ∀ t, vis op.node t = vis2 op.node t)
    (k : Visitor) (s : Emitter) : dispatch ri g vis k N s = dispatch ri g vis2 k N s := by
  cases k
  · rfl
  · rfl
  · rfl
  · rfl
  · exact visitCopyToReg_congr hvis s
  · rfl
  · exact visitBinary_congr hvis s
  · exact visitBinary_congr hvis s
  · exact visitLOAD_congr hvis s
  · exact visitSTORE_congr hvis s

theorem visit_succ_eq {ri : RegInfo} {g : DAG} {rank : Nat → Nat}
    (hacyc : ∀ (N : Nat) (n : SDNode), g[N]? = some n → ∀ op ∈ n.ops, rank op.node < rank N) :
    ∀ (fuel N : Nat) (s : Emitter), rank N < fuel →
      visit ri g (fuel + 1) N s = visit ri g fuel N s := by
  intro fuel
  induction fuel with
  | zero => intro N s h; omega
  | succ fuel ih =>
    intro N s hr
    cases hl : s.VisitMap.lookup N with
    | some v => rw [visit_succ_cached hl, visit_succ_cached hl]
    | none =>
      rw [visit_succ_dispatch hl, visit_succ_dispatch hl]
      refine bind_congr_ok ?_
      intro n hn
      refine dispatch_congr ?_ _ _
      intro n1 hn1 op hop t
      have hg : g[N]? = some n1 := by
        unfold DAG.getNode at hn1
        split at hn1
        · rename_i m hm; cases hn1; exact hm
        · cases hn1
      have := hacyc N n1 hg op hop
      exact ih op.node t (by omega)

theorem visit_fuel_eq {ri : RegInfo} {g : DAG} {rank : Nat → Nat}
    (hacyc : ∀ (N : Nat) (n : SDNode), g[N]? = some n → ∀ op ∈ n.ops, rank op.node < rank N)
    {fuel : Nat} {N : Nat} (s : Emitter) (hr : rank N < fuel) :
    ∀ k, visit ri g (fuel + k) N s = visit ri g fuel N s := by
  intro k
  induction k with
  | zero => rfl
  | succ k ih =>
    rw [← Nat.add_assoc, visit_succ_eq hacyc (fuel + k) N s (by omega), ih]

set_option maxRecDepth 100000 in
/-- C13, as stated, fails: in `sharedNullGraph` the multiplication (node 2) is
used by the two register writes 5 and 6, and its visitor returns `NULL`.  The
visit of node 5 from the initial state dispatches the nodes 5 and 2 and returns
`NULL`, and the visit of node 6 that follows in the same pass dispatches the
nodes 6 and 2: node 2 is dispatched once for each of its users. -/
theorem dispatched_twice_at_sharedNullGraph :
    visit exampleRegs sharedNullGraph 3 5 (Emitter.init exampleRegs) =
        .ok (none, exampleSlotCreated) ∧
      dispatched exampleRegs sharedNullGraph 3 5 (Emitter.init exampleRegs) = [5, 2] ∧
      (visit exampleRegs sharedNullGraph 3 6 exampleSlotCreated).map (fun p => p.1) =
        .ok none ∧
      dispatched exampleRegs sharedNullGraph 3 6 exampleSlotCreated = [6, 2] := by
  decide

/-- C13, amended: in an acyclic graph `visit(N)` terminates: with a recursion
budget above the rank of `N` the budget is never exhausted, and the outcome is
the same for every such budget (the renaming loop has its own bound, whose
exhaustion is `Err.nameLoop`).  A visit that returns a value leaves it in
`VisitMap` under its node, every entry of `VisitMap` is kept by every visit, and
a node that is in `VisitMap` is not dispatched by any visit, however many nodes
use it: a node whose translation has yielded a value is not translated again
before the reset.  A node whose visit returns `NULL` is not entered in
`VisitMap`, and is dispatched by each such visit. -/
theorem visit_terminates_and_caches (ri : RegInfo) (g : DAG) (rank : Nat → Nat)
    (hacyc : Acyclic g rank) :
    (∀ (fuel N : Nat) (s : Emitter), rank N < fuel →
      visit ri g fuel N s ≠ .error .outOfFuel) ∧
    (∀ (fuel k N : Nat) (s : Emitter), rank N < fuel →
      visit ri g (fuel + k) N s = visit ri g fuel N s) ∧
    (∀ (fuel N : Nat) (s s2 : Emitter) (v : Value),
      visit ri g fuel N s = .ok (some v, s2) → s2.VisitMap.lookup N = some v) ∧
    (∀ (fuel N : Nat) (s s2 : Emitter) (r : Option Value) (M : Nat) (v : Value),
      visit ri g fuel N s = .ok (r, s2) → s.VisitMap.lookup M = some v →
      s2.VisitMap.lookup M = some v) ∧
    (∀ (fuel N : Nat) (s : Emitter) (M : Nat), s.VisitMap.lookup M ≠ none →
      M ∉ dispatched ri g fuel N s) ∧
    (∀ (fuel N : Nat) (s s2 : Emitter), visit ri g fuel N s = .ok (none, s2) →
      s2.VisitMap.lookup N = none ∧ N ∈ dispatched ri g fuel N s) := by
  refine ⟨?_, ?_, ?_, ?_, ?_, ?_⟩
  · exact visit_ne_fuel (fun N n hn op hop => hacyc.lt hn hop)
  · intro fuel k N s hr
    exact visit_fuel_eq (fun N n hn op hop => hacyc.lt hn hop) s hr k
  · intro fuel N s s2 v h
    exact visit_value_cached h
  · intro fuel N s s2 r M v h hM
    exact visit_cacheKeep h hM
  · intro fuel N s M hM
    exact dispatched_not_cached ri g M fuel N s hM
  · intro fuel N s s2 h
    refine ⟨(visit_null_stable ri g fuel N s s2 h).1, ?_⟩
    have hl := visit_none_uncached h
    cases fuel with
    | zero => cases h
    | succ fuel =>
      obtain ⟨n, hn, _⟩ := visit_succ_uncached hl h
      have hg : g[N]? = some n := by
        unfold DAG.getNode at hn
        split at hn
        · rename_i m hm; cases hn; exact hm
        · cases hn
      unfold dispatched
      rw [hl, hg]
      exact List.mem_cons_self _ _

set_option maxRecDepth 100000 in
/-- Witness for C13: the example graph, ranked by the indices of its nodes, and
the visit of its register write (node 5), first from the state in which the
slot of `R3` exists and then again. -/
theorem visit_terminates_and_caches_witness :
    Acyclic exampleGraph id ∧
      visit exampleRegs exampleGraph 6 5 exampleSlotCreated ≠ .error .outOfFuel ∧
      visit exampleRegs exampleGraph (6 + 10) 5 exampleSlotCreated =
        visit exampleRegs exampleGraph 6 5 exampleSlotCreated ∧
      exampleAfterWrite.VisitMap.lookup 5 = some exampleWrite ∧
      2 ∉ dispatched exampleRegs exampleGraph 6 4 exampleAfterWrite := by
  have hacyc : Acyclic exampleGraph id := by unfold Acyclic; decide
  have hv : visit exampleRegs exampleGraph 6 5 exampleSlotCreated =
      .ok (some exampleWrite, exampleAfterWrite) := by decide
  have h := visit_terminates_and_caches exampleRegs exampleGraph id hacyc
  exact ⟨hacyc, h.1 6 5 exampleSlotCreated (by decide),
    h.2.1 6 10 5 exampleSlotCreated (by decide), h.2.2.1 6 5 _ _ _ hv,
    h.2.2.2.2.1 6 4 exampleAfterWrite 2 (by decide)⟩

end Fracture
